import Mathlib

/-!
# GrinPlusPlus: TxHashSet validation, BlockDB, the header API, the range proof PMMR and the
owner API

A shallow embedding of `src/PMMR/TxHashSetValidator.cpp`,
`src/src/Database/BlockDBImpl.cpp`, `src/src/Server/Node/API/HeaderAPI.cpp`,
`RangeProofPMMR::Load` of `src/src/PMMR/RangeProofPMMR.h` and
`src/Server/Wallet/API/OwnerPostAPI.cpp`, followed by the properties proved about them.

Conventions.
* MMR positions, sizes and block heights are `uint64_t` in the source and naturals here.
  A loop counter never exceeds the bound it is compared with by more than one, so no counter
  wraps as long as that bound is below `2^64 - 1`.
* A `std::unique_ptr<T>` that may be null is an `Option T`.
* Functions of the repository that the translated files call but that are not among the
  translated sources are either fields of a record of helpers (`Services`, `Serialization`,
  `HeaderAPI.Helpers`, `IBlockChainServer`, `RangeProofPMMR.FileLayer`,
  `OwnerPostAPI.Helpers`, `IWalletManager`, `INodeClient`: arbitrary, the
  theorems hold for every choice) or small definitions marked as modelled from the
  specification.
* A function that can throw answers an `Except`; a function that changes a state answers the
  state it leaves. Where a property speaks of the calls a function makes, the function also
  answers those calls in order.
-/

set_option autoImplicit false

namespace Grin

/-! ## Data model -/

/-- A byte string; every element stands for one `unsigned char`. -/
abbrev Bytes := List Nat

/-- The 32-byte big integer `Hash`. -/
structure Hash where
  bytes : Bytes
  deriving DecidableEq, Repr

/-- The 33-byte Pedersen `Commitment`. -/
structure Commitment where
  bytes : Bytes
  deriving DecidableEq, Repr

/-- A bulletproof `RangeProof`. -/
structure RangeProof where
  bytes : Bytes
  deriving DecidableEq, Repr

/-- The value `CBigInteger<33>::ValueOf(0)` wrapped as a commitment. -/
def Commitment.zero : Commitment := ⟨List.replicate 33 0⟩

/-- The fields of `BlockHeader` read by the translated code, with its hash. -/
structure BlockHeader where
  GetHash : Hash
  GetHeight : Nat
  GetKernelRoot : Hash
  GetKernelMMRSize : Nat
  GetOutputMMRSize : Nat
  deriving DecidableEq, Repr

/-- The pair `BlockSums(outputSum, kernelSum)`. -/
structure BlockSums where
  outputSum : Commitment
  kernelSum : Commitment
  deriving DecidableEq, Repr

/-- The interface `MMR`: its size and the hash stored at a position (null when pruned). -/
structure MMR where
  GetSize : Nat
  GetHashAt : Nat → Option Hash

/-- The class `KernelMMR`, an `MMR` that also answers `Root(size)`. -/
structure KernelMMR extends MMR where
  Root : Nat → Hash

/-- An `OutputIdentifier`: output features and commitment. -/
structure OutputIdentifier where
  GetFeatures : Nat
  GetCommitment : Commitment
  deriving DecidableEq, Repr

/-- The class `OutputPMMR`: `GetOutputAt` is null for spent or pruned positions. -/
structure OutputPMMR extends MMR where
  GetOutputAt : Nat → Option OutputIdentifier

/-- The class `RangeProofPMMR`. -/
structure RangeProofPMMR extends MMR where
  GetRangeProofAt : Nat → Option RangeProof

/-- The coordinator `TxHashSet` owning the three MMRs. -/
structure TxHashSet where
  GetKernelMMR : KernelMMR
  GetOutputPMMR : OutputPMMR
  GetRangeProofPMMR : RangeProofPMMR

/-- The functions the validator calls whose bodies are not among the translated sources:
`MMRHashUtil::HashParentWithIndex`, `TxHashSet::ValidateRoots`,
`IBlockChainServer::GetBlockHeaderByHeight(height, EChainType::CANDIDATE)`,
`KernelSumValidator::ValidateKernelSums` (given the initial values of its two output
parameters, it answers its result and their final values), `Crypto::VerifyRangeProofs` and
`KernelSignatureValidator::ValidateKernelSignatures`. -/
structure Services where
  HashParentWithIndex : Hash → Hash → Nat → Hash
  ValidateRoots : TxHashSet → BlockHeader → Bool
  GetBlockHeaderByHeight : Nat → Option BlockHeader
  ValidateKernelSums : TxHashSet → BlockHeader → Commitment → Commitment →
    Bool × Commitment × Commitment
  VerifyRangeProofs : List Commitment → List RangeProof → Bool
  ValidateKernelSignatures : KernelMMR → Bool

/-! ## MMR position arithmetic -/

namespace MMRUtil

/-- Modelled from the spec: the helper that yields the first peak size is not among the
sources. For a 64-bit `input` it sets every bit to the right of the leading one, which gives
the smallest number of the form `2^k - 1` that is at least `input`. -/
def FillOnesToRight (input : Nat) : Nat :=
  let x := input
  let x := x ||| (x >>> 1)
  let x := x ||| (x >>> 2)
  let x := x ||| (x >>> 4)
  let x := x ||| (x >>> 8)
  let x := x ||| (x >>> 16)
  let x := x ||| (x >>> 32)
  x

/-- The peeling loop of `GetHeight`: while the peak size `2^k - 1` is not zero, subtract it
from the running value whenever it fits, then halve it. A 64-bit peak size is zero after at
most 64 halvings, which is the number of rounds allowed here. -/
def GetHeight.peel : Nat → Nat → Nat → Nat
  | 0, _, height => height
  | rounds + 1, peakSize, height =>
    if peakSize = 0 then
      height
    else
      GetHeight.peel rounds (peakSize >>> 1)
        (if height ≥ peakSize then height - peakSize else height)

/-- Modelled from the spec: `MMRUtil::GetHeight` is not among the sources. The spec (section 3)
computes the height of a position by peeling `2^k - 1` subtrees: starting from the position
itself, each peak size that still fits is subtracted, largest first, and what remains is the
height. -/
def GetHeight (mmrIndex : Nat) : Nat :=
  GetHeight.peel 64 (FillOnesToRight mmrIndex) mmrIndex

/-- Modelled from the spec: `MMRUtil::GetLeftChildIndex` is not among the sources. The spec
(section 3) places the left child of a parent at height `h ≥ 1` at `p − 2^h`. -/
def GetLeftChildIndex (parentIndex height : Nat) : Nat :=
  parentIndex - 2 ^ height

/-- Modelled from the spec: `MMRUtil::GetRightChildIndex` is not among the sources. The spec
(section 3) places the right child of a parent at `p − 1`. -/
def GetRightChildIndex (parentIndex : Nat) : Nat :=
  parentIndex - 1

end MMRUtil

/-! ## TxHashSetValidator -/

namespace TxHashSetValidator

/-- `TxHashSetValidator::ValidateSizes`. -/
def ValidateSizes (txHashSet : TxHashSet) (blockHeader : BlockHeader) : Bool :=
  if txHashSet.GetKernelMMR.GetSize ≠ blockHeader.GetKernelMMRSize then
    false
  else if txHashSet.GetOutputPMMR.GetSize ≠ blockHeader.GetOutputMMRSize then
    false
  else if txHashSet.GetRangeProofPMMR.GetSize ≠ blockHeader.GetOutputMMRSize then
    false
  else
    true

/-- The body of the `for` loop of `ValidateMMRHashes`, run over the positions still to visit. -/
def ValidateMMRHashes.loop (sv : Services) (mmr : MMR) : List Nat → Bool
  | [] => true
  | i :: rest =>
    let height := MMRUtil.GetHeight i
    if height > 0 then
      match mmr.GetHashAt i with
      | some parentHash =>
        let leftIndex := MMRUtil.GetLeftChildIndex i height
        let rightIndex := MMRUtil.GetRightChildIndex i
        match mmr.GetHashAt leftIndex, mmr.GetHashAt rightIndex with
        | some leftHash, some rightHash =>
          let expectedHash := sv.HashParentWithIndex leftHash rightHash i
          if parentHash ≠ expectedHash then
            false
          else
            ValidateMMRHashes.loop sv mmr rest
        | _, _ => ValidateMMRHashes.loop sv mmr rest
      | none => ValidateMMRHashes.loop sv mmr rest
    else
      ValidateMMRHashes.loop sv mmr rest

/-- `TxHashSetValidator::ValidateMMRHashes`: positions `0 .. size - 1` in increasing order. -/
def ValidateMMRHashes (sv : Services) (mmr : MMR) : Bool :=
  ValidateMMRHashes.loop sv mmr (List.range mmr.GetSize)

/-- The body of the `for` loop of `ValidateKernelHistory`, run over the heights still to
visit. -/
def ValidateKernelHistory.loop (sv : Services) (kernelMMR : KernelMMR) : List Nat → Bool
  | [] => true
  | height :: rest =>
    match sv.GetBlockHeaderByHeight height with
    | none => false
    | some header =>
      if kernelMMR.Root header.GetKernelMMRSize ≠ header.GetKernelRoot then
        false
      else
        ValidateKernelHistory.loop sv kernelMMR rest

/-- `TxHashSetValidator::ValidateKernelHistory`: heights `0 .. blockHeader.GetHeight()`, the
upper end included (the loop condition is `height <= blockHeader.GetHeight()`). -/
def ValidateKernelHistory (sv : Services) (kernelMMR : KernelMMR)
    (blockHeader : BlockHeader) : Bool :=
  ValidateKernelHistory.loop sv kernelMMR (List.range (blockHeader.GetHeight + 1))

/-- One call of `Crypto::VerifyRangeProofs`: the two vectors it was handed. -/
abbrev Batch := List Commitment × List RangeProof

/-- The `for` loop of `ValidateRangeProofs` followed by the final flush. The state is the two
vectors `commitments` and `rangeProofs` and, as a ghost, the calls of
`Crypto::VerifyRangeProofs` made so far. -/
def ValidateRangeProofs.loop (sv : Services) (txHashSet : TxHashSet) :
    List Nat → List Commitment → List RangeProof → List Batch → Bool × List Batch
  | [], commitments, rangeProofs, calls =>
    if !commitments.isEmpty then
      if !sv.VerifyRangeProofs commitments rangeProofs then
        (false, calls ++ [(commitments, rangeProofs)])
      else
        (true, calls ++ [(commitments, rangeProofs)])
    else
      (true, calls)
  | mmrIndex :: rest, commitments, rangeProofs, calls =>
    match txHashSet.GetOutputPMMR.GetOutputAt mmrIndex with
    | some output =>
      match txHashSet.GetRangeProofPMMR.GetRangeProofAt mmrIndex with
      | none => (false, calls)
      | some rangeProof =>
        let commitments := commitments ++ [output.GetCommitment]
        let rangeProofs := rangeProofs ++ [rangeProof]
        if commitments.length ≥ 2000 then
          if !sv.VerifyRangeProofs commitments rangeProofs then
            (false, calls ++ [(commitments, rangeProofs)])
          else
            ValidateRangeProofs.loop sv txHashSet rest [] [] (calls ++ [(commitments, rangeProofs)])
        else
          ValidateRangeProofs.loop sv txHashSet rest commitments rangeProofs calls
    | none => ValidateRangeProofs.loop sv txHashSet rest commitments rangeProofs calls

/-- `TxHashSetValidator::ValidateRangeProofs`: the returned flag and the batches submitted to
`Crypto::VerifyRangeProofs`, in order. The header argument is not read by the source. -/
def ValidateRangeProofs (sv : Services) (txHashSet : TxHashSet) (_blockHeader : BlockHeader) :
    Bool × List Batch :=
  ValidateRangeProofs.loop sv txHashSet (List.range txHashSet.GetOutputPMMR.GetSize) [] [] []

/-- The checks `Validate` can run, in the vocabulary of the source. -/
inductive Check where
  | ValidateSizes
  | ValidateMMRHashesKernel
  | ValidateMMRHashesOutput
  | ValidateMMRHashesRangeProof
  | ValidateRoots
  | ValidateKernelHistory
  | ValidateKernelSums
  | ValidateRangeProofs
  | ValidateKernelSignatures
  deriving DecidableEq, Repr

/-- What a run of `Validate` leaves behind: the checks it ran (in program order), the message
it passed to `LoggerAPI::LogError` if any, and the returned pointer. -/
structure Outcome where
  ran : List Check
  logged : Option String
  sums : Option BlockSums
  deriving DecidableEq, Repr

/-- `TxHashSetValidator::Validate`. The three hash checks are spawned together and joined
before their conjunction is tested, so all three run whenever the size check passed. -/
def Validate (sv : Services) (txHashSet : TxHashSet) (blockHeader : BlockHeader) : Outcome :=
  let kernelMMR := txHashSet.GetKernelMMR
  let outputPMMR := txHashSet.GetOutputPMMR
  let rangeProofPMMR := txHashSet.GetRangeProofPMMR
  if !ValidateSizes txHashSet blockHeader then
    ⟨[.ValidateSizes], some "TxHashSetValidator::Validate - Invalid MMR size.", none⟩
  else
    let kernelTask := ValidateMMRHashes sv kernelMMR.toMMR
    let outputTask := ValidateMMRHashes sv outputPMMR.toMMR
    let rangeProofTask := ValidateMMRHashes sv rangeProofPMMR.toMMR
    let mmrHashesValidated := kernelTask && outputTask && rangeProofTask
    if !mmrHashesValidated then
      ⟨[.ValidateSizes, .ValidateMMRHashesKernel, .ValidateMMRHashesOutput,
        .ValidateMMRHashesRangeProof],
        some "TxHashSetValidator::Validate - Invalid MMR hashes.", none⟩
    else if !sv.ValidateRoots txHashSet blockHeader then
      ⟨[.ValidateSizes, .ValidateMMRHashesKernel, .ValidateMMRHashesOutput,
        .ValidateMMRHashesRangeProof, .ValidateRoots],
        some "TxHashSetValidator::Validate - Invalid MMR roots.", none⟩
    else if !ValidateKernelHistory sv txHashSet.GetKernelMMR blockHeader then
      ⟨[.ValidateSizes, .ValidateMMRHashesKernel, .ValidateMMRHashesOutput,
        .ValidateMMRHashesRangeProof, .ValidateRoots, .ValidateKernelHistory],
        some "TxHashSetValidator::Validate - Invalid kernel history.", none⟩
    else
      let sumsResult := sv.ValidateKernelSums txHashSet blockHeader Commitment.zero Commitment.zero
      let outputSum := sumsResult.2.1
      let kernelSum := sumsResult.2.2
      if !sumsResult.1 then
        ⟨[.ValidateSizes, .ValidateMMRHashesKernel, .ValidateMMRHashesOutput,
          .ValidateMMRHashesRangeProof, .ValidateRoots, .ValidateKernelHistory,
          .ValidateKernelSums],
          some "TxHashSetValidator::Validate - Invalid kernel sums.", none⟩
      else if !(ValidateRangeProofs sv txHashSet blockHeader).1 then
        ⟨[.ValidateSizes, .ValidateMMRHashesKernel, .ValidateMMRHashesOutput,
          .ValidateMMRHashesRangeProof, .ValidateRoots, .ValidateKernelHistory,
          .ValidateKernelSums, .ValidateRangeProofs],
          some "TxHashSetValidator::Validate - Invalid range proof.", none⟩
      else if !sv.ValidateKernelSignatures txHashSet.GetKernelMMR then
        ⟨[.ValidateSizes, .ValidateMMRHashesKernel, .ValidateMMRHashesOutput,
          .ValidateMMRHashesRangeProof, .ValidateRoots, .ValidateKernelHistory,
          .ValidateKernelSums, .ValidateRangeProofs, .ValidateKernelSignatures],
          some "TxHashSetValidator::Validate - Invalid kernel signatures.", none⟩
      else
        ⟨[.ValidateSizes, .ValidateMMRHashesKernel, .ValidateMMRHashesOutput,
          .ValidateMMRHashesRangeProof, .ValidateRoots, .ValidateKernelHistory,
          .ValidateKernelSums, .ValidateRangeProofs, .ValidateKernelSignatures],
          none, some (BlockSums.mk outputSum kernelSum)⟩

end TxHashSetValidator

/-! ## BlockDB -/

/-- A `rocksdb::Status` as far as `BlockDB` inspects it: `ok()`, `IsNotFound()`, or any other
code (Corruption, IOError, Busy, ...) with its state string. -/
inductive Status where
  | ok
  | notFound
  | failure (state : String)
  deriving DecidableEq, Repr

/-- `Status::ok()`. -/
def Status.isOk : Status → Bool
  | .ok => true
  | _ => false

/-- `Status::IsNotFound()`. -/
def Status.IsNotFound : Status → Bool
  | .notFound => true
  | _ => false

/-- `Status::getState()` read as a string. -/
def Status.getState : Status → String
  | .failure state => state
  | _ => ""

/-- The column families opened by `BlockDB::OpenDB`. -/
inductive ColumnFamily where
  | DEFAULT
  | BLOCK
  | HEADER
  | BLOCK_SUMS
  | OUTPUT_POS
  | INPUT_BITMAP
  deriving DecidableEq, Repr

/-- A rocksdb handle (the base `DB` or an open `Transaction`) as `BlockDB` sees it through
`Get` and `Put`: the key-value content visible through the handle, and the failure the storage
engine answers with while it is broken. -/
structure KVHandle where
  data : ColumnFamily → Bytes → Option Bytes
  broken : Option String

/-- The call `Get(ReadOptions(), pFamilyHandle, key, pValue)`: the status and the value read. -/
def KVHandle.Get (h : KVHandle) (family : ColumnFamily) (key : Bytes) : Status × Bytes :=
  match h.broken with
  | some state => (.failure state, [])
  | none =>
    match h.data family key with
    | some value => (.ok, value)
    | none => (.notFound, [])

/-- The call `Put(pFamilyHandle, key, value)`: the status and the handle afterwards. -/
def KVHandle.Put (h : KVHandle) (family : ColumnFamily) (key value : Bytes) :
    Status × KVHandle :=
  match h.broken with
  | some state => (.failure state, h)
  | none =>
    (.ok, { h with data := fun f k => if f = family ∧ k = key then some value else h.data f k })

/-- The call `OptimisticTransactionDB::BeginTransaction(WriteOptions())` on the base handle: a
transaction handle through which the content of the base DB is visible and which has no write
of its own yet. -/
def KVHandle.BeginTransaction (base : KVHandle) : KVHandle :=
  { data := base.data, broken := base.broken }

/-- The call `Transaction::Commit()`: the status and the base DB afterwards. A commit that is
answered ok makes the content visible through the transaction the content of the base DB; a
failed one leaves the base DB as it is. -/
def KVHandle.Commit (pTransaction base : KVHandle) : Status × KVHandle :=
  match pTransaction.broken with
  | some state => (.failure state, base)
  | none => (.ok, { base with data := pTransaction.data })

/-- The call `Transaction::Rollback()`: the status and the transaction afterwards. A rollback
that is answered ok drops the writes of the transaction, so that the content of the base DB
is what is visible through it again. -/
def KVHandle.Rollback (pTransaction base : KVHandle) : Status × KVHandle :=
  match pTransaction.broken with
  | some state => (.failure state, pTransaction)
  | none => (.ok, { pTransaction with data := base.data })

/-- The block body kept next to its header in a `FullBlock`. -/
structure FullBlock where
  header : BlockHeader
  body : Bytes
  deriving DecidableEq, Repr

/-- `FullBlock::GetHash`, the hash of the block header. -/
def FullBlock.GetHash (block : FullBlock) : Hash := block.header.GetHash

/-- An `OutputLocation`: MMR index and block height of an output. -/
structure OutputLocation where
  mmrIndex : Nat
  blockHeight : Nat
  deriving DecidableEq, Repr

/-- A `Roaring` bitmap, as the set of the values it holds. -/
structure Roaring where
  values : List Nat
  deriving DecidableEq, Repr

/-- The serialisation routines `BlockDB` calls, whose bodies are not among the translated
sources. A deserialiser answers either a value or the `what()` of the exception it throws.
`RoaringWrite` is the byte string `Roaring::write` produces. -/
structure Serialization where
  SerializeHeader : BlockHeader → Bytes
  DeserializeHeader : Bytes → Except String BlockHeader
  SerializeBlock : FullBlock → Bytes
  DeserializeBlock : Bytes → Except String FullBlock
  SerializeBlockSums : BlockSums → Bytes
  DeserializeBlockSums : Bytes → Except String BlockSums
  SerializeOutputLocation : OutputLocation → Bytes
  DeserializeOutputLocation : Bytes → Except String OutputLocation
  RoaringSizeInBytes : Roaring → Nat
  RoaringWrite : Roaring → Bytes
  RoaringReadSafe : Bytes → Except String Roaring

/-- How a `BlockDB` call can end other than by returning: by throwing `DatabaseException`, by
letting another `std::exception` escape, or by calling through the null `m_pTransaction`. -/
inductive Exn where
  | DatabaseException (message : String)
  | StdException (what : String)
  | NullDereference
  deriving DecidableEq, Repr

/-- Modelled from the spec: the cache template behind `FIFOCache<Hash, BlockHeaderPtr>` is not
among the sources. Section 4.L describes a first-in-first-out cache of fixed capacity; it is
kept as its capacity and its entries, oldest first. -/
structure FIFOCache where
  capacity : Nat
  entries : List (Hash × BlockHeader)
  deriving DecidableEq, Repr

/-- Modelled from the spec: `FIFOCache::Cached`, whether an entry is held under the key. -/
def FIFOCache.Cached (cache : FIFOCache) (key : Hash) : Bool :=
  cache.entries.any (fun e => e.1 = key)

/-- Modelled from the spec: `FIFOCache::Get`, the value held under the key; nothing is found
for a key that is not cached. -/
def FIFOCache.Get (cache : FIFOCache) (key : Hash) : Option BlockHeader :=
  (cache.entries.find? (fun e => e.1 = key)).map (fun e => e.2)

/-- Modelled from the spec: `FIFOCache::Put`. A cached key has its value replaced in place; a
new key is appended as the newest entry, after the oldest entry is dropped when the cache is
full. -/
def FIFOCache.Put (cache : FIFOCache) (key : Hash) (value : BlockHeader) : FIFOCache :=
  if cache.Cached key then
    { cache with entries := cache.entries.map (fun e => if e.1 = key then (key, value) else e) }
  else if cache.entries.length + 1 > cache.capacity then
    { cache with entries := cache.entries.drop 1 ++ [(key, value)] }
  else
    { cache with entries := cache.entries ++ [(key, value)] }

/-- The state of a `BlockDB` together with the file-level `BLOCK_HEADERS_CACHE`. -/
structure BlockDB where
  m_pDatabase : KVHandle
  m_pTransaction : Option KVHandle
  m_uncommitted : List BlockHeader
  BLOCK_HEADERS_CACHE : FIFOCache

namespace BlockDB

/-- `BlockDB::Read`. -/
def Read (db : BlockDB) (pFamilyHandle : ColumnFamily) (key : Bytes) : Status × Bytes :=
  match db.m_pTransaction with
  | some pTransaction => pTransaction.Get pFamilyHandle key
  | none => db.m_pDatabase.Get pFamilyHandle key

/-- `BlockDB::Write`: the status and the state afterwards. -/
def Write (db : BlockDB) (pFamilyHandle : ColumnFamily) (key value : Bytes) :
    Status × BlockDB :=
  match db.m_pTransaction with
  | some pTransaction =>
    let r := pTransaction.Put pFamilyHandle key value
    (r.1, { db with m_pTransaction := some r.2 })
  | none =>
    let r := db.m_pDatabase.Put pFamilyHandle key value
    (r.1, { db with m_pDatabase := r.2 })

/-- `BlockDB::GetBlockHeader`. An exception of the deserialiser is caught and thrown again as
`DatabaseException`. -/
def GetBlockHeader (ser : Serialization) (db : BlockDB) (hash : Hash) :
    Except Exn (Option BlockHeader) :=
  if db.BLOCK_HEADERS_CACHE.Cached hash then
    .ok (db.BLOCK_HEADERS_CACHE.Get hash)
  else
    let key := hash.bytes
    let r := db.Read .HEADER key
    let status := r.1
    let value := r.2
    if status.isOk then
      match ser.DeserializeHeader value with
      | .ok header => .ok (some header)
      | .error what => .error (.DatabaseException what)
    else if status.IsNotFound then
      .ok none
    else
      .error (.DatabaseException ("DB::Get Failed with error: " ++ status.getState))

/-- `BlockDB::AddBlockHeader`: how the call ends and the state afterwards. -/
def AddBlockHeader (ser : Serialization) (db : BlockDB) (pBlockHeader : BlockHeader) :
    Except Exn Unit × BlockDB :=
  let hash := pBlockHeader.GetHash
  let key := hash.bytes
  let value := ser.SerializeHeader pBlockHeader
  let r := db.Write .HEADER key value
  let status := r.1
  let db := r.2
  if !status.isOk then
    (.error (.DatabaseException ("DB::Put Failed with error: " ++ status.getState)), db)
  else if db.m_pTransaction.isSome then
    (.ok (), { db with m_uncommitted := db.m_uncommitted ++ [pBlockHeader] })
  else
    (.ok (), { db with
      BLOCK_HEADERS_CACHE := db.BLOCK_HEADERS_CACHE.Put pBlockHeader.GetHash pBlockHeader })

/-- The `for` loop of `BlockDB::AddBlockHeaders`, which puts straight into `m_pTransaction`. -/
def AddBlockHeaders.loop (ser : Serialization) :
    List BlockHeader → BlockDB → Except Exn Unit × BlockDB
  | [], db => (.ok (), db)
  | pBlockHeader :: rest, db =>
    let hash := pBlockHeader.GetHash
    let key := hash.bytes
    let value := ser.SerializeHeader pBlockHeader
    match db.m_pTransaction with
    | none => (.error .NullDereference, db)
    | some pTransaction =>
      let r := pTransaction.Put .HEADER key value
      let status := r.1
      let db := { db with m_pTransaction := some r.2 }
      if !status.isOk then
        (.error (.DatabaseException ("WriteBatch::put failed with error: " ++ status.getState)),
          db)
      else
        AddBlockHeaders.loop ser rest db

/-- `BlockDB::AddBlockHeaders`. -/
def AddBlockHeaders (ser : Serialization) (db : BlockDB) (blockHeaders : List BlockHeader) :
    Except Exn Unit × BlockDB :=
  AddBlockHeaders.loop ser blockHeaders db

/-- `BlockDB::AddBlock`. -/
def AddBlock (ser : Serialization) (db : BlockDB) (block : FullBlock) :
    Except Exn Unit × BlockDB :=
  let hash := block.GetHash.bytes
  let key := hash
  let value := ser.SerializeBlock block
  let r := db.Write .BLOCK key value
  let status := r.1
  if !status.isOk then
    (.error (.DatabaseException "Failed to save Block."), r.2)
  else
    (.ok (), r.2)

/-- `BlockDB::GetBlock`. It has no handler: an exception of the deserialiser escapes as it
is. -/
def GetBlock (ser : Serialization) (db : BlockDB) (hash : Hash) :
    Except Exn (Option FullBlock) :=
  let pBlock : Option FullBlock := none
  let key := hash.bytes
  let r := db.Read .BLOCK key
  let s := r.1
  let value := r.2
  if s.isOk then
    match ser.DeserializeBlock value with
    | .ok block => .ok (some block)
    | .error what => .error (.StdException what)
  else
    .ok pBlock

/-- `BlockDB::AddBlockSums`. -/
def AddBlockSums (ser : Serialization) (db : BlockDB) (blockHash : Hash)
    (blockSums : BlockSums) : Except Exn Unit × BlockDB :=
  let key := blockHash.bytes
  let value := ser.SerializeBlockSums blockSums
  let r := db.Write .BLOCK_SUMS key value
  let status := r.1
  if !status.isOk then
    (.error (.DatabaseException "Failed to save BlockSums."), r.2)
  else
    (.ok (), r.2)

/-- `BlockDB::GetBlockSums`. -/
def GetBlockSums (ser : Serialization) (db : BlockDB) (blockHash : Hash) :
    Except Exn (Option BlockSums) :=
  let pBlockSums : Option BlockSums := none
  let key := blockHash.bytes
  let r := db.Read .BLOCK_SUMS key
  let s := r.1
  let value := r.2
  if s.isOk then
    match ser.DeserializeBlockSums value with
    | .ok blockSums => .ok (some blockSums)
    | .error what => .error (.StdException what)
  else
    .ok pBlockSums

/-- `BlockDB::AddOutputPosition`. The key is the first 32 bytes of the commitment. -/
def AddOutputPosition (ser : Serialization) (db : BlockDB) (outputCommitment : Commitment)
    (location : OutputLocation) : Except Exn Unit × BlockDB :=
  let key := outputCommitment.bytes.take 32
  let value := ser.SerializeOutputLocation location
  let r := db.Write .OUTPUT_POS key value
  let status := r.1
  if !status.isOk then
    (.error (.DatabaseException "Failed to save output location."), r.2)
  else
    (.ok (), r.2)

/-- `BlockDB::GetOutputPosition`. The key is the first 32 bytes of the commitment. -/
def GetOutputPosition (ser : Serialization) (db : BlockDB) (outputCommitment : Commitment) :
    Except Exn (Option OutputLocation) :=
  let pOutputPosition : Option OutputLocation := none
  let key := outputCommitment.bytes.take 32
  let r := db.Read .OUTPUT_POS key
  let s := r.1
  let value := r.2
  if s.isOk then
    match ser.DeserializeOutputLocation value with
    | .ok location => .ok (some location)
    | .error what => .error (.StdException what)
  else
    .ok pOutputPosition

/-- `BlockDB::AddBlockInputBitmap`. The status of the write is stored in a local and not
looked at. -/
def AddBlockInputBitmap (ser : Serialization) (db : BlockDB) (blockHash : Hash)
    (bitmap : Roaring) : Except Exn Unit × BlockDB :=
  let key := blockHash.bytes
  let bitmapSize := ser.RoaringSizeInBytes bitmap
  let serializedBitmap := ser.RoaringWrite bitmap
  let bytesWritten := serializedBitmap.length
  if bytesWritten ≠ bitmapSize then
    (.error (.DatabaseException
      "Roaring bitmap did not serialize to expected number of bytes."), db)
  else
    let value := serializedBitmap
    let r := db.Write .INPUT_BITMAP key value
    let _status := r.1
    (.ok (), r.2)

/-- `BlockDB::GetBlockInputBitmap`. An exception of `Roaring::readSafe` is caught and thrown
again as `DatabaseException`. -/
def GetBlockInputBitmap (ser : Serialization) (db : BlockDB) (blockHash : Hash) :
    Except Exn (Option Roaring) :=
  let key := blockHash.bytes
  let r := db.Read .INPUT_BITMAP key
  let s := r.1
  let value := r.2
  if s.isOk then
    match ser.RoaringReadSafe value with
    | .ok bitmap => .ok (some bitmap)
    | .error what => .error (.DatabaseException what)
  else if s.IsNotFound then
    .ok none
  else
    .error (.DatabaseException ("DB::Get Failed with error: " ++ s.getState))

/-- `BlockDB::Commit`: how the call ends and the state afterwards. -/
def Commit (db : BlockDB) : Except Exn Unit × BlockDB :=
  match db.m_pTransaction with
  | none => (.error .NullDereference, db)
  | some pTransaction =>
    let r := pTransaction.Commit db.m_pDatabase
    let status := r.1
    if !status.isOk then
      (.error (.DatabaseException
        ("Transaction::Commit Failed with error: " ++ status.getState)), db)
    else
      (.ok (), { db with
        m_pDatabase := r.2
        BLOCK_HEADERS_CACHE :=
          db.m_uncommitted.foldl (fun cache pHeader => cache.Put pHeader.GetHash pHeader)
            db.BLOCK_HEADERS_CACHE
        m_uncommitted := [] })

/-- `BlockDB::Rollback`: how the call ends and the state afterwards. The uncommitted headers
are cleared before the transaction is asked to roll back. -/
def Rollback (db : BlockDB) : Except Exn Unit × BlockDB :=
  let db := { db with m_uncommitted := [] }
  match db.m_pTransaction with
  | none => (.error .NullDereference, db)
  | some pTransaction =>
    let r := pTransaction.Rollback db.m_pDatabase
    let status := r.1
    let db := { db with m_pTransaction := some r.2 }
    if !status.isOk then
      (.error (.DatabaseException
        ("Transaction::Rollback Failed with error: " ++ status.getState)), db)
    else
      (.ok (), db)

/-- `BlockDB::OnInitWrite`. -/
def OnInitWrite (db : BlockDB) : BlockDB :=
  { db with m_pTransaction := some db.m_pDatabase.BeginTransaction }

/-- `BlockDB::OnEndWrite`. -/
def OnEndWrite (db : BlockDB) : BlockDB :=
  { db with m_pTransaction := none }

end BlockDB

/-! ## HeaderAPI -/

/-- The chain selector `EChainType`. The sources name `EChainType::CANDIDATE` only; the other
values of the enumeration are kept by name. -/
inductive EChainType where
  | CANDIDATE
  | other (name : String)
  deriving DecidableEq, Repr

/-- The C++ exceptions a call made by `GetHeader` can throw, by the handler that catches them:
`std::invalid_argument`, `std::out_of_range`, or another class derived from
`std::exception`. -/
inductive Thrown where
  | invalid_argument
  | out_of_range
  | exception (what : String)
  deriving DecidableEq, Repr

/-- The three lookups of `IBlockChainServer` which `GetHeader` calls; their bodies are not among
the sources. They answer a header or null. -/
structure IBlockChainServer where
  GetBlockHeaderByHash : Hash → Option BlockHeader
  GetBlockHeaderByCommitment : Commitment → Option BlockHeader
  GetBlockHeaderByHeight : Nat → EChainType → Option BlockHeader

/-- The node context handed to the handler. -/
structure NodeContext where
  m_pBlockChainServer : IBlockChainServer

/-- The connection of a request, by the URI that was requested. -/
structure mg_connection where
  uri : String
  deriving DecidableEq, Repr

/-- The answer a handler builds: `HTTPUtil::BuildSuccessResponse` or
`HTTPUtil::BuildBadRequestResponse` with the given body. -/
inductive Response where
  | BuildSuccessResponse (body : String)
  | BuildBadRequestResponse (body : String)
  deriving DecidableEq, Repr

namespace HeaderAPI

/-- The helpers `GetHeader` and its handler call whose bodies are not among the sources:
`HexUtil::IsValidHex`, `Hash::FromHex`, `CBigInteger<33>::FromHex` (the bytes of the value),
`std::stoull(requestedHeader, &sz, 0)`, `JSONFactory::BuildHeaderJSON` followed by
`toStyledString`, and `HTTPUtil::GetURIParam`. The conversions answer a value or throw. -/
structure Helpers where
  IsValidHex : String → Bool
  HashFromHex : String → Except Thrown Hash
  CBigIntegerFromHex : String → Except Thrown Bytes
  stoull : String → Except Thrown Nat
  BuildHeaderJSON : BlockHeader → String
  GetURIParam : mg_connection → String → String

/-- One call of a lookup of the block chain server, with its arguments. -/
inductive Lookup where
  | GetBlockHeaderByHash (hash : Hash)
  | GetBlockHeaderByCommitment (outputCommitment : Commitment)
  | GetBlockHeaderByHeight (height : Nat) (chainType : EChainType)
  deriving DecidableEq, Repr

/-- What a run of `GetHeader` leaves: the pointer it returns (`none` is `nullptr`) or the
exception that escapes it, and the lookups it called on the server, in order. -/
structure Answer where
  result : Except Thrown (Option BlockHeader)
  lookups : List Lookup

/-- `HeaderAPI::GetHeader`. `requestedHeader.length()` is the number of bytes of the string. The
first two branches catch every `std::exception`, the third catches `std::invalid_argument`
only; after a branch that did not return, the function returns `nullptr`. -/
def GetHeader (env : Helpers) (requestedHeader : String)
    (pBlockChainServer : IBlockChainServer) : Answer :=
  if requestedHeader.utf8ByteSize == 64 && env.IsValidHex requestedHeader then
    match env.HashFromHex requestedHeader with
    | .ok hash =>
      match pBlockChainServer.GetBlockHeaderByHash hash with
      | some pHeader => ⟨.ok (some pHeader), [.GetBlockHeaderByHash hash]⟩
      | none => ⟨.ok none, [.GetBlockHeaderByHash hash]⟩
    | .error _ => ⟨.ok none, []⟩
  else if requestedHeader.utf8ByteSize == 66 && env.IsValidHex requestedHeader then
    match env.CBigIntegerFromHex requestedHeader with
    | .ok bytes =>
      let outputCommitment : Commitment := ⟨bytes⟩
      match pBlockChainServer.GetBlockHeaderByCommitment outputCommitment with
      | some pHeader => ⟨.ok (some pHeader), [.GetBlockHeaderByCommitment outputCommitment]⟩
      | none => ⟨.ok none, [.GetBlockHeaderByCommitment outputCommitment]⟩
    | .error _ => ⟨.ok none, []⟩
  else
    match env.stoull requestedHeader with
    | .ok height =>
      match pBlockChainServer.GetBlockHeaderByHeight height .CANDIDATE with
      | some pHeader => ⟨.ok (some pHeader), [.GetBlockHeaderByHeight height .CANDIDATE]⟩
      | none => ⟨.ok none, [.GetBlockHeaderByHeight height .CANDIDATE]⟩
    | .error .invalid_argument => ⟨.ok none, []⟩
    | .error thrown => ⟨.error thrown, []⟩

/-- `HeaderAPI::GetHeader_Handler`: the response built for the connection, or the exception that
escaped `GetHeader`. -/
def GetHeader_Handler (env : Helpers) (conn : mg_connection) (pNodeContext : NodeContext) :
    Except Thrown Response :=
  let requestedHeader := env.GetURIParam conn "/v1/headers/"
  match (GetHeader env requestedHeader pNodeContext.m_pBlockChainServer).result with
  | .error thrown => .error thrown
  | .ok (some pBlockHeader) => .ok (.BuildSuccessResponse (env.BuildHeaderJSON pBlockHeader))
  | .ok none => .ok (.BuildBadRequestResponse "HEADER NOT FOUND")

end HeaderAPI

/-! ## RangeProofPMMR -/

namespace RangeProofPMMR

/-- The file helpers `Load` calls, whose bodies are not among the sources: `FileUtil::Exists`,
`FileUtil::ReadFile` (`none` when it answers false), `Roaring::readSafe`,
`BitmapFile::Create`, `HashFile::Load`, `LeafSet::Load`, `PruneList::Load` and
`DataFile<RANGE_PROOF_SIZE>::Load`. `FS` is the state of the disk; a helper that can change
the disk answers the state it leaves, and a helper that can throw answers its value or the
`what()` of the exception. -/
structure FileLayer (FS HashFile LeafSet PruneList DataFile : Type) where
  Exists : FS → String → Bool
  ReadFile : FS → String → Option Bytes
  readSafe : Bytes → Except String Roaring
  BitmapFileCreate : FS → String → Roaring → Except String Unit × FS
  HashFileLoad : FS → String → Except String HashFile × FS
  LeafSetLoad : FS → String → Except String LeafSet × FS
  PruneListLoad : FS → String → Except String PruneList × FS
  DataFileLoad : FS → String → Except String DataFile × FS

/-- The four files a `RangeProofPMMR` is constructed from. -/
structure Files (HashFile LeafSet PruneList DataFile : Type) where
  pHashFile : HashFile
  pLeafSet : LeafSet
  pPruneList : PruneList
  pDataFile : DataFile

/-- What a run of `Load` leaves: the object it returns or the exception that escapes it, the
state of the disk, the paths it gave to `FileUtil::ReadFile` and the calls of
`BitmapFile::Create` it made, in order. -/
structure Loaded (FS HashFile LeafSet PruneList DataFile : Type) where
  result : Except String (Files HashFile LeafSet PruneList DataFile)
  disk : FS
  reads : List String
  created : List (String × Roaring)

/-- The `if` statement of `RangeProofPMMR::Load` that promotes the legacy leaf file, run on the
disk as `HashFile::Load` left it: what `BitmapFile::Create` answers (or the exception thrown by
`Roaring::readSafe`; `ok` on the untouched disk when the condition is false), the paths read
and the creations made. A default-constructed `Roaring` is the empty bitmap. -/
def Load.promote {FS HashFile LeafSet PruneList DataFile : Type}
    (io : FileLayer FS HashFile LeafSet PruneList DataFile) (disk : FS)
    (txHashSetPath : String) :
    (Except String Unit × FS) × List String × List (String × Roaring) :=
  if !io.Exists disk (txHashSetPath ++ "rangeproof/pmmr_leafset.bin")
      && io.Exists disk (txHashSetPath ++ "rangeproof/pmmr_leaf.bin") then
    match io.ReadFile disk (txHashSetPath ++ "rangeproof/pmmr_leaf.bin") with
    | some outputBytes =>
      match io.readSafe outputBytes with
      | .ok outputBitmap =>
        (io.BitmapFileCreate disk (txHashSetPath ++ "rangeproof/pmmr_leafset.bin")
            outputBitmap,
          [txHashSetPath ++ "rangeproof/pmmr_leaf.bin"],
          [(txHashSetPath ++ "rangeproof/pmmr_leafset.bin", outputBitmap)])
      | .error what =>
        ((.error what, disk), [txHashSetPath ++ "rangeproof/pmmr_leaf.bin"], [])
    | none =>
      (io.BitmapFileCreate disk (txHashSetPath ++ "rangeproof/pmmr_leafset.bin") ⟨[]⟩,
        [txHashSetPath ++ "rangeproof/pmmr_leaf.bin"],
        [(txHashSetPath ++ "rangeproof/pmmr_leafset.bin", ⟨[]⟩)])
  else
    ((.ok (), disk), [], [])

/-- `RangeProofPMMR::Load`: the hash file is loaded, the legacy leaf file is promoted if need
be, then the leaf set, the prune list and the data file are loaded. -/
def Load {FS HashFile LeafSet PruneList DataFile : Type}
    (io : FileLayer FS HashFile LeafSet PruneList DataFile) (disk : FS)
    (txHashSetPath : String) : Loaded FS HashFile LeafSet PruneList DataFile :=
  match io.HashFileLoad disk (txHashSetPath ++ "rangeproof/pmmr_hash.bin") with
  | (.error what, disk) => ⟨.error what, disk, [], []⟩
  | (.ok pHashFile, disk) =>
    match Load.promote io disk txHashSetPath with
    | ((.error what, disk), reads, created) => ⟨.error what, disk, reads, created⟩
    | ((.ok (), disk), reads, created) =>
      match io.LeafSetLoad disk (txHashSetPath ++ "rangeproof/pmmr_leafset.bin") with
      | (.error what, disk) => ⟨.error what, disk, reads, created⟩
      | (.ok pLeafSet, disk) =>
        match io.PruneListLoad disk (txHashSetPath ++ "rangeproof/pmmr_prun.bin") with
        | (.error what, disk) => ⟨.error what, disk, reads, created⟩
        | (.ok pPruneList, disk) =>
          match io.DataFileLoad disk (txHashSetPath ++ "rangeproof/pmmr_data.bin") with
          | (.error what, disk) => ⟨.error what, disk, reads, created⟩
          | (.ok pDataFile, disk) =>
            ⟨.ok ⟨pHashFile, pLeafSet, pPruneList, pDataFile⟩, disk, reads, created⟩

end RangeProofPMMR

/-! ## OwnerPostAPI -/

namespace RestUtil

/-- The answer a wallet handler builds: `RestUtil::BuildSuccessResponse`,
`RestUtil::BuildBadRequestResponse`, `RestUtil::BuildInternalErrorResponse` or
`RestUtil::BuildUnauthorizedResponse` with the given body. -/
inductive Response where
  | BuildSuccessResponse (body : String)
  | BuildBadRequestResponse (body : String)
  | BuildInternalErrorResponse (body : String)
  | BuildUnauthorizedResponse (body : String)
  deriving DecidableEq, Repr

end RestUtil

namespace OwnerPostAPI

variable {Json SessionToken Slate Transaction Uuid SelectionStrategy : Type}

/-- The helpers the handlers of `OwnerPostAPI` call whose bodies are not among the sources:
those of `RestUtil` that read the request, `SessionTokenUtil::GetSessionToken`,
`SessionToken::ToBase64`, `JsonUtil::GetRequiredField` and `JsonUtil::GetStringOpt`, the
members of `Json::Value` the handlers use (`get(key, Json::nullValue)`, the comparison with
`Json::nullValue`, `isUInt64`, `asUInt64`, `asString`, `toStyledString`), an object built
from string members, `Json::writeString` without indentation, the conversions of `Slate` and
`Transaction` from and to JSON, `uuids::uuid::from_string`, `std::stoul` and
`SelectionStrategy::FromString`. A helper that can throw answers its value or the exception.
A `SecureString` is kept as the string it wraps. -/
structure Helpers (Json SessionToken Slate Transaction Uuid SelectionStrategy : Type) where
  GetHeaderValue : mg_connection → String → Option String
  GetQueryParam : mg_connection → String → Option String
  HasQueryParam : mg_connection → String → Bool
  GetRequestBody : mg_connection → Option Json
  GetSessionToken : mg_connection → Except Thrown SessionToken
  ToBase64 : SessionToken → String
  GetRequiredField : Json → String → Except Thrown Json
  GetStringOpt : Json → String → Except Thrown (Option String)
  get : Json → String → Json
  isNull : Json → Bool
  isUInt64 : Json → Bool
  asUInt64 : Json → Nat
  asString : Json → Except Thrown String
  toStyledString : Json → String
  object : List (String × String) → Json
  writeString : Json → String
  SlateFromJSON : Json → Except Thrown Slate
  SlateToJSON : Slate → Json
  TransactionFromJSON : Json → Except Thrown Transaction
  TransactionToJSON : Transaction → Json
  uuid_from_string : String → Option Uuid
  stoul : String → Except Thrown Nat
  SelectionStrategyFromString : String → Except Thrown SelectionStrategy

/-- The operations of `IWalletManager` the handlers call, in the state the wallet manager is
in when the request arrives: what each answers, or the exception it throws. `Receive` takes
the slate by reference and answers it as it leaves it. -/
structure IWalletManager (SessionToken Slate Transaction Uuid SelectionStrategy : Type) where
  InitializeNewWallet : String → String → Except Thrown (Option (String × SessionToken))
  Login : String → String → Except Thrown (Option SessionToken)
  Logout : SessionToken → Except Thrown Unit
  Restore : String → String → String → Except Thrown (Option SessionToken)
  CheckForOutputs : SessionToken → Except Thrown Bool
  Send : SessionToken → Nat → Nat → Option String → SelectionStrategy →
    Except Thrown (Option Slate)
  Receive : SessionToken → Slate → Option String → Except Thrown (Bool × Slate)
  Finalize : SessionToken → Slate → Except Thrown (Option Transaction)
  PostTransaction : SessionToken → Transaction → Except Thrown Bool
  CancelBySlateId : SessionToken → Uuid → Except Thrown Bool
  CancelByTxId : SessionToken → Nat → Except Thrown Bool

/-- The operation of `INodeClient` the handlers call. -/
structure INodeClient (Transaction : Type) where
  PostTransaction : Transaction → Except Thrown Bool

/-- One call of an operation of the wallet manager or of the node client, with its
arguments. -/
inductive Call (SessionToken Slate Transaction Uuid SelectionStrategy : Type) where
  | InitializeNewWallet (username password : String)
  | Login (username password : String)
  | Logout (token : SessionToken)
  | Restore (username password walletWords : String)
  | CheckForOutputs (token : SessionToken)
  | Send (token : SessionToken) (amount feeBase : Nat) (messageOpt : Option String)
      (strategy : SelectionStrategy)
  | Receive (token : SessionToken) (slate : Slate) (messageOpt : Option String)
  | Finalize (token : SessionToken) (slate : Slate)
  | PostTransaction (token : SessionToken) (transaction : Transaction)
  | CancelBySlateId (token : SessionToken) (slateId : Uuid)
  | CancelByTxId (token : SessionToken) (id : Nat)
  | NodePostTransaction (transaction : Transaction)

/-- What a run of a handler leaves: the response it built or the exception that escapes it, and
the operations of the wallet manager and of the node client it called, in order. -/
structure Outcome (SessionToken Slate Transaction Uuid SelectionStrategy : Type) where
  response : Except Thrown RestUtil.Response
  calls : List (Call SessionToken Slate Transaction Uuid SelectionStrategy)

/-- `OwnerPostAPI::CreateWallet`. -/
def CreateWallet (env : Helpers Json SessionToken Slate Transaction Uuid SelectionStrategy)
    (pConnection : mg_connection)
    (walletManager : IWalletManager SessionToken Slate Transaction Uuid SelectionStrategy) :
    Outcome SessionToken Slate Transaction Uuid SelectionStrategy :=
  match env.GetHeaderValue pConnection "username" with
  | none => ⟨.ok (.BuildBadRequestResponse "username missing."), []⟩
  | some username =>
    match env.GetHeaderValue pConnection "password" with
    | none => ⟨.ok (.BuildBadRequestResponse "password missing."), []⟩
    | some password =>
      match walletManager.InitializeNewWallet username password with
      | .error thrown => ⟨.error thrown, [.InitializeNewWallet username password]⟩
      | .ok (some wallet) =>
        ⟨.ok (.BuildSuccessResponse (env.toStyledString (env.object
            [("wallet_seed", wallet.1), ("session_token", env.ToBase64 wallet.2)]))),
          [.InitializeNewWallet username password]⟩
      | .ok none =>
        ⟨.ok (.BuildInternalErrorResponse "Unknown error occurred."),
          [.InitializeNewWallet username password]⟩

/-- `OwnerPostAPI::Login`. -/
def Login (env : Helpers Json SessionToken Slate Transaction Uuid SelectionStrategy)
    (pConnection : mg_connection)
    (walletManager : IWalletManager SessionToken Slate Transaction Uuid SelectionStrategy) :
    Outcome SessionToken Slate Transaction Uuid SelectionStrategy :=
  match env.GetHeaderValue pConnection "username" with
  | none => ⟨.ok (.BuildBadRequestResponse "username missing"), []⟩
  | some username =>
    match env.GetHeaderValue pConnection "password" with
    | none => ⟨.ok (.BuildBadRequestResponse "password missing"), []⟩
    | some password =>
      match walletManager.Login username password with
      | .error thrown => ⟨.error thrown, [.Login username password]⟩
      | .ok (some pSessionToken) =>
        ⟨.ok (.BuildSuccessResponse (env.toStyledString (env.object
            [("session_token", env.ToBase64 pSessionToken)]))),
          [.Login username password]⟩
      | .ok none =>
        ⟨.ok (.BuildUnauthorizedResponse "Invalid username/password"),
          [.Login username password]⟩

/-- `OwnerPostAPI::Logout`. -/
def Logout
    (walletManager : IWalletManager SessionToken Slate Transaction Uuid SelectionStrategy)
    (token : SessionToken) : Outcome SessionToken Slate Transaction Uuid SelectionStrategy :=
  match walletManager.Logout token with
  | .error thrown => ⟨.error thrown, [.Logout token]⟩
  | .ok () => ⟨.ok (.BuildSuccessResponse ""), [.Logout token]⟩

/-- `OwnerPostAPI::RestoreWallet`. -/
def RestoreWallet (env : Helpers Json SessionToken Slate Transaction Uuid SelectionStrategy)
    (pConnection : mg_connection)
    (walletManager : IWalletManager SessionToken Slate Transaction Uuid SelectionStrategy)
    (json : Json) : Outcome SessionToken Slate Transaction Uuid SelectionStrategy :=
  match env.GetHeaderValue pConnection "username" with
  | none => ⟨.ok (.BuildBadRequestResponse "username missing."), []⟩
  | some username =>
    match env.GetHeaderValue pConnection "password" with
    | none => ⟨.ok (.BuildBadRequestResponse "password missing."), []⟩
    | some password =>
      match env.GetRequiredField json "wallet_seed" with
      | .error thrown => ⟨.error thrown, []⟩
      | .ok walletWordsJSON =>
        match env.asString walletWordsJSON with
        | .error thrown => ⟨.error thrown, []⟩
        | .ok walletWords =>
          match walletManager.Restore username password walletWords with
          | .error thrown => ⟨.error thrown, [.Restore username password walletWords]⟩
          | .ok (some token) =>
            ⟨.ok (.BuildSuccessResponse (env.toStyledString (env.object
                [("session_token", env.ToBase64 token)]))),
              [.Restore username password walletWords]⟩
          | .ok none =>
            ⟨.ok (.BuildInternalErrorResponse "Unknown error occurred."),
              [.Restore username password walletWords]⟩

/-- `OwnerPostAPI::UpdateWallet`. -/
def UpdateWallet
    (walletManager : IWalletManager SessionToken Slate Transaction Uuid SelectionStrategy)
    (token : SessionToken) : Outcome SessionToken Slate Transaction Uuid SelectionStrategy :=
  match walletManager.CheckForOutputs token with
  | .error thrown => ⟨.error thrown, [.CheckForOutputs token]⟩
  | .ok true => ⟨.ok (.BuildSuccessResponse ""), [.CheckForOutputs token]⟩
  | .ok false =>
    ⟨.ok (.BuildInternalErrorResponse "CheckForOutputs failed"), [.CheckForOutputs token]⟩

/-- `OwnerPostAPI::Send`. The selection strategy is converted before the wallet manager is
called. -/
def Send (env : Helpers Json SessionToken Slate Transaction Uuid SelectionStrategy)
    (walletManager : IWalletManager SessionToken Slate Transaction Uuid SelectionStrategy)
    (token : SessionToken) (json : Json) :
    Outcome SessionToken Slate Transaction Uuid SelectionStrategy :=
  let amountJSON := env.get json "amount"
  if env.isNull amountJSON || !env.isUInt64 amountJSON then
    ⟨.ok (.BuildBadRequestResponse "amount missing"), []⟩
  else
    let feeBaseJSON := env.get json "fee_base"
    if env.isNull feeBaseJSON || !env.isUInt64 feeBaseJSON then
      ⟨.ok (.BuildBadRequestResponse "fee_base missing"), []⟩
    else
      match env.GetStringOpt json "message" with
      | .error thrown => ⟨.error thrown, []⟩
      | .ok messageOpt =>
        match env.GetStringOpt json "selection_strategy" with
        | .error thrown => ⟨.error thrown, []⟩
        | .ok none => ⟨.ok (.BuildBadRequestResponse "selection_strategy missing"), []⟩
        | .ok (some selectionStrategy) =>
          match env.SelectionStrategyFromString selectionStrategy with
          | .error thrown => ⟨.error thrown, []⟩
          | .ok strategy =>
            match walletManager.Send token (env.asUInt64 amountJSON)
                (env.asUInt64 feeBaseJSON) messageOpt strategy with
            | .error thrown =>
              ⟨.error thrown, [.Send token (env.asUInt64 amountJSON)
                (env.asUInt64 feeBaseJSON) messageOpt strategy]⟩
            | .ok (some pSlate) =>
              ⟨.ok (.BuildSuccessResponse (env.toStyledString (env.SlateToJSON pSlate))),
                [.Send token (env.asUInt64 amountJSON) (env.asUInt64 feeBaseJSON)
                  messageOpt strategy]⟩
            | .ok none =>
              ⟨.ok (.BuildInternalErrorResponse "Unknown error occurred."),
                [.Send token (env.asUInt64 amountJSON) (env.asUInt64 feeBaseJSON)
                  messageOpt strategy]⟩

/-- `OwnerPostAPI::Receive`. -/
def Receive (env : Helpers Json SessionToken Slate Transaction Uuid SelectionStrategy)
    (walletManager : IWalletManager SessionToken Slate Transaction Uuid SelectionStrategy)
    (token : SessionToken) (json : Json) :
    Outcome SessionToken Slate Transaction Uuid SelectionStrategy :=
  match env.SlateFromJSON json with
  | .error thrown => ⟨.error thrown, []⟩
  | .ok slate =>
    match env.GetStringOpt json "message" with
    | .error thrown => ⟨.error thrown, []⟩
    | .ok messageOpt =>
      match walletManager.Receive token slate messageOpt with
      | .error thrown => ⟨.error thrown, [.Receive token slate messageOpt]⟩
      | .ok (true, received) =>
        ⟨.ok (.BuildSuccessResponse (env.writeString (env.SlateToJSON received))),
          [.Receive token slate messageOpt]⟩
      | .ok (false, _) =>
        ⟨.ok (.BuildInternalErrorResponse "Unknown error occurred."),
          [.Receive token slate messageOpt]⟩

/-- `OwnerPostAPI::Finalize`. The query parameter `post` is read and not used; the answer of
`PostTransaction` is not used either. -/
def Finalize (env : Helpers Json SessionToken Slate Transaction Uuid SelectionStrategy)
    (pConnection : mg_connection)
    (walletManager : IWalletManager SessionToken Slate Transaction Uuid SelectionStrategy)
    (token : SessionToken) (json : Json) :
    Outcome SessionToken Slate Transaction Uuid SelectionStrategy :=
  match env.SlateFromJSON json with
  | .error thrown => ⟨.error thrown, []⟩
  | .ok slate =>
    let _postTx := env.HasQueryParam pConnection "post"
    match walletManager.Finalize token slate with
    | .error thrown => ⟨.error thrown, [.Finalize token slate]⟩
    | .ok (some pTransaction) =>
      match walletManager.PostTransaction token pTransaction with
      | .error thrown =>
        ⟨.error thrown, [.Finalize token slate, .PostTransaction token pTransaction]⟩
      | .ok _ =>
        ⟨.ok (.BuildSuccessResponse
            (env.toStyledString (env.TransactionToJSON pTransaction))),
          [.Finalize token slate, .PostTransaction token pTransaction]⟩
    | .ok none =>
      ⟨.ok (.BuildInternalErrorResponse "Unknown error occurred."), [.Finalize token slate]⟩

/-- `OwnerPostAPI::PostTx`. -/
def PostTx (env : Helpers Json SessionToken Slate Transaction Uuid SelectionStrategy)
    (nodeClient : INodeClient Transaction) (json : Json) :
    Outcome SessionToken Slate Transaction Uuid SelectionStrategy :=
  match env.TransactionFromJSON json with
  | .error thrown => ⟨.error thrown, []⟩
  | .ok transaction =>
    match nodeClient.PostTransaction transaction with
    | .error thrown => ⟨.error thrown, [.NodePostTransaction transaction]⟩
    | .ok true => ⟨.ok (.BuildSuccessResponse ""), [.NodePostTransaction transaction]⟩
    | .ok false =>
      ⟨.ok (.BuildInternalErrorResponse "Unknown error occurred."),
        [.NodePostTransaction transaction]⟩

/-- `OwnerPostAPI::Cancel`. The value of `std::stoul` is narrowed to `uint32_t`. -/
def Cancel (env : Helpers Json SessionToken Slate Transaction Uuid SelectionStrategy)
    (pConnection : mg_connection)
    (walletManager : IWalletManager SessionToken Slate Transaction Uuid SelectionStrategy)
    (token : SessionToken) : Outcome SessionToken Slate Transaction Uuid SelectionStrategy :=
  match env.GetQueryParam pConnection "id" with
  | some idValue =>
    match env.uuid_from_string idValue with
    | some txUUID =>
      match walletManager.CancelBySlateId token txUUID with
      | .error thrown => ⟨.error thrown, [.CancelBySlateId token txUUID]⟩
      | .ok true => ⟨.ok (.BuildSuccessResponse ""), [.CancelBySlateId token txUUID]⟩
      | .ok false =>
        ⟨.ok (.BuildInternalErrorResponse "Unknown error occurred."),
          [.CancelBySlateId token txUUID]⟩
    | none =>
      match env.stoul idValue with
      | .error thrown => ⟨.error thrown, []⟩
      | .ok id =>
        match walletManager.CancelByTxId token (id % 2 ^ 32) with
        | .error thrown => ⟨.error thrown, [.CancelByTxId token (id % 2 ^ 32)]⟩
        | .ok true => ⟨.ok (.BuildSuccessResponse ""), [.CancelByTxId token (id % 2 ^ 32)]⟩
        | .ok false =>
          ⟨.ok (.BuildInternalErrorResponse "Unknown error occurred."),
            [.CancelByTxId token (id % 2 ^ 32)]⟩
  | none => ⟨.ok (.BuildBadRequestResponse "id missing"), []⟩

/-- `OwnerPostAPI::HandlePOST`. The branch of `repost` is empty in the source and falls through
to the last statement. -/
def HandlePOST (env : Helpers Json SessionToken Slate Transaction Uuid SelectionStrategy)
    (pConnection : mg_connection) (action : String)
    (walletManager : IWalletManager SessionToken Slate Transaction Uuid SelectionStrategy)
    (nodeClient : INodeClient Transaction) :
    Outcome SessionToken Slate Transaction Uuid SelectionStrategy :=
  if action = "create_wallet" then
    CreateWallet env pConnection walletManager
  else if action = "login" then
    Login env pConnection walletManager
  else if action = "logout" then
    match env.GetSessionToken pConnection with
    | .error thrown => ⟨.error thrown, []⟩
    | .ok token => Logout walletManager token
  else if action = "update_wallet" then
    match env.GetSessionToken pConnection with
    | .error thrown => ⟨.error thrown, []⟩
    | .ok token => UpdateWallet walletManager token
  else if action = "cancel_tx" then
    match env.GetSessionToken pConnection with
    | .error thrown => ⟨.error thrown, []⟩
    | .ok token => Cancel env pConnection walletManager token
  else
    match env.GetRequestBody pConnection with
    | none => ⟨.ok (.BuildBadRequestResponse "Request body not found."), []⟩
    | some requestBody =>
      if action = "restore_wallet" then
        RestoreWallet env pConnection walletManager requestBody
      else if action = "issue_send_tx" then
        match env.GetSessionToken pConnection with
        | .error thrown => ⟨.error thrown, []⟩
        | .ok token => Send env walletManager token requestBody
      else if action = "receive_tx" then
        match env.GetSessionToken pConnection with
        | .error thrown => ⟨.error thrown, []⟩
        | .ok token => Receive env walletManager token requestBody
      else if action = "finalize_tx" then
        match env.GetSessionToken pConnection with
        | .error thrown => ⟨.error thrown, []⟩
        | .ok token => Finalize env pConnection walletManager token requestBody
      else if action = "post_tx" then
        match env.GetSessionToken pConnection with
        | .error thrown => ⟨.error thrown, []⟩
        | .ok _ => PostTx env nodeClient requestBody
      else if action = "repost" then
        ⟨.ok (.BuildBadRequestResponse
          ("POST /v1/wallet/owner/" ++ action ++ " not Supported")), []⟩
      else
        ⟨.ok (.BuildBadRequestResponse
          ("POST /v1/wallet/owner/" ++ action ++ " not Supported")), []⟩

end OwnerPostAPI

/-! ## Specification-side vocabulary -/

namespace TxHashSetValidator

/-- The conjunction the pipeline of section 4.K asks for: the size check, the three hash
checks, the root check, the kernel history, the kernel sums, the range proofs and the kernel
signatures all answer true. -/
def AllChecksPass (sv : Services) (txHashSet : TxHashSet) (blockHeader : BlockHeader) : Bool :=
  ValidateSizes txHashSet blockHeader
    && ValidateMMRHashes sv txHashSet.GetKernelMMR.toMMR
    && ValidateMMRHashes sv txHashSet.GetOutputPMMR.toMMR
    && ValidateMMRHashes sv txHashSet.GetRangeProofPMMR.toMMR
    && sv.ValidateRoots txHashSet blockHeader
    && ValidateKernelHistory sv txHashSet.GetKernelMMR blockHeader
    && (sv.ValidateKernelSums txHashSet blockHeader Commitment.zero Commitment.zero).1
    && (ValidateRangeProofs sv txHashSet blockHeader).1
    && sv.ValidateKernelSignatures txHashSet.GetKernelMMR

/-- The fixed order of section 4.K: size check, hash check (one check per MMR), root check,
kernel history, kernel sums, range proofs, kernel signatures. -/
def pipeline : List Check :=
  [.ValidateSizes, .ValidateMMRHashesKernel, .ValidateMMRHashesOutput,
    .ValidateMMRHashesRangeProof, .ValidateRoots, .ValidateKernelHistory,
    .ValidateKernelSums, .ValidateRangeProofs, .ValidateKernelSignatures]

/-- The helper of `chunks`: at most `n` chunks are cut off. -/
def chunksAux {α : Type} (k : Nat) : Nat → List α → List (List α)
  | 0, _ => []
  | n + 1, l =>
    match l with
    | [] => []
    | a :: t => (a :: t).take k :: chunksAux k n ((a :: t).drop k)

/-- The consecutive chunks of `k` elements of a list: the first `k` elements, the next `k`,
and so on; the last chunk holds what is left and is never empty. -/
def chunks {α : Type} (k : Nat) (l : List α) : List (List α) :=
  chunksAux k l.length l

/-- The (commitment, range proof) pairs of the given positions, in the order given, over the
positions where `GetOutputAt` is not null (and a range proof is stored). -/
def unspentPairsOver (txHashSet : TxHashSet) (positions : List Nat) :
    List (Commitment × RangeProof) :=
  positions.filterMap (fun i =>
    match txHashSet.GetOutputPMMR.GetOutputAt i with
    | none => none
    | some output =>
      (txHashSet.GetRangeProofPMMR.GetRangeProofAt i).map (fun rp => (output.GetCommitment, rp)))

/-- The (commitment, range proof) pairs of the unspent outputs in increasing MMR position
order. -/
def unspentPairs (txHashSet : TxHashSet) : List (Commitment × RangeProof) :=
  unspentPairsOver txHashSet (List.range txHashSet.GetOutputPMMR.GetSize)

/-- The number of positions below the output MMR size where `GetOutputAt` is not null. -/
def unspentCount (txHashSet : TxHashSet) : Nat :=
  ((List.range txHashSet.GetOutputPMMR.GetSize).filter
    (fun i => (txHashSet.GetOutputPMMR.GetOutputAt i).isSome)).length

/-- A list of pairs as the two parallel vectors handed to `Crypto::VerifyRangeProofs`. -/
def toBatch (ps : List (Commitment × RangeProof)) : Batch :=
  (ps.map Prod.fst, ps.map Prod.snd)

/-- The batches of section 4.K, step 6: the unspent pairs in consecutive chunks of 2000. -/
def batches (txHashSet : TxHashSet) : List Batch :=
  (chunks 2000 (unspentPairs txHashSet)).map toBatch

/-- Submitting batches one after the other and stopping at the first one that does not verify:
the verdict and the batches submitted, appended to those submitted before. -/
def submit (sv : Services) : List Batch → List Batch → Bool × List Batch
  | [], calls => (true, calls)
  | b :: rest, calls =>
    if sv.VerifyRangeProofs b.1 b.2 then
      submit sv rest (calls ++ [b])
    else
      (false, calls ++ [b])

/-- The full chunks of 2000 of a list of pairs: its chunks without the remainder. -/
def fullChunks (ps : List (Commitment × RangeProof)) : List (List (Commitment × RangeProof)) :=
  (chunks 2000 ps).take (ps.length / 2000)

/-- Scenario 5 of section 8: the TxHashSet in which the stored kernel-MMR hash at position `p`
is replaced by `newHash` and nothing else changes. -/
def mutateKernelHash (txHashSet : TxHashSet) (p : Nat) (newHash : Hash) : TxHashSet :=
  { txHashSet with
    GetKernelMMR :=
      { txHashSet.GetKernelMMR with
        GetHashAt := fun i => if i = p then some newHash else txHashSet.GetKernelMMR.GetHashAt i } }

end TxHashSetValidator

namespace BlockDB

/-- The state of a `BlockDB` right after `BlockDB::OpenDB` in a new process: no open
transaction, no uncommitted header, and the `BLOCK_HEADERS_CACHE` of capacity 128 empty. -/
def opened (pDatabase : KVHandle) : BlockDB :=
  { m_pDatabase := pDatabase
    m_pTransaction := none
    m_uncommitted := []
    BLOCK_HEADERS_CACHE := ⟨128, []⟩ }

/-- One of the six `Add*` write operations with its arguments. -/
inductive AddOp where
  | AddBlockHeader (pBlockHeader : BlockHeader)
  | AddBlockHeaders (blockHeaders : List BlockHeader)
  | AddBlock (block : FullBlock)
  | AddBlockSums (blockHash : Hash) (blockSums : BlockSums)
  | AddOutputPosition (outputCommitment : Commitment) (location : OutputLocation)
  | AddBlockInputBitmap (blockHash : Hash) (bitmap : Roaring)

/-- The state after one `Add*` write, whether it returned or raised. -/
def applyAdd (ser : Serialization) (db : BlockDB) : AddOp → BlockDB
  | .AddBlockHeader pBlockHeader => (AddBlockHeader ser db pBlockHeader).2
  | .AddBlockHeaders blockHeaders => (AddBlockHeaders ser db blockHeaders).2
  | .AddBlock block => (AddBlock ser db block).2
  | .AddBlockSums blockHash blockSums => (AddBlockSums ser db blockHash blockSums).2
  | .AddOutputPosition outputCommitment location =>
    (AddOutputPosition ser db outputCommitment location).2
  | .AddBlockInputBitmap blockHash bitmap => (AddBlockInputBitmap ser db blockHash bitmap).2

/-- The state after a sequence of `Add*` writes. -/
def applyAdds (ser : Serialization) (db : BlockDB) (ops : List AddOp) : BlockDB :=
  ops.foldl (applyAdd ser) db

/-- One step of the life of a `BlockDB`: a call of one of its operations, or the storage
engine starting (`some state`) or ceasing (`none`) to answer every call with a failure. -/
inductive Op where
  | OnInitWrite
  | OnEndWrite
  | Commit
  | Rollback
  | Add (op : AddOp)
  | Engine (state : Option String)

/-- The state after one step, whether the call returned or raised. -/
def step (ser : Serialization) (db : BlockDB) : Op → BlockDB
  | .OnInitWrite => db.OnInitWrite
  | .OnEndWrite => db.OnEndWrite
  | .Commit => db.Commit.2
  | .Rollback => db.Rollback.2
  | .Add op => applyAdd ser db op
  | .Engine state =>
    { db with
      m_pDatabase := { db.m_pDatabase with broken := state }
      m_pTransaction := db.m_pTransaction.map (fun t => { t with broken := state }) }

/-- The state after a sequence of steps. -/
def run (ser : Serialization) (db : BlockDB) (ops : List Op) : BlockDB :=
  ops.foldl (step ser) db

/-- Every header held in the cache is stored in the committed HEADER column family under its
hash: the cache key is the hash of the header, and the base DB holds the serialised header
under that key. -/
def CacheBacked (ser : Serialization) (db : BlockDB) : Prop :=
  ∀ e ∈ db.BLOCK_HEADERS_CACHE.entries,
    e.1 = e.2.GetHash
    ∧ db.m_pDatabase.data .HEADER e.1.bytes = some (ser.SerializeHeader e.2)

/-- The batch protocol of section 4.J as far as the header queue is concerned: a batch is begun
(`OnInitWrite`) or ended (`OnEndWrite`) only while no header is queued as uncommitted, that
is, after the headers added so far were committed successfully or rolled back. -/
def followsProtocol (ser : Serialization) : BlockDB → List Op → Bool
  | _, [] => true
  | db, .OnInitWrite :: rest =>
    db.m_uncommitted.isEmpty && followsProtocol ser (step ser db .OnInitWrite) rest
  | db, .OnEndWrite :: rest =>
    db.m_uncommitted.isEmpty && followsProtocol ser (step ser db .OnEndWrite) rest
  | db, op :: rest => followsProtocol ser (step ser db op) rest

/-- The headers a step hands to `AddBlockHeader` or `AddBlockHeaders`. -/
def Op.headers : Op → List BlockHeader
  | .Add (.AddBlockHeader pBlockHeader) => [pBlockHeader]
  | .Add (.AddBlockHeaders blockHeaders) => blockHeaders
  | _ => []

/-- The headers added in a sequence of steps. -/
def headersOf : List Op → List BlockHeader
  | [] => []
  | op :: rest => op.headers ++ headersOf rest

/-- The invariant behind `CacheBacked`, for headers taken from a set `known`: no header is queued
while no transaction is open; every cached header is known, keyed by its hash and stored in
the base DB; every queued header is known and written in the open transaction; and the open
transaction shows every cached header. -/
def Backed (ser : Serialization) (known : BlockHeader → Prop) (db : BlockDB) : Prop :=
  (db.m_pTransaction = none → db.m_uncommitted = [])
  ∧ (∀ e ∈ db.BLOCK_HEADERS_CACHE.entries,
      e.1 = e.2.GetHash ∧ known e.2
      ∧ db.m_pDatabase.data .HEADER e.1.bytes = some (ser.SerializeHeader e.2))
  ∧ (∀ t, db.m_pTransaction = some t → ∀ h ∈ db.m_uncommitted,
      known h ∧ t.data .HEADER h.GetHash.bytes = some (ser.SerializeHeader h))
  ∧ (∀ t, db.m_pTransaction = some t → ∀ e ∈ db.BLOCK_HEADERS_CACHE.entries,
      t.data .HEADER e.1.bytes = some (ser.SerializeHeader e.2))

/-- A whole batch that is rolled back: `OnInitWrite`, the given `Add*` writes, `Rollback`, and
`OnEndWrite`. -/
def rolledBackBatch (ser : Serialization) (db : BlockDB) (ops : List AddOp) : BlockDB :=
  (applyAdds ser db.OnInitWrite ops).Rollback.2.OnEndWrite

end BlockDB

namespace OwnerPostAPI

/-- The ten actions named as supported. -/
def supportedActions : List String :=
  ["create_wallet", "login", "logout", "update_wallet", "cancel_tx", "restore_wallet",
    "issue_send_tx", "receive_tx", "finalize_tx", "post_tx"]

/-- The five supported actions that require a request body. -/
def bodyActions : List String :=
  ["restore_wallet", "issue_send_tx", "receive_tx", "finalize_tx", "post_tx"]

end OwnerPostAPI

/-! ## Sample inputs

A small TxHashSet used to instantiate the theorems below: a kernel MMR of size 3 (two leaves
and their parent) and an output MMR of size 4 (leaves at positions 0, 1 and 3, the output at
position 1 spent). -/

namespace Sample

/-- A sample parent hash rule: the position, the length of the left hash, then both hashes. -/
def hashParentWithIndex (left right : Hash) (index : Nat) : Hash :=
  ⟨index :: left.bytes.length :: (left.bytes ++ right.bytes)⟩

/-- The kernel MMR: hashes of two leaves and of their parent at position 2. -/
def kernelMMR : KernelMMR :=
  { GetSize := 3
    GetHashAt := fun i =>
      match i with
      | 0 => some ⟨[10]⟩
      | 1 => some ⟨[11]⟩
      | 2 => some (hashParentWithIndex ⟨[10]⟩ ⟨[11]⟩ 2)
      | _ => none
    Root := fun size => ⟨[size]⟩ }

/-- The output MMR: unspent outputs at positions 0 and 3, no stored hashes. -/
def outputPMMR : OutputPMMR :=
  { GetSize := 4
    GetHashAt := fun _ => none
    GetOutputAt := fun i =>
      match i with
      | 0 => some ⟨0, ⟨[20]⟩⟩
      | 3 => some ⟨0, ⟨[23]⟩⟩
      | _ => none }

/-- The range-proof MMR: a proof for each of the two unspent outputs. -/
def rangeProofPMMR : RangeProofPMMR :=
  { GetSize := 4
    GetHashAt := fun _ => none
    GetRangeProofAt := fun i =>
      match i with
      | 0 => some ⟨[30]⟩
      | 3 => some ⟨[33]⟩
      | _ => none }

/-- The sample TxHashSet. -/
def txHashSet : TxHashSet :=
  { GetKernelMMR := kernelMMR, GetOutputPMMR := outputPMMR, GetRangeProofPMMR := rangeProofPMMR }

/-- The header at a height of the sample chain: one kernel leaf at height 0, the full kernel
MMR from height 1 on. -/
def headerAt (height : Nat) : BlockHeader :=
  match height with
  | 0 => ⟨⟨[0]⟩, 0, ⟨[1]⟩, 1, 1⟩
  | h + 1 => ⟨⟨[h + 1]⟩, h + 1, ⟨[3]⟩, 3, 4⟩

/-- The tip header of the sample chain, at height 1. -/
def blockHeader : BlockHeader := headerAt 1

/-- Services under which every delegated check passes; the candidate chain has the two
headers of heights 0 and 1. -/
def services : Services :=
  { HashParentWithIndex := hashParentWithIndex
    ValidateRoots := fun _ _ => true
    GetBlockHeaderByHeight := fun h => if h ≤ 1 then some (headerAt h) else none
    ValidateKernelSums := fun _ _ outputSum kernelSum => (true, outputSum, kernelSum)
    VerifyRangeProofs := fun _ _ => true
    ValidateKernelSignatures := fun _ => true }

/-- A TxHashSet whose kernel MMR is a single leaf, with one unspent output. -/
def loneLeafSet : TxHashSet :=
  { GetKernelMMR :=
      { GetSize := 1
        GetHashAt := fun i => if i = 0 then some ⟨[10]⟩ else none
        Root := fun size => ⟨[size]⟩ }
    GetOutputPMMR :=
      { GetSize := 1
        GetHashAt := fun _ => none
        GetOutputAt := fun i => if i = 0 then some ⟨0, ⟨[20]⟩⟩ else none }
    GetRangeProofPMMR :=
      { GetSize := 1
        GetHashAt := fun _ => none
        GetRangeProofAt := fun i => if i = 0 then some ⟨[30]⟩ else none } }

/-- The same services with a `Crypto::VerifyRangeProofs` that rejects every batch. -/
def rejecting : Services :=
  { services with VerifyRangeProofs := fun _ _ => false }

/-- Serialisation routines for the sample database: a header is stored as its height, every
other value as the empty string; the header deserialiser rejects its input. -/
def serialization : Serialization :=
  { SerializeHeader := fun header => [header.GetHeight]
    DeserializeHeader := fun _ => .error "attempted to read past end of buffer"
    SerializeBlock := fun _ => []
    DeserializeBlock := fun _ => .error "attempted to read past end of buffer"
    SerializeBlockSums := fun _ => []
    DeserializeBlockSums := fun _ => .error "attempted to read past end of buffer"
    SerializeOutputLocation := fun _ => []
    DeserializeOutputLocation := fun _ => .error "attempted to read past end of buffer"
    RoaringSizeInBytes := fun bitmap => bitmap.values.length
    RoaringWrite := fun bitmap => bitmap.values
    RoaringReadSafe := fun bytes => .ok ⟨bytes⟩ }

/-- A `BlockDB` with no open transaction and an empty cache whose storage engine answers every
call with an I/O error. -/
def brokenDB : BlockDB :=
  { m_pDatabase := { data := fun _ _ => none, broken := some "IO error" }
    m_pTransaction := none
    m_uncommitted := []
    BLOCK_HEADERS_CACHE := ⟨128, []⟩ }

/-- The same `BlockDB` inside a batch: the open transaction answers every call with an I/O
error as well. -/
def brokenBatchDB : BlockDB :=
  { brokenDB with m_pTransaction := some { data := fun _ _ => none, broken := some "IO error" } }

/-- A TxHashSet with unspent outputs at positions 0, 1 and 3 of which only the first has a
range proof. -/
def missingProofSet : TxHashSet :=
  { txHashSet with
    GetOutputPMMR :=
      { GetSize := 4
        GetHashAt := fun _ => none
        GetOutputAt := fun i =>
          match i with
          | 0 => some ⟨0, ⟨[20]⟩⟩
          | 1 => some ⟨0, ⟨[21]⟩⟩
          | 3 => some ⟨0, ⟨[23]⟩⟩
          | _ => none }
    GetRangeProofPMMR :=
      { GetSize := 4
        GetHashAt := fun _ => none
        GetRangeProofAt := fun i =>
          match i with
          | 0 => some ⟨[30]⟩
          | _ => none } }

/-- Two distinct 33-byte commitments that differ in their last byte only. -/
def commitmentA : Commitment := ⟨List.replicate 32 8 ++ [1]⟩

/-- The second of the two commitments that differ in their last byte only. -/
def commitmentB : Commitment := ⟨List.replicate 32 8 ++ [2]⟩

/-- A `BlockDB` right after opening, on an empty and working storage engine. -/
def emptyDB : BlockDB :=
  BlockDB.opened { data := fun _ _ => none, broken := none }

/-- Serialisation routines that give back what was serialised: a header and an output location
are stored as their fields, block sums as the two commitments separated by their length. -/
def faithful : Serialization :=
  { serialization with
    SerializeHeader := fun header =>
      [header.GetHeight, header.GetKernelMMRSize, header.GetOutputMMRSize,
        header.GetHash.bytes.length] ++ header.GetHash.bytes ++ header.GetKernelRoot.bytes
    DeserializeHeader := fun bytes =>
      match bytes with
      | height :: kernelSize :: outputSize :: n :: rest =>
        .ok ⟨⟨rest.take n⟩, height, ⟨rest.drop n⟩, kernelSize, outputSize⟩
      | _ => .error "attempted to read past end of buffer"
    SerializeOutputLocation := fun location => [location.mmrIndex, location.blockHeight]
    DeserializeOutputLocation := fun bytes =>
      match bytes with
      | [mmrIndex, blockHeight] => .ok ⟨mmrIndex, blockHeight⟩
      | _ => .error "attempted to read past end of buffer" }

/-- A batch that adds the sample header and commits it, following the protocol. -/
def committedBatch : List BlockDB.Op :=
  [.OnInitWrite, .Add (.AddBlockHeader blockHeader), .Commit, .OnEndWrite]

/-- A batch that adds the sample header, whose commit fails on a busy engine, and that is ended
without a rollback; followed by an empty batch whose commit succeeds. -/
def abandonedBatch : List BlockDB.Op :=
  [.OnInitWrite, .Add (.AddBlockHeader blockHeader), .Engine (some "Busy"), .Commit,
    .Engine none, .OnEndWrite, .OnInitWrite, .Commit]

/-- A sample disk: the bytes of each file that exists, by path. -/
abbrev Disk := String → Option Bytes

/-- A sample file layer over `Disk`. A file exists when the disk holds bytes under its path;
a bitmap file holds the values of its bitmap, which a leaf set reads back (no values when the
file is missing); the other files load as the bytes they hold. No helper throws. -/
def fileLayer : RangeProofPMMR.FileLayer Disk Bytes Roaring Bytes Bytes :=
  { Exists := fun disk path => (disk path).isSome
    ReadFile := fun disk path => disk path
    readSafe := fun bytes => .ok ⟨bytes⟩
    BitmapFileCreate := fun disk path bitmap =>
      (.ok (), fun p => if p = path then some bitmap.values else disk p)
    HashFileLoad := fun disk path => (.ok ((disk path).getD []), disk)
    LeafSetLoad := fun disk path => (.ok ⟨(disk path).getD []⟩, disk)
    PruneListLoad := fun disk path => (.ok ((disk path).getD []), disk)
    DataFileLoad := fun disk path => (.ok ((disk path).getD []), disk) }

/-- The sample file layer on which no file can be read by `FileUtil::ReadFile`: a file exists
but the read answers false. -/
def unreadableLayer : RangeProofPMMR.FileLayer Disk Bytes Roaring Bytes Bytes :=
  { fileLayer with ReadFile := fun _ _ => none }

/-- A disk that holds the legacy leaf file only. -/
def legacyDisk : Disk :=
  fun path => if path = "rangeproof/pmmr_leaf.bin" then some [1, 2, 5] else none

/-- A disk that holds both the leaf set file and the legacy leaf file. -/
def promotedDisk : Disk :=
  fun path =>
    if path = "rangeproof/pmmr_leafset.bin" then some [4]
    else if path = "rangeproof/pmmr_leaf.bin" then some [1, 2, 5]
    else none

/-- A sample of `std::stoull(str, &sz, 0)` on strings that start with decimal digits or with no
digit at all: the leading digits are converted, `std::invalid_argument` is thrown when there
are none and `std::out_of_range` when the value does not fit 64 bits. -/
def stoull (str : String) : Except Thrown Nat :=
  let digits := str.data.takeWhile Char.isDigit
  if digits.isEmpty then .error .invalid_argument
  else
    let value := digits.foldl (fun acc c => 10 * acc + (c.toNat - 48)) 0
    if value < 2 ^ 64 then .ok value else .error .out_of_range

/-- Sample helpers of the header API: hexadecimal digits are the valid hex characters, a hash or
a commitment is read as the character codes of its hex string, the URI parameter is what
follows the given path. -/
def headerHelpers : HeaderAPI.Helpers :=
  { IsValidHex := fun str =>
      str.data.all (fun c => c.isDigit || (97 ≤ c.toNat && c.toNat ≤ 102)
        || (65 ≤ c.toNat && c.toNat ≤ 70))
    HashFromHex := fun str => .ok ⟨str.data.map Char.toNat⟩
    CBigIntegerFromHex := fun str => .ok (str.data.map Char.toNat)
    stoull := stoull
    BuildHeaderJSON := fun pBlockHeader => toString pBlockHeader.GetHeight
    GetURIParam := fun conn path => String.mk (conn.uri.data.drop path.length) }

/-- A sample block chain server that knows the sample headers by height on the candidate chain
and nothing else. -/
def blockChainServer : IBlockChainServer :=
  { GetBlockHeaderByHash := fun _ => none
    GetBlockHeaderByCommitment := fun _ => none
    GetBlockHeaderByHeight := fun height chainType =>
      if chainType = .CANDIDATE ∧ height ≤ 1 then some (headerAt height) else none }

/-- A request for the header at a height of twenty nines, which exceeds `2^64 - 1`. -/
def outOfRangeRequest : mg_connection :=
  ⟨"/v1/headers/99999999999999999999"⟩

/-- Sample helpers of the owner API over strings: the request carries the given body and no
header or query parameter, the session token is read without fault, a JSON value is its
text. -/
def ownerHelpers (body : Option String) :
    OwnerPostAPI.Helpers String String String String String String :=
  { GetHeaderValue := fun _ _ => none
    GetQueryParam := fun _ _ => none
    HasQueryParam := fun _ _ => false
    GetRequestBody := fun _ => body
    GetSessionToken := fun _ => .ok "token"
    ToBase64 := fun token => token
    GetRequiredField := fun json _ => .ok json
    GetStringOpt := fun _ _ => .ok none
    get := fun json _ => json
    isNull := fun json => json == "null"
    isUInt64 := fun json => json.data.all Char.isDigit
    asUInt64 := fun json => json.data.foldl (fun acc c => 10 * acc + (c.toNat - 48)) 0
    asString := fun json => .ok json
    toStyledString := fun json => json
    object := fun members => String.intercalate "," (members.map (fun m => m.1 ++ ":" ++ m.2))
    writeString := fun json => json
    SlateFromJSON := fun json => .ok json
    SlateToJSON := fun slate => slate
    TransactionFromJSON := fun json => .ok json
    TransactionToJSON := fun transaction => transaction
    uuid_from_string := fun _ => none
    stoul := stoull
    SelectionStrategyFromString := fun str => .ok str }

/-- A sample wallet manager that accepts every operation. -/
def walletManager : OwnerPostAPI.IWalletManager String String String String String :=
  { InitializeNewWallet := fun username _ => .ok (some ("seed", username))
    Login := fun username _ => .ok (some username)
    Logout := fun _ => .ok ()
    Restore := fun username _ _ => .ok (some username)
    CheckForOutputs := fun _ => .ok true
    Send := fun _ _ _ _ _ => .ok (some "slate")
    Receive := fun _ slate _ => .ok (true, slate)
    Finalize := fun _ slate => .ok (some slate)
    PostTransaction := fun _ _ => .ok true
    CancelBySlateId := fun _ _ => .ok true
    CancelByTxId := fun _ _ => .ok true }

/-- A sample node client that accepts every transaction. -/
def nodeClient : OwnerPostAPI.INodeClient String :=
  { PostTransaction := fun _ => .ok true }

/-- A request to the owner API. -/
def ownerRequest : mg_connection :=
  ⟨"/v1/wallet/owner/"⟩

end Sample

/-! ## Properties of the validator -/

namespace TxHashSetValidator

/-- The hash loop answers true exactly when every visited position passes its check. -/
theorem validateMMRHashes_loop_iff (sv : Services) (mmr : MMR) (l : List Nat) :
    ValidateMMRHashes.loop sv mmr l = true ↔
      ∀ p ∈ l, ∀ parentHash leftHash rightHash, 0 < MMRUtil.GetHeight p →
        mmr.GetHashAt p = some parentHash →
        mmr.GetHashAt (p - 2 ^ MMRUtil.GetHeight p) = some leftHash →
        mmr.GetHashAt (p - 1) = some rightHash →
        parentHash = sv.HashParentWithIndex leftHash rightHash p := by
  induction l with
  | nil => simp [ValidateMMRHashes.loop]
  | cons i rest ih =>
    simp only [List.mem_cons, forall_eq_or_imp, ← ih]
    simp only [ValidateMMRHashes.loop, MMRUtil.GetLeftChildIndex, MMRUtil.GetRightChildIndex]
    by_cases hh : MMRUtil.GetHeight i > 0
    · simp only [hh, if_true]
      cases hp : mmr.GetHashAt i with
      | none => simp
      | some parentHash =>
        cases hl : mmr.GetHashAt (i - 2 ^ MMRUtil.GetHeight i) with
        | none => simp
        | some leftHash =>
          cases hr : mmr.GetHashAt (i - 1) with
          | none => simp
          | some rightHash =>
            by_cases he : parentHash = sv.HashParentWithIndex leftHash rightHash i
            · simp [he]
            · simp [he]
    · simp [hh]

/-- The kernel-history loop answers true exactly when every visited height has a header whose
kernel root is the root of the kernel MMR at that header's size. -/
theorem validateKernelHistory_loop_iff (sv : Services) (kernelMMR : KernelMMR) (l : List Nat) :
    ValidateKernelHistory.loop sv kernelMMR l = true ↔
      ∀ h ∈ l, ∃ header, sv.GetBlockHeaderByHeight h = some header ∧
        kernelMMR.Root header.GetKernelMMRSize = header.GetKernelRoot := by
  induction l with
  | nil => simp [ValidateKernelHistory.loop]
  | cons i rest ih =>
    simp only [List.mem_cons, forall_eq_or_imp, ← ih]
    simp only [ValidateKernelHistory.loop]
    cases hg : sv.GetBlockHeaderByHeight i with
    | none => simp
    | some header =>
      by_cases he : kernelMMR.Root header.GetKernelMMRSize = header.GetKernelRoot
      · simp [he]
      · simp [he]

/-- The size check answers true exactly when the three comparisons of the source hold. -/
theorem validateSizes_iff (txHashSet : TxHashSet) (blockHeader : BlockHeader) :
    ValidateSizes txHashSet blockHeader = true ↔
      txHashSet.GetKernelMMR.GetSize = blockHeader.GetKernelMMRSize ∧
      txHashSet.GetOutputPMMR.GetSize = blockHeader.GetOutputMMRSize ∧
      txHashSet.GetRangeProofPMMR.GetSize = blockHeader.GetOutputMMRSize := by
  unfold ValidateSizes
  by_cases h1 : txHashSet.GetKernelMMR.GetSize = blockHeader.GetKernelMMRSize <;>
  by_cases h2 : txHashSet.GetOutputPMMR.GetSize = blockHeader.GetOutputMMRSize <;>
  by_cases h3 : txHashSet.GetRangeProofPMMR.GetSize = blockHeader.GetOutputMMRSize <;>
  simp [h1, h2, h3]

end TxHashSetValidator

namespace TxHashSetValidator

/-- Any two bounds that are at least the length of the list cut the same chunks. -/
theorem chunksAux_fuel {α : Type} (k : Nat) (hk : 1 ≤ k) (n : Nat) :
    ∀ (m : Nat) (l : List α), l.length ≤ n → l.length ≤ m → chunksAux k n l = chunksAux k m l := by
  induction n with
  | zero =>
    intro m l hl _
    have : l = [] := List.length_eq_zero.mp (Nat.le_zero.mp hl)
    subst this
    cases m <;> rfl
  | succ n ih =>
    intro m l hl hm
    cases l with
    | nil => cases m <;> rfl
    | cons a t =>
      cases m with
      | zero => simp at hm
      | succ m =>
        have h1 : ((a :: t).drop k).length ≤ n := by
          simp only [List.length_drop, List.length_cons] at *
          omega
        have h2 : ((a :: t).drop k).length ≤ m := by
          simp only [List.length_drop, List.length_cons] at *
          omega
        simp only [chunksAux]
        rw [ih m _ h1 h2]

/-- A bound that is at least the length of the list cuts all the chunks. -/
theorem chunksAux_of_le {α : Type} (k : Nat) (hk : 1 ≤ k) (n : Nat) (l : List α)
    (hl : l.length ≤ n) : chunksAux k n l = chunks k l :=
  chunksAux_fuel k hk n l.length l hl (Nat.le_refl _)

/-- The empty list has no chunk. -/
theorem chunks_nil {α : Type} (k : Nat) : chunks k ([] : List α) = [] := rfl

/-- The chunks of a non-empty list: its first `k` elements, then the chunks of the rest. -/
theorem chunks_of_ne_nil {α : Type} (k : Nat) (hk : 1 ≤ k) (l : List α) (hl : l ≠ []) :
    chunks k l = l.take k :: chunks k (l.drop k) := by
  cases l with
  | nil => exact absurd rfl hl
  | cons a t =>
    have h2 : ((a :: t).drop k).length ≤ t.length := by
      simp only [List.length_drop, List.length_cons] at *
      omega
    simp only [chunks, chunksAux, List.length_cons]
    rw [chunksAux_of_le k hk _ _ h2]
    rfl

/-- A list that starts with exactly `k` elements has them as its first chunk. -/
theorem chunks_append_full {α : Type} (k : Nat) (hk : 1 ≤ k) (acc rest : List α)
    (hacc : acc.length = k) : chunks k (acc ++ rest) = acc :: chunks k rest := by
  have hne : acc ++ rest ≠ [] := by
    intro h
    have h0 := congrArg List.length h
    rw [List.length_append, List.length_nil] at h0
    omega
  rw [chunks_of_ne_nil k hk _ hne]
  have h1 : (acc ++ rest).take k = acc := by
    rw [← hacc]; exact List.take_left _ _
  have h2 : (acc ++ rest).drop k = rest := by
    rw [← hacc]; exact List.drop_left _ _
  rw [h1, h2]

/-- A non-empty list of at most `k` elements is its own single chunk. -/
theorem chunks_short {α : Type} (k : Nat) (hk : 1 ≤ k) (l : List α) (hl : l ≠ [])
    (hlen : l.length ≤ k) : chunks k l = [l] := by
  rw [chunks_of_ne_nil k hk l hl, List.take_of_length_le hlen, List.drop_of_length_le hlen,
    chunks_nil]

/-- Concatenating the chunks gives the list back. -/
theorem join_chunks {α : Type} (k : Nat) (hk : 1 ≤ k) :
    ∀ (n : Nat) (l : List α), l.length ≤ n → (chunks k l).flatten = l := by
  intro n
  induction n with
  | zero =>
    intro l hl
    have : l = [] := List.length_eq_zero.mp (Nat.le_zero.mp hl)
    subst this
    rfl
  | succ n ih =>
    intro l hl
    by_cases hne : l = []
    · subst hne; rfl
    · rw [chunks_of_ne_nil k hk l hne, List.flatten_cons, ih]
      · exact List.take_append_drop k l
      · have : 0 < l.length := List.length_pos.mpr hne
        simp only [List.length_drop]
        omega

/-- The chunk sizes: `n / k` chunks of `k` elements, then one of `n % k` if that is not zero. -/
theorem lengths_chunks {α : Type} (k : Nat) (hk : 1 ≤ k) :
    ∀ (n : Nat) (l : List α), l.length ≤ n →
      (chunks k l).map List.length
        = List.replicate (l.length / k) k ++ (if l.length % k = 0 then [] else [l.length % k]) := by
  intro n
  induction n with
  | zero =>
    intro l hl
    have : l = [] := List.length_eq_zero.mp (Nat.le_zero.mp hl)
    subst this
    simp [chunks_nil]
  | succ n ih =>
    intro l hl
    by_cases hne : l = []
    · subst hne; simp [chunks_nil]
    · have hpos : 0 < l.length := List.length_pos.mpr hne
      by_cases hlt : l.length < k
      · rw [chunks_short k hk l hne (Nat.le_of_lt hlt)]
        have h0 : l.length / k = 0 := Nat.div_eq_of_lt hlt
        have h1 : l.length % k = l.length := Nat.mod_eq_of_lt hlt
        have h2 : l.length ≠ 0 := by omega
        simp [h0, h1, h2]
      · have hge : k ≤ l.length := Nat.le_of_not_lt hlt
        rw [chunks_of_ne_nil k hk l hne, List.map_cons, ih]
        · have hd : (l.drop k).length = l.length - k := List.length_drop k l
          have ht : (l.take k).length = k := by
            rw [List.length_take]; omega
          have hdiv : l.length / k = (l.length - k) / k + 1 := by
            rw [Nat.div_eq_sub_div (by omega) hge]
          have hmod : l.length % k = (l.length - k) % k := by
            rw [Nat.mod_eq_sub_mod hge]
          rw [hd, ht, hdiv, hmod, List.replicate_succ, List.cons_append]
        · simp only [List.length_drop]
          omega

end TxHashSetValidator

namespace TxHashSetValidator

/-- The range-proof loop, started with fewer than 2000 accumulated pairs on positions whose
unspent outputs all have a range proof, submits the chunks of 2000 of the accumulated pairs
followed by the pairs still to come, and stops at the first chunk that does not verify. -/
theorem rangeProofs_loop_eq_submit (sv : Services) (txHashSet : TxHashSet) :
    ∀ (l : List Nat) (acc : List (Commitment × RangeProof)) (calls : List Batch),
      acc.length < 2000 →
      (∀ i ∈ l, ∀ o, txHashSet.GetOutputPMMR.GetOutputAt i = some o →
        ∃ r, txHashSet.GetRangeProofPMMR.GetRangeProofAt i = some r) →
      ValidateRangeProofs.loop sv txHashSet l (acc.map Prod.fst) (acc.map Prod.snd) calls
        = submit sv ((chunks 2000 (acc ++ unspentPairsOver txHashSet l)).map toBatch) calls := by
  intro l
  induction l with
  | nil =>
    intro acc calls hacc _
    simp only [ValidateRangeProofs.loop, unspentPairsOver, List.filterMap_nil, List.append_nil]
    cases acc with
    | nil => simp [chunks_nil, submit]
    | cons a t =>
      rw [chunks_short 2000 (by decide) (a :: t) (by simp) (Nat.le_of_lt hacc)]
      simp only [List.map_cons, List.map_nil, submit, toBatch]
      cases sv.VerifyRangeProofs (a.1 :: t.map Prod.fst) (a.2 :: t.map Prod.snd) <;> simp
  | cons i rest ih =>
    intro acc calls hacc hproof
    have hrest : ∀ j ∈ rest, ∀ o, txHashSet.GetOutputPMMR.GetOutputAt j = some o →
        ∃ r, txHashSet.GetRangeProofPMMR.GetRangeProofAt j = some r :=
      fun j hj => hproof j (List.mem_cons_of_mem _ hj)
    cases hout : txHashSet.GetOutputPMMR.GetOutputAt i with
    | none =>
      have hp : unspentPairsOver txHashSet (i :: rest) = unspentPairsOver txHashSet rest := by
        simp [unspentPairsOver, List.filterMap_cons, hout]
      simp only [ValidateRangeProofs.loop, hout, hp]
      exact ih acc calls hacc hrest
    | some output =>
      obtain ⟨rp, hrp⟩ := hproof i (List.mem_cons_self _ _) output hout
      have hp : unspentPairsOver txHashSet (i :: rest)
          = (output.GetCommitment, rp) :: unspentPairsOver txHashSet rest := by
        simp [unspentPairsOver, List.filterMap_cons, hout, hrp]
      have hfst : acc.map Prod.fst ++ [output.GetCommitment]
          = (acc ++ [(output.GetCommitment, rp)]).map Prod.fst := by simp
      have hsnd : acc.map Prod.snd ++ [rp]
          = (acc ++ [(output.GetCommitment, rp)]).map Prod.snd := by simp
      have happ : acc ++ (output.GetCommitment, rp) :: unspentPairsOver txHashSet rest
          = (acc ++ [(output.GetCommitment, rp)]) ++ unspentPairsOver txHashSet rest := by simp
      simp only [ValidateRangeProofs.loop, hout, hrp, hp]
      rw [happ, hfst, hsnd]
      by_cases hfull : (acc ++ [(output.GetCommitment, rp)]).length ≥ 2000
      · have hlen : (acc ++ [(output.GetCommitment, rp)]).length = 2000 := by
          simp only [List.length_append, List.length_cons, List.length_nil] at hfull ⊢
          omega
        have hfull2 : ((acc ++ [(output.GetCommitment, rp)]).map Prod.fst).length ≥ 2000 := by
          rw [List.length_map]; exact hfull
        rw [chunks_append_full 2000 (by decide) _ _ hlen]
        simp only [hfull2, if_true, List.map_cons, submit, toBatch]
        cases hv : sv.VerifyRangeProofs ((acc ++ [(output.GetCommitment, rp)]).map Prod.fst)
            ((acc ++ [(output.GetCommitment, rp)]).map Prod.snd) with
        | false => simp
        | true =>
          simp only [Bool.not_true, if_true]
          have := ih [] (calls ++ [((acc ++ [(output.GetCommitment, rp)]).map Prod.fst,
            (acc ++ [(output.GetCommitment, rp)]).map Prod.snd)]) (by decide) hrest
          simpa [toBatch] using this
      · have hlt : (acc ++ [(output.GetCommitment, rp)]).length < 2000 := Nat.lt_of_not_ge hfull
        have hfull2 : ¬ ((acc ++ [(output.GetCommitment, rp)]).map Prod.fst).length ≥ 2000 := by
          rw [List.length_map]; exact hfull
        simp only [hfull2, if_false]
        exact ih _ calls hlt hrest

end TxHashSetValidator

namespace TxHashSetValidator

/-- Zipping the two vectors of a batch gives back the pairs it was made from. -/
theorem zip_toBatch (ps : List (Commitment × RangeProof)) :
    (toBatch ps).1.zip (toBatch ps).2 = ps := by
  have h := List.zip_unzip ps
  rwa [List.unzip_eq_map] at h

/-- When every batch verifies, all of them are submitted and the verdict is true. -/
theorem submit_of_all_verify (sv : Services) :
    ∀ (bs calls : List Batch), (∀ b ∈ bs, sv.VerifyRangeProofs b.1 b.2 = true) →
      submit sv bs calls = (true, calls ++ bs) := by
  intro bs
  induction bs with
  | nil => intro calls _; simp [submit]
  | cons b rest ih =>
    intro calls h
    have hb := h b (List.mem_cons_self _ _)
    simp only [submit, hb, if_true]
    rw [ih (calls ++ [b]) (fun x hx => h x (List.mem_cons_of_mem _ hx))]
    simp

/-- Submission stops at the first batch that does not verify: that batch is the last one
submitted and the verdict is false. -/
theorem submit_of_first_failure (sv : Services) :
    ∀ (pre : List Batch) (b : Batch) (post calls : List Batch),
      (∀ x ∈ pre, sv.VerifyRangeProofs x.1 x.2 = true) →
      sv.VerifyRangeProofs b.1 b.2 = false →
      submit sv (pre ++ b :: post) calls = (false, calls ++ pre ++ [b]) := by
  intro pre
  induction pre with
  | nil => intro b post calls _ hb; simp [submit, hb]
  | cons a rest ih =>
    intro b post calls h hb
    have ha := h a (List.mem_cons_self _ _)
    have hrec := ih b post (calls ++ [a]) (fun x hx => h x (List.mem_cons_of_mem _ hx)) hb
    rw [List.cons_append, submit, if_pos ha, hrec]
    simp

/-- The verdict of a submission is true exactly when every batch verifies. -/
theorem submit_fst_iff (sv : Services) :
    ∀ (bs calls : List Batch),
      (submit sv bs calls).1 = true ↔ ∀ b ∈ bs, sv.VerifyRangeProofs b.1 b.2 = true := by
  intro bs
  induction bs with
  | nil => intro calls; simp [submit]
  | cons b rest ih =>
    intro calls
    cases hb : sv.VerifyRangeProofs b.1 b.2 with
    | false => simp [submit, hb]
    | true => simp [submit, hb, ih (calls ++ [b])]

/-- With a range proof stored for every unspent output, `ValidateRangeProofs` is the
submission of the batches, stopping at the first that does not verify. -/
theorem validateRangeProofs_eq_submit (sv : Services) (txHashSet : TxHashSet)
    (blockHeader : BlockHeader)
    (hproof : ∀ i, i < txHashSet.GetOutputPMMR.GetSize →
      ∀ o, txHashSet.GetOutputPMMR.GetOutputAt i = some o →
        ∃ r, txHashSet.GetRangeProofPMMR.GetRangeProofAt i = some r) :
    ValidateRangeProofs sv txHashSet blockHeader = submit sv (batches txHashSet) [] := by
  have h := rangeProofs_loop_eq_submit sv txHashSet
    (List.range txHashSet.GetOutputPMMR.GetSize) [] [] (by decide)
    (fun i hi => hproof i (List.mem_range.mp hi))
  simpa [ValidateRangeProofs, batches, unspentPairs] using h

/-- With a range proof stored for every unspent output among the given positions, there are as
many pairs as unspent outputs. -/
theorem length_unspentPairsOver (txHashSet : TxHashSet) :
    ∀ (l : List Nat),
      (∀ i ∈ l, ∀ o, txHashSet.GetOutputPMMR.GetOutputAt i = some o →
        ∃ r, txHashSet.GetRangeProofPMMR.GetRangeProofAt i = some r) →
      (unspentPairsOver txHashSet l).length
        = (l.filter (fun i => (txHashSet.GetOutputPMMR.GetOutputAt i).isSome)).length := by
  intro l
  induction l with
  | nil => intro _; rfl
  | cons i rest ih =>
    intro h
    have hrest := ih (fun j hj => h j (List.mem_cons_of_mem _ hj))
    cases hout : txHashSet.GetOutputPMMR.GetOutputAt i with
    | none =>
      simp only [unspentPairsOver, List.filterMap_cons, hout, List.filter_cons, Option.isSome_none]
      simpa [unspentPairsOver] using hrest
    | some output =>
      obtain ⟨rp, hrp⟩ := h i (List.mem_cons_self _ _) output hout
      simp only [unspentPairsOver, List.filterMap_cons, hout, hrp, List.filter_cons,
        Option.isSome_some, Option.map_some', if_true, List.length_cons]
      simpa [unspentPairsOver] using hrest

end TxHashSetValidator

namespace TxHashSetValidator

/-- A position of height at least 1 is at least 2: positions 0 and 1 are leaves. -/
theorem two_le_of_height_pos (q : Nat) (h : 1 ≤ MMRUtil.GetHeight q) : 2 ≤ q := by
  rcases q with _ | _ | q
  · exact absurd h (by decide)
  · exact absurd h (by decide)
  · omega

/-- When the size check passes and the kernel hash check fails, `Validate` stops at the hash
step. -/
theorem validate_of_kernel_hash_failure (sv : Services) (txHashSet : TxHashSet)
    (blockHeader : BlockHeader) (hs : ValidateSizes txHashSet blockHeader = true)
    (hk : ValidateMMRHashes sv txHashSet.GetKernelMMR.toMMR = false) :
    Validate sv txHashSet blockHeader
      = ⟨pipeline.take 4, some "TxHashSetValidator::Validate - Invalid MMR hashes.", none⟩ := by
  simp [Validate, pipeline, hs, hk]

/-- The check `ValidateMMRHashes` makes at one position, read off a passing run. -/
theorem parent_matches_of_validateMMRHashes (sv : Services) (mmr : MMR)
    (h : ValidateMMRHashes sv mmr = true) (q : Nat) (hq : q < mmr.GetSize)
    (hh : 1 ≤ MMRUtil.GetHeight q) (parentHash leftHash rightHash : Hash)
    (hp : mmr.GetHashAt q = some parentHash)
    (hl : mmr.GetHashAt (q - 2 ^ MMRUtil.GetHeight q) = some leftHash)
    (hr : mmr.GetHashAt (q - 1) = some rightHash) :
    parentHash = sv.HashParentWithIndex leftHash rightHash q :=
  (validateMMRHashes_loop_iff sv mmr (List.range mmr.GetSize)).mp h q
    (List.mem_range.mpr hq) parentHash leftHash rightHash hh hp hl hr

end TxHashSetValidator

/-! ## Claims about the validator -/

namespace TxHashSetValidator

/-- C1: `Validate` returns a `BlockSums` exactly when all seven pipeline checks pass (the size
check, the hash check on each of the three MMRs, the root check, the kernel history, the
kernel sums, the range proofs and the kernel signatures); the value returned is then the pair
of output sum and kernel sum produced by `ValidateKernelSums`, and when some check fails the
result is null. -/
theorem validate_returns_sums_iff_all_checks_pass (sv : Services) (txHashSet : TxHashSet)
    (blockHeader : BlockHeader) :
    ((Validate sv txHashSet blockHeader).sums ≠ none ↔
      (ValidateSizes txHashSet blockHeader = true
        ∧ ValidateMMRHashes sv txHashSet.GetKernelMMR.toMMR = true
        ∧ ValidateMMRHashes sv txHashSet.GetOutputPMMR.toMMR = true
        ∧ ValidateMMRHashes sv txHashSet.GetRangeProofPMMR.toMMR = true
        ∧ sv.ValidateRoots txHashSet blockHeader = true
        ∧ ValidateKernelHistory sv txHashSet.GetKernelMMR blockHeader = true
        ∧ (sv.ValidateKernelSums txHashSet blockHeader Commitment.zero Commitment.zero).1 = true
        ∧ (ValidateRangeProofs sv txHashSet blockHeader).1 = true
        ∧ sv.ValidateKernelSignatures txHashSet.GetKernelMMR = true))
    ∧ ((Validate sv txHashSet blockHeader).sums ≠ none ↔
        AllChecksPass sv txHashSet blockHeader = true)
    ∧ (AllChecksPass sv txHashSet blockHeader = true →
        (Validate sv txHashSet blockHeader).sums = some
          (BlockSums.mk
            (sv.ValidateKernelSums txHashSet blockHeader Commitment.zero Commitment.zero).2.1
            (sv.ValidateKernelSums txHashSet blockHeader Commitment.zero Commitment.zero).2.2))
    ∧ (AllChecksPass sv txHashSet blockHeader = false →
        (Validate sv txHashSet blockHeader).sums = none) := by
  cases h1 : ValidateSizes txHashSet blockHeader with
  | false => simp [Validate, AllChecksPass, h1]
  | true =>
    cases h2 : ValidateMMRHashes sv txHashSet.GetKernelMMR.toMMR with
    | false => simp [Validate, AllChecksPass, h1, h2]
    | true =>
      cases h3 : ValidateMMRHashes sv txHashSet.GetOutputPMMR.toMMR with
      | false => simp [Validate, AllChecksPass, h1, h2, h3]
      | true =>
        cases h4 : ValidateMMRHashes sv txHashSet.GetRangeProofPMMR.toMMR with
        | false => simp [Validate, AllChecksPass, h1, h2, h3, h4]
        | true =>
          cases h5 : sv.ValidateRoots txHashSet blockHeader with
          | false => simp [Validate, AllChecksPass, h1, h2, h3, h4, h5]
          | true =>
            cases h6 : ValidateKernelHistory sv txHashSet.GetKernelMMR blockHeader with
            | false => simp [Validate, AllChecksPass, h1, h2, h3, h4, h5, h6]
            | true =>
              cases h7 : (sv.ValidateKernelSums txHashSet blockHeader Commitment.zero Commitment.zero).1 with
              | false => simp [Validate, AllChecksPass, h1, h2, h3, h4, h5, h6, h7]
              | true =>
                cases h8 : (ValidateRangeProofs sv txHashSet blockHeader).1 with
                | false => simp [Validate, AllChecksPass, h1, h2, h3, h4, h5, h6, h7, h8]
                | true =>
                  cases h9 : sv.ValidateKernelSignatures txHashSet.GetKernelMMR with
                  | false => simp [Validate, AllChecksPass, h1, h2, h3, h4, h5, h6, h7, h8, h9]
                  | true =>
                    simp [Validate, AllChecksPass, h1, h2, h3, h4, h5, h6, h7, h8, h9]

end TxHashSetValidator

namespace TxHashSetValidator

/-- C2: `ValidateMMRHashes` on an MMR of size `S` answers true exactly when every position
`p < S` of height `h ≥ 1` whose hash is present, and whose left child `p - 2^h` and right child
`p - 1` are both present, stores `HashParentWithIndex(H(left), H(right), p)`; in particular an
MMR in which every such position misses its own hash or a child hash passes, whatever the
stored hashes are. -/
theorem validateMMRHashes_iff_parents_match (sv : Services) (mmr : MMR) :
    (ValidateMMRHashes sv mmr = true ↔
      ∀ p h, p < mmr.GetSize → MMRUtil.GetHeight p = h → 1 ≤ h →
        ∀ parentHash leftHash rightHash,
          mmr.GetHashAt p = some parentHash →
          mmr.GetHashAt (p - 2 ^ h) = some leftHash →
          mmr.GetHashAt (p - 1) = some rightHash →
          parentHash = sv.HashParentWithIndex leftHash rightHash p)
    ∧ ((∀ p, p < mmr.GetSize → 1 ≤ MMRUtil.GetHeight p →
          mmr.GetHashAt p = none ∨ mmr.GetHashAt (p - 2 ^ MMRUtil.GetHeight p) = none
            ∨ mmr.GetHashAt (p - 1) = none) →
        ValidateMMRHashes sv mmr = true) := by
  have key := validateMMRHashes_loop_iff sv mmr (List.range mmr.GetSize)
  refine ⟨?_, ?_⟩
  · unfold ValidateMMRHashes
    rw [key]
    constructor
    · intro H p h hp hh h1 a b c ha hb hc
      subst hh
      exact H p (List.mem_range.mpr hp) a b c h1 ha hb hc
    · intro H p hp a b c h1 ha hb hc
      exact H p _ (List.mem_range.mp hp) rfl h1 a b c ha hb hc
  · intro H
    unfold ValidateMMRHashes
    rw [key]
    intro p hp a b c h1 ha hb hc
    rcases H p (List.mem_range.mp hp) h1 with h | h | h
    · rw [h] at ha; cases ha
    · rw [h] at hb; cases hb
    · rw [h] at hc; cases hc

/-- C4: `ValidateSizes` answers true exactly when the kernel MMR size is the header's kernel MMR
size, the output MMR size is the header's output MMR size and the range-proof MMR size is the
header's output MMR size; when one of the three differs, `Validate` logs the invalid size
error and returns null. -/
theorem validateSizes_iff_sizes_match (sv : Services) (txHashSet : TxHashSet)
    (blockHeader : BlockHeader) :
    (ValidateSizes txHashSet blockHeader = true ↔
      txHashSet.GetKernelMMR.GetSize = blockHeader.GetKernelMMRSize ∧
      txHashSet.GetOutputPMMR.GetSize = blockHeader.GetOutputMMRSize ∧
      txHashSet.GetRangeProofPMMR.GetSize = blockHeader.GetOutputMMRSize)
    ∧ ((txHashSet.GetKernelMMR.GetSize ≠ blockHeader.GetKernelMMRSize ∨
        txHashSet.GetOutputPMMR.GetSize ≠ blockHeader.GetOutputMMRSize ∨
        txHashSet.GetRangeProofPMMR.GetSize ≠ blockHeader.GetOutputMMRSize) →
      (Validate sv txHashSet blockHeader).sums = none ∧
      (Validate sv txHashSet blockHeader).logged =
        some "TxHashSetValidator::Validate - Invalid MMR size.") := by
  refine ⟨validateSizes_iff txHashSet blockHeader, ?_⟩
  intro h
  have hs : ValidateSizes txHashSet blockHeader = false := by
    cases hv : ValidateSizes txHashSet blockHeader with
    | false => rfl
    | true =>
      obtain ⟨h1, h2, h3⟩ := (validateSizes_iff txHashSet blockHeader).mp hv
      rcases h with h | h | h
      · exact absurd h1 h
      · exact absurd h2 h
      · exact absurd h3 h
  simp [Validate, hs]

/-- C5: `ValidateKernelHistory` answers true exactly when, for every height from 0 up to and
including the header's height, the candidate chain has a header at that height and the root
of the kernel MMR at that header's kernel MMR size is that header's kernel root; a missing
header at such a height makes it answer false. -/
theorem validateKernelHistory_iff_every_height (sv : Services) (kernelMMR : KernelMMR)
    (blockHeader : BlockHeader) :
    (ValidateKernelHistory sv kernelMMR blockHeader = true ↔
      ∀ h, h ≤ blockHeader.GetHeight →
        ∃ header, sv.GetBlockHeaderByHeight h = some header ∧
          kernelMMR.Root header.GetKernelMMRSize = header.GetKernelRoot)
    ∧ (∀ h, h ≤ blockHeader.GetHeight → sv.GetBlockHeaderByHeight h = none →
        ValidateKernelHistory sv kernelMMR blockHeader = false) := by
  have key := validateKernelHistory_loop_iff sv kernelMMR (List.range (blockHeader.GetHeight + 1))
  have hiff : ValidateKernelHistory sv kernelMMR blockHeader = true ↔
      ∀ h, h ≤ blockHeader.GetHeight →
        ∃ header, sv.GetBlockHeaderByHeight h = some header ∧
          kernelMMR.Root header.GetKernelMMRSize = header.GetKernelRoot := by
    unfold ValidateKernelHistory
    rw [key]
    constructor
    · intro H h hh
      exact H h (List.mem_range.mpr (Nat.lt_succ_of_le hh))
    · intro H h hh
      exact H h (Nat.le_of_lt_succ (List.mem_range.mp hh))
  refine ⟨hiff, ?_⟩
  intro h hh hnone
  cases hv : ValidateKernelHistory sv kernelMMR blockHeader with
  | false => rfl
  | true =>
    obtain ⟨header, hsome, _⟩ := hiff.mp hv h hh
    rw [hnone] at hsome
    cases hsome

end TxHashSetValidator

namespace TxHashSetValidator

/-- C8: `Validate` runs its checks in the fixed order size check, hash check, root check, kernel
history, kernel sums, range proofs, kernel signatures, and stops at the earliest failing
step: the checks it ran are the pipeline up to and including that step, the error it logs is
that step's, and the result is null. When the size check fails no hash check, range-proof
check or signature check is run. The hash-check step is the one that fails exactly when the
size check passed and at least one of the three per-MMR hash checks answers false. -/
theorem validate_stops_at_first_failing_step (sv : Services) (txHashSet : TxHashSet)
    (blockHeader : BlockHeader) :
    (Validate sv txHashSet blockHeader).ran
        = pipeline.take (Validate sv txHashSet blockHeader).ran.length
    ∧ (ValidateSizes txHashSet blockHeader = false →
        Validate sv txHashSet blockHeader
          = ⟨[.ValidateSizes], some "TxHashSetValidator::Validate - Invalid MMR size.", none⟩)
    ∧ (ValidateSizes txHashSet blockHeader = false →
        Check.ValidateMMRHashesKernel ∉ (Validate sv txHashSet blockHeader).ran
        ∧ Check.ValidateMMRHashesOutput ∉ (Validate sv txHashSet blockHeader).ran
        ∧ Check.ValidateMMRHashesRangeProof ∉ (Validate sv txHashSet blockHeader).ran
        ∧ Check.ValidateRangeProofs ∉ (Validate sv txHashSet blockHeader).ran
        ∧ Check.ValidateKernelSignatures ∉ (Validate sv txHashSet blockHeader).ran)
    ∧ (ValidateSizes txHashSet blockHeader = true →
        (ValidateMMRHashes sv txHashSet.GetKernelMMR.toMMR = false
          ∨ ValidateMMRHashes sv txHashSet.GetOutputPMMR.toMMR = false
          ∨ ValidateMMRHashes sv txHashSet.GetRangeProofPMMR.toMMR = false) →
        Validate sv txHashSet blockHeader
          = ⟨pipeline.take 4, some "TxHashSetValidator::Validate - Invalid MMR hashes.", none⟩)
    ∧ (ValidateSizes txHashSet blockHeader = true →
        ValidateMMRHashes sv txHashSet.GetKernelMMR.toMMR = true →
        ValidateMMRHashes sv txHashSet.GetOutputPMMR.toMMR = true →
        ValidateMMRHashes sv txHashSet.GetRangeProofPMMR.toMMR = true →
        sv.ValidateRoots txHashSet blockHeader = false →
        Validate sv txHashSet blockHeader
          = ⟨pipeline.take 5, some "TxHashSetValidator::Validate - Invalid MMR roots.", none⟩)
    ∧ (ValidateSizes txHashSet blockHeader = true →
        ValidateMMRHashes sv txHashSet.GetKernelMMR.toMMR = true →
        ValidateMMRHashes sv txHashSet.GetOutputPMMR.toMMR = true →
        ValidateMMRHashes sv txHashSet.GetRangeProofPMMR.toMMR = true →
        sv.ValidateRoots txHashSet blockHeader = true →
        ValidateKernelHistory sv txHashSet.GetKernelMMR blockHeader = false →
        Validate sv txHashSet blockHeader
          = ⟨pipeline.take 6, some "TxHashSetValidator::Validate - Invalid kernel history.",
              none⟩)
    ∧ (ValidateSizes txHashSet blockHeader = true →
        ValidateMMRHashes sv txHashSet.GetKernelMMR.toMMR = true →
        ValidateMMRHashes sv txHashSet.GetOutputPMMR.toMMR = true →
        ValidateMMRHashes sv txHashSet.GetRangeProofPMMR.toMMR = true →
        sv.ValidateRoots txHashSet blockHeader = true →
        ValidateKernelHistory sv txHashSet.GetKernelMMR blockHeader = true →
        (sv.ValidateKernelSums txHashSet blockHeader Commitment.zero Commitment.zero).1 = false →
        Validate sv txHashSet blockHeader
          = ⟨pipeline.take 7, some "TxHashSetValidator::Validate - Invalid kernel sums.", none⟩)
    ∧ (ValidateSizes txHashSet blockHeader = true →
        ValidateMMRHashes sv txHashSet.GetKernelMMR.toMMR = true →
        ValidateMMRHashes sv txHashSet.GetOutputPMMR.toMMR = true →
        ValidateMMRHashes sv txHashSet.GetRangeProofPMMR.toMMR = true →
        sv.ValidateRoots txHashSet blockHeader = true →
        ValidateKernelHistory sv txHashSet.GetKernelMMR blockHeader = true →
        (sv.ValidateKernelSums txHashSet blockHeader Commitment.zero Commitment.zero).1 = true →
        (ValidateRangeProofs sv txHashSet blockHeader).1 = false →
        Validate sv txHashSet blockHeader
          = ⟨pipeline.take 8, some "TxHashSetValidator::Validate - Invalid range proof.", none⟩)
    ∧ (ValidateSizes txHashSet blockHeader = true →
        ValidateMMRHashes sv txHashSet.GetKernelMMR.toMMR = true →
        ValidateMMRHashes sv txHashSet.GetOutputPMMR.toMMR = true →
        ValidateMMRHashes sv txHashSet.GetRangeProofPMMR.toMMR = true →
        sv.ValidateRoots txHashSet blockHeader = true →
        ValidateKernelHistory sv txHashSet.GetKernelMMR blockHeader = true →
        (sv.ValidateKernelSums txHashSet blockHeader Commitment.zero Commitment.zero).1 = true →
        (ValidateRangeProofs sv txHashSet blockHeader).1 = true →
        sv.ValidateKernelSignatures txHashSet.GetKernelMMR = false →
        Validate sv txHashSet blockHeader
          = ⟨pipeline.take 9, some "TxHashSetValidator::Validate - Invalid kernel signatures.",
              none⟩)
    ∧ ((Validate sv txHashSet blockHeader).logged
          = some "TxHashSetValidator::Validate - Invalid MMR hashes." ↔
        (ValidateSizes txHashSet blockHeader = true ∧
          (ValidateMMRHashes sv txHashSet.GetKernelMMR.toMMR = false
            ∨ ValidateMMRHashes sv txHashSet.GetOutputPMMR.toMMR = false
            ∨ ValidateMMRHashes sv txHashSet.GetRangeProofPMMR.toMMR = false))) := by
  cases h1 : ValidateSizes txHashSet blockHeader with
  | false => simp [Validate, pipeline, h1]
  | true =>
    cases h2 : ValidateMMRHashes sv txHashSet.GetKernelMMR.toMMR with
    | false => simp [Validate, pipeline, h1, h2]
    | true =>
      cases h3 : ValidateMMRHashes sv txHashSet.GetOutputPMMR.toMMR with
      | false => simp [Validate, pipeline, h1, h2, h3]
      | true =>
        cases h4 : ValidateMMRHashes sv txHashSet.GetRangeProofPMMR.toMMR with
        | false => simp [Validate, pipeline, h1, h2, h3, h4]
        | true =>
          cases h5 : sv.ValidateRoots txHashSet blockHeader with
          | false => simp [Validate, pipeline, h1, h2, h3, h4, h5]
          | true =>
            cases h6 : ValidateKernelHistory sv txHashSet.GetKernelMMR blockHeader with
            | false => simp [Validate, pipeline, h1, h2, h3, h4, h5, h6]
            | true =>
              cases h7 : (sv.ValidateKernelSums txHashSet blockHeader Commitment.zero Commitment.zero).1 with
              | false => simp [Validate, pipeline, h1, h2, h3, h4, h5, h6, h7]
              | true =>
                cases h8 : (ValidateRangeProofs sv txHashSet blockHeader).1 with
                | false => simp [Validate, pipeline, h1, h2, h3, h4, h5, h6, h7, h8]
                | true =>
                  cases h9 : sv.ValidateKernelSignatures txHashSet.GetKernelMMR with
                  | false => simp [Validate, pipeline, h1, h2, h3, h4, h5, h6, h7, h8, h9]
                  | true =>
                    simp [Validate, pipeline, h1, h2, h3, h4, h5, h6, h7, h8, h9]

end TxHashSetValidator

namespace TxHashSetValidator

/-- C6: when each of the `n` unspent outputs has a range proof and every batch verifies,
`ValidateRangeProofs` answers true and the batches it submits to `Crypto::VerifyRangeProofs`
are exactly the consecutive chunks of 2000 of the (commitment, range proof) pairs of the
unspent outputs in increasing position order: concatenated they give every pair once, there
are `n / 2000` batches of 2000 followed by one of `n % 2000` when that is not zero, no batch
is empty, `n = 2001` gives sizes 2000 and 1, and `n = 0` gives no call. -/
theorem validateRangeProofs_submits_chunks_of_2000 (sv : Services) (txHashSet : TxHashSet)
    (blockHeader : BlockHeader)
    (hproof : ∀ i, i < txHashSet.GetOutputPMMR.GetSize →
      ∀ o, txHashSet.GetOutputPMMR.GetOutputAt i = some o →
        ∃ r, txHashSet.GetRangeProofPMMR.GetRangeProofAt i = some r)
    (hverify : ∀ b ∈ batches txHashSet, sv.VerifyRangeProofs b.1 b.2 = true) :
    (ValidateRangeProofs sv txHashSet blockHeader).1 = true
    ∧ (ValidateRangeProofs sv txHashSet blockHeader).2 = batches txHashSet
    ∧ (unspentPairs txHashSet).length = unspentCount txHashSet
    ∧ (((ValidateRangeProofs sv txHashSet blockHeader).2.map
          (fun b => b.1.zip b.2)).flatten = unspentPairs txHashSet)
    ∧ ((ValidateRangeProofs sv txHashSet blockHeader).2.map (fun b => b.1.length)
        = List.replicate (unspentCount txHashSet / 2000) 2000
          ++ (if unspentCount txHashSet % 2000 = 0 then []
              else [unspentCount txHashSet % 2000]))
    ∧ (∀ b ∈ (ValidateRangeProofs sv txHashSet blockHeader).2,
        b.1 ≠ [] ∧ b.1.length = b.2.length)
    ∧ (unspentCount txHashSet = 2001 →
        (ValidateRangeProofs sv txHashSet blockHeader).2.map (fun b => b.1.length) = [2000, 1])
    ∧ (unspentCount txHashSet = 0 → (ValidateRangeProofs sv txHashSet blockHeader).2 = []) := by
  have hrun : ValidateRangeProofs sv txHashSet blockHeader = (true, batches txHashSet) := by
    rw [validateRangeProofs_eq_submit sv txHashSet blockHeader hproof,
      submit_of_all_verify sv _ [] hverify]
    simp
  have hcount : (unspentPairs txHashSet).length = unspentCount txHashSet :=
    length_unspentPairsOver txHashSet _ (fun i hi => hproof i (List.mem_range.mp hi))
  have hzip : (batches txHashSet).map (fun b => b.1.zip b.2)
      = chunks 2000 (unspentPairs txHashSet) := by
    simp only [batches, List.map_map]
    conv_rhs => rw [← List.map_id (chunks 2000 (unspentPairs txHashSet))]
    apply List.map_congr_left
    intro ps _
    exact zip_toBatch ps
  have hlen : (batches txHashSet).map (fun b => b.1.length)
      = List.replicate (unspentCount txHashSet / 2000) 2000
        ++ (if unspentCount txHashSet % 2000 = 0 then []
            else [unspentCount txHashSet % 2000]) := by
    rw [← hcount, ← lengths_chunks 2000 (by decide) _ (unspentPairs txHashSet) (Nat.le_refl _)]
    simp only [batches, List.map_map]
    apply List.map_congr_left
    intro ps _
    simp [toBatch]
  rw [hrun]
  refine ⟨rfl, rfl, hcount, ?_, hlen, ?_, ?_, ?_⟩
  · show ((batches txHashSet).map (fun b => b.1.zip b.2)).flatten = unspentPairs txHashSet
    rw [hzip]
    exact join_chunks 2000 (by decide) _ _ (Nat.le_refl _)
  · intro b hb
    show b.1 ≠ [] ∧ b.1.length = b.2.length
    have hmem : b.1.length ∈ (batches txHashSet).map (fun b => b.1.length) :=
      List.mem_map.mpr ⟨b, hb, rfl⟩
    have hpos : b.1.length ≠ 0 := by
      rw [hlen, List.mem_append] at hmem
      rcases hmem with h | h
      · rw [(List.mem_replicate.mp h).2]; decide
      · by_cases h0 : unspentCount txHashSet % 2000 = 0
        · simp [h0] at h
        · simp only [h0, if_false, List.mem_singleton] at h
          rw [h]; exact h0
    refine ⟨fun h => hpos (by rw [h]; rfl), ?_⟩
    obtain ⟨ps, _, rfl⟩ := List.mem_map.mp hb
    simp [toBatch]
  · intro h
    show (batches txHashSet).map (fun b => b.1.length) = [2000, 1]
    rw [hlen, h]
    rfl
  · intro h
    show batches txHashSet = []
    have hnil : unspentPairs txHashSet = [] := by
      apply List.length_eq_zero.mp
      rw [hcount, h]
    simp [batches, hnil, chunks_nil]

/-- C6, instantiated on the sample TxHashSet: its two unspent outputs go out in one batch. -/
theorem validateRangeProofs_submits_chunks_of_2000_witness :
    (∀ i, i < Sample.txHashSet.GetOutputPMMR.GetSize →
      ∀ o, Sample.txHashSet.GetOutputPMMR.GetOutputAt i = some o →
        ∃ r, Sample.txHashSet.GetRangeProofPMMR.GetRangeProofAt i = some r)
    ∧ (∀ b ∈ batches Sample.txHashSet, Sample.services.VerifyRangeProofs b.1 b.2 = true)
    ∧ ValidateRangeProofs Sample.services Sample.txHashSet Sample.blockHeader
        = (true, [([⟨[20]⟩, ⟨[23]⟩], [⟨[30]⟩, ⟨[33]⟩])])
    ∧ unspentCount Sample.txHashSet = 2 := by
  have hproof : ∀ i, i < Sample.txHashSet.GetOutputPMMR.GetSize →
      ∀ o, Sample.txHashSet.GetOutputPMMR.GetOutputAt i = some o →
        ∃ r, Sample.txHashSet.GetRangeProofPMMR.GetRangeProofAt i = some r := by
    intro i hi o ho
    have hi4 : i < 4 := hi
    interval_cases i
    · exact ⟨_, rfl⟩
    · cases ho
    · cases ho
    · exact ⟨_, rfl⟩
  have hverify : ∀ b ∈ batches Sample.txHashSet,
      Sample.services.VerifyRangeProofs b.1 b.2 = true := fun _ _ => rfl
  have h := validateRangeProofs_submits_chunks_of_2000 Sample.services Sample.txHashSet
    Sample.blockHeader hproof hverify
  refine ⟨hproof, hverify, ?_, by decide⟩
  apply Prod.ext
  · exact h.1
  · rw [h.2.1]; decide

/-- C7: when every unspent output has a range proof, `ValidateRangeProofs` answers true exactly
when `Crypto::VerifyRangeProofs` answers true for every batch (the full batches of 2000 and
the remainder); and when some batch is the first to be rejected it answers false and the
batches submitted are those before it and that one, none after it. -/
theorem validateRangeProofs_true_iff_every_batch_verifies (sv : Services)
    (txHashSet : TxHashSet) (blockHeader : BlockHeader)
    (hproof : ∀ i, i < txHashSet.GetOutputPMMR.GetSize →
      ∀ o, txHashSet.GetOutputPMMR.GetOutputAt i = some o →
        ∃ r, txHashSet.GetRangeProofPMMR.GetRangeProofAt i = some r) :
    ((ValidateRangeProofs sv txHashSet blockHeader).1 = true ↔
      ∀ b ∈ batches txHashSet, sv.VerifyRangeProofs b.1 b.2 = true)
    ∧ (∀ (pre : List Batch) (b : Batch) (post : List Batch),
        batches txHashSet = pre ++ b :: post →
        (∀ x ∈ pre, sv.VerifyRangeProofs x.1 x.2 = true) →
        sv.VerifyRangeProofs b.1 b.2 = false →
        ValidateRangeProofs sv txHashSet blockHeader = (false, pre ++ [b])) := by
  have hrun := validateRangeProofs_eq_submit sv txHashSet blockHeader hproof
  refine ⟨?_, ?_⟩
  · rw [hrun]
    exact submit_fst_iff sv _ []
  · intro pre b post hsplit hpre hb
    rw [hrun, hsplit, submit_of_first_failure sv pre b post [] hpre hb]
    simp

/-- C7, instantiated on the sample TxHashSet with a verifier that rejects: the only batch is
submitted, nothing after it, and the answer is false. -/
theorem validateRangeProofs_true_iff_every_batch_verifies_witness :
    (∀ i, i < Sample.txHashSet.GetOutputPMMR.GetSize →
      ∀ o, Sample.txHashSet.GetOutputPMMR.GetOutputAt i = some o →
        ∃ r, Sample.txHashSet.GetRangeProofPMMR.GetRangeProofAt i = some r)
    ∧ ValidateRangeProofs Sample.rejecting Sample.txHashSet Sample.blockHeader
        = (false, [([⟨[20]⟩, ⟨[23]⟩], [⟨[30]⟩, ⟨[33]⟩])]) := by
  have hproof : ∀ i, i < Sample.txHashSet.GetOutputPMMR.GetSize →
      ∀ o, Sample.txHashSet.GetOutputPMMR.GetOutputAt i = some o →
        ∃ r, Sample.txHashSet.GetRangeProofPMMR.GetRangeProofAt i = some r := by
    intro i hi o ho
    have hi4 : i < 4 := hi
    interval_cases i
    · exact ⟨_, rfl⟩
    · cases ho
    · cases ho
    · exact ⟨_, rfl⟩
  have h := (validateRangeProofs_true_iff_every_batch_verifies Sample.rejecting
    Sample.txHashSet Sample.blockHeader hproof).2 []
      ([⟨[20]⟩, ⟨[23]⟩], [⟨[30]⟩, ⟨[33]⟩]) [] (by decide) (by simp) rfl
  exact ⟨hproof, h⟩

end TxHashSetValidator

namespace TxHashSetValidator

/-- C3, as stated, fails: on a TxHashSet whose sizes match the header and whose kernel MMR is a
single leaf, replacing the stored hash of that leaf by another value leaves the kernel hash
check true for every choice of services, so `Validate` never reports the hash-check error. -/
theorem mutated_lone_leaf_passes_hash_check :
    ValidateSizes Sample.loneLeafSet (Sample.headerAt 0) = true
    ∧ (∀ sv : Services, ValidateMMRHashes sv Sample.loneLeafSet.GetKernelMMR.toMMR = true)
    ∧ (∀ sv : Services, ValidateMMRHashes sv Sample.loneLeafSet.GetOutputPMMR.toMMR = true)
    ∧ (∀ sv : Services, ValidateMMRHashes sv Sample.loneLeafSet.GetRangeProofPMMR.toMMR = true)
    ∧ Sample.loneLeafSet.GetKernelMMR.GetHashAt 0 = some ⟨[10]⟩
    ∧ (⟨[99]⟩ : Hash) ≠ ⟨[10]⟩
    ∧ (mutateKernelHash Sample.loneLeafSet 0 ⟨[99]⟩).GetKernelMMR.GetHashAt 0 = some ⟨[99]⟩
    ∧ ValidateSizes (mutateKernelHash Sample.loneLeafSet 0 ⟨[99]⟩) (Sample.headerAt 0) = true
    ∧ (∀ sv : Services,
        ValidateMMRHashes sv (mutateKernelHash Sample.loneLeafSet 0 ⟨[99]⟩).GetKernelMMR.toMMR
          = true)
    ∧ (∀ sv : Services,
        (Validate sv (mutateKernelHash Sample.loneLeafSet 0 ⟨[99]⟩) (Sample.headerAt 0)).logged
          ≠ some "TxHashSetValidator::Validate - Invalid MMR hashes.") := by
  have hk : ∀ sv : Services,
      ValidateMMRHashes sv (mutateKernelHash Sample.loneLeafSet 0 ⟨[99]⟩).GetKernelMMR.toMMR
        = true := fun _ => rfl
  have ho : ∀ sv : Services,
      ValidateMMRHashes sv (mutateKernelHash Sample.loneLeafSet 0 ⟨[99]⟩).GetOutputPMMR.toMMR
        = true := fun _ => rfl
  have hr : ∀ sv : Services,
      ValidateMMRHashes sv
        (mutateKernelHash Sample.loneLeafSet 0 ⟨[99]⟩).GetRangeProofPMMR.toMMR
        = true := fun _ => rfl
  have hs : ValidateSizes (mutateKernelHash Sample.loneLeafSet 0 ⟨[99]⟩) (Sample.headerAt 0)
      = true := by decide
  refine ⟨by decide, fun _ => rfl, fun _ => rfl, fun _ => rfl, rfl, by decide, rfl, hs, hk, ?_⟩
  intro sv
  simp only [Validate, hs, hk sv, ho sv, hr sv]
  cases sv.ValidateRoots (mutateKernelHash Sample.loneLeafSet 0 ⟨[99]⟩) (Sample.headerAt 0) <;>
  cases ValidateKernelHistory sv (mutateKernelHash Sample.loneLeafSet 0 ⟨[99]⟩).GetKernelMMR
    (Sample.headerAt 0) <;>
  cases (sv.ValidateKernelSums (mutateKernelHash Sample.loneLeafSet 0 ⟨[99]⟩)
    (Sample.headerAt 0) Commitment.zero Commitment.zero).1 <;>
  cases (ValidateRangeProofs sv (mutateKernelHash Sample.loneLeafSet 0 ⟨[99]⟩)
    (Sample.headerAt 0)).1 <;>
  cases sv.ValidateKernelSignatures (mutateKernelHash Sample.loneLeafSet 0 ⟨[99]⟩).GetKernelMMR <;>
  simp

/-- C3, amended: on a TxHashSet whose sizes match the header and whose kernel hashes were
consistent, replacing the stored kernel-MMR hash at position `p` by a different value makes
the kernel hash check answer false, and `Validate` stops at the hash-check step with the
invalid hashes error and returns null, provided `p` takes part in a checked triple: either `p`
is a position below the size of height at least 1 with both child hashes stored, or `p` is a
child of such a position `q` whose own hash and other child are stored, and the parent hash
computed at `q` from the new child differs from the one computed from the old child. -/
theorem mutated_kernel_hash_fails_hash_check (sv : Services) (txHashSet : TxHashSet)
    (blockHeader : BlockHeader) (p : Nat) (oldHash newHash : Hash)
    (hsizes : ValidateSizes txHashSet blockHeader = true)
    (hconsistent : ValidateMMRHashes sv txHashSet.GetKernelMMR.toMMR = true)
    (hold : txHashSet.GetKernelMMR.GetHashAt p = some oldHash)
    (hnew : newHash ≠ oldHash)
    (hcovered :
      (p < txHashSet.GetKernelMMR.GetSize ∧ 1 ≤ MMRUtil.GetHeight p
        ∧ (txHashSet.GetKernelMMR.GetHashAt (p - 2 ^ MMRUtil.GetHeight p)).isSome = true
        ∧ (txHashSet.GetKernelMMR.GetHashAt (p - 1)).isSome = true)
      ∨ (∃ q, q < txHashSet.GetKernelMMR.GetSize ∧ 1 ≤ MMRUtil.GetHeight q
          ∧ (txHashSet.GetKernelMMR.GetHashAt q).isSome = true
          ∧ ((p = q - 2 ^ MMRUtil.GetHeight q
              ∧ ∃ rightHash, txHashSet.GetKernelMMR.GetHashAt (q - 1) = some rightHash
                ∧ sv.HashParentWithIndex newHash rightHash q
                    ≠ sv.HashParentWithIndex oldHash rightHash q)
            ∨ (p = q - 1
              ∧ ∃ leftHash,
                txHashSet.GetKernelMMR.GetHashAt (q - 2 ^ MMRUtil.GetHeight q) = some leftHash
                ∧ sv.HashParentWithIndex leftHash newHash q
                    ≠ sv.HashParentWithIndex leftHash oldHash q)))) :
    ValidateMMRHashes sv (mutateKernelHash txHashSet p newHash).GetKernelMMR.toMMR = false
    ∧ Validate sv (mutateKernelHash txHashSet p newHash) blockHeader
        = ⟨pipeline.take 4, some "TxHashSetValidator::Validate - Invalid MMR hashes.",
            none⟩ := by
  have hget : ∀ i, (mutateKernelHash txHashSet p newHash).GetKernelMMR.GetHashAt i
      = if i = p then some newHash else txHashSet.GetKernelMMR.GetHashAt i := fun _ => rfl
  have hsize : (mutateKernelHash txHashSet p newHash).GetKernelMMR.GetSize
      = txHashSet.GetKernelMMR.GetSize := rfl
  have hfalse : ValidateMMRHashes sv (mutateKernelHash txHashSet p newHash).GetKernelMMR.toMMR
      = false := by
    cases hv : ValidateMMRHashes sv (mutateKernelHash txHashSet p newHash).GetKernelMMR.toMMR with
    | false => rfl
    | true =>
      exfalso
      rcases hcovered with ⟨hp, hh, hl, hr⟩ | ⟨q, hq, hh, hqs, hchild⟩
      · have h2 := two_le_of_height_pos p hh
        have hpow : 2 ≤ 2 ^ MMRUtil.GetHeight p := by
          calc 2 = 2 ^ 1 := rfl
            _ ≤ 2 ^ MMRUtil.GetHeight p := Nat.pow_le_pow_right (by decide) hh
        obtain ⟨leftHash, hl⟩ := Option.isSome_iff_exists.mp hl
        obtain ⟨rightHash, hr⟩ := Option.isSome_iff_exists.mp hr
        have hne1 : p - 2 ^ MMRUtil.GetHeight p ≠ p := by omega
        have hne2 : p - 1 ≠ p := by omega
        have e1 := parent_matches_of_validateMMRHashes sv _ hconsistent p hp hh
          oldHash leftHash rightHash hold hl hr
        have e2 := parent_matches_of_validateMMRHashes sv _ hv p hp hh
          newHash leftHash rightHash (by rw [hget]; simp)
          (by rw [hget]; simp [hne1, hl]) (by rw [hget]; simp [hne2, hr])
        exact hnew (e2.trans e1.symm)
      · have h2 := two_le_of_height_pos q hh
        have hpow : 2 ≤ 2 ^ MMRUtil.GetHeight q := by
          calc 2 = 2 ^ 1 := rfl
            _ ≤ 2 ^ MMRUtil.GetHeight q := Nat.pow_le_pow_right (by decide) hh
        obtain ⟨parentHash, hqs⟩ := Option.isSome_iff_exists.mp hqs
        have hqp : q ≠ p := by
          rcases hchild with ⟨hc, _⟩ | ⟨hc, _⟩ <;> omega
        rcases hchild with ⟨hc, rightHash, hr, hdiff⟩ | ⟨hc, leftHash, hl, hdiff⟩
        · have hrp : q - 1 ≠ p := by omega
          have hl : txHashSet.GetKernelMMR.GetHashAt (q - 2 ^ MMRUtil.GetHeight q)
              = some oldHash := by rw [← hc]; exact hold
          have e1 := parent_matches_of_validateMMRHashes sv _ hconsistent q hq hh
            parentHash oldHash rightHash hqs hl hr
          have e2 := parent_matches_of_validateMMRHashes sv _ hv q hq hh
            parentHash newHash rightHash (by rw [hget]; simp [hqp, hqs])
            (by rw [hget]; simp [hc]) (by rw [hget]; simp [hrp, hr])
          exact hdiff (e2.symm.trans e1)
        · have hlp : q - 2 ^ MMRUtil.GetHeight q ≠ p := by omega
          have hr : txHashSet.GetKernelMMR.GetHashAt (q - 1) = some oldHash := by
            rw [← hc]; exact hold
          have e1 := parent_matches_of_validateMMRHashes sv _ hconsistent q hq hh
            parentHash leftHash oldHash hqs hl hr
          have e2 := parent_matches_of_validateMMRHashes sv _ hv q hq hh
            parentHash leftHash newHash (by rw [hget]; simp [hqp, hqs])
            (by rw [hget]; simp [hlp, hl]) (by rw [hget]; simp [hc])
          exact hdiff (e2.symm.trans e1)
  exact ⟨hfalse, validate_of_kernel_hash_failure sv _ blockHeader hsizes hfalse⟩

end TxHashSetValidator

namespace TxHashSetValidator

/-- C3, amended, instantiated on the sample TxHashSet: replacing the hash of the kernel leaf at
position 0, a child of the stored parent at position 2, makes the hash check fail; so does
replacing the hash of the parent at position 2, whose two children are stored. -/
theorem mutated_kernel_hash_fails_hash_check_witness :
    ValidateSizes Sample.txHashSet Sample.blockHeader = true
    ∧ ValidateMMRHashes Sample.services Sample.txHashSet.GetKernelMMR.toMMR = true
    ∧ ValidateMMRHashes Sample.services
        (mutateKernelHash Sample.txHashSet 0 ⟨[99]⟩).GetKernelMMR.toMMR = false
    ∧ Validate Sample.services (mutateKernelHash Sample.txHashSet 0 ⟨[99]⟩) Sample.blockHeader
        = ⟨pipeline.take 4, some "TxHashSetValidator::Validate - Invalid MMR hashes.",
            none⟩
    ∧ ValidateMMRHashes Sample.services
        (mutateKernelHash Sample.txHashSet 2 ⟨[99]⟩).GetKernelMMR.toMMR = false
    ∧ Validate Sample.services (mutateKernelHash Sample.txHashSet 2 ⟨[99]⟩) Sample.blockHeader
        = ⟨pipeline.take 4, some "TxHashSetValidator::Validate - Invalid MMR hashes.",
            none⟩ := by
  have hs : ValidateSizes Sample.txHashSet Sample.blockHeader = true := by decide
  have hc : ValidateMMRHashes Sample.services Sample.txHashSet.GetKernelMMR.toMMR = true := by
    decide
  have h := mutated_kernel_hash_fails_hash_check Sample.services Sample.txHashSet
    Sample.blockHeader 0 ⟨[10]⟩ ⟨[99]⟩ hs hc rfl (by decide)
    (Or.inr ⟨2, by decide, by decide, rfl, Or.inl ⟨by decide, ⟨[11]⟩, rfl, by decide⟩⟩)
  have h2 := mutated_kernel_hash_fails_hash_check Sample.services Sample.txHashSet
    Sample.blockHeader 2 (Sample.hashParentWithIndex ⟨[10]⟩ ⟨[11]⟩ 2) ⟨[99]⟩ hs hc rfl
    (by decide) (Or.inl ⟨by decide, by decide, rfl, rfl⟩)
  exact ⟨hs, hc, h.1, h.2, h2.1, h2.2⟩

end TxHashSetValidator

/-! ## Claims about BlockDB -/

namespace BlockDB

/-- C9: what the five read operations do with the status of the underlying get. On NotFound
each of them returns null without raising (`GetBlockHeader` when the hash is not cached). On
any other failing status `GetBlockHeader` and `GetBlockInputBitmap` raise `DatabaseException`,
whereas `GetBlock`, `GetBlockSums` and `GetOutputPosition` return null and raise nothing. -/
theorem read_operations_on_failing_get (ser : Serialization) (db : BlockDB) (hash : Hash)
    (outputCommitment : Commitment) :
    (db.BLOCK_HEADERS_CACHE.Cached hash = false → (db.Read .HEADER hash.bytes).1 = .notFound →
      GetBlockHeader ser db hash = .ok none)
    ∧ ((db.Read .BLOCK hash.bytes).1 = .notFound → GetBlock ser db hash = .ok none)
    ∧ ((db.Read .BLOCK_SUMS hash.bytes).1 = .notFound → GetBlockSums ser db hash = .ok none)
    ∧ ((db.Read .OUTPUT_POS (outputCommitment.bytes.take 32)).1 = .notFound →
        GetOutputPosition ser db outputCommitment = .ok none)
    ∧ ((db.Read .INPUT_BITMAP hash.bytes).1 = .notFound →
        GetBlockInputBitmap ser db hash = .ok none)
    ∧ (∀ state, db.BLOCK_HEADERS_CACHE.Cached hash = false →
        (db.Read .HEADER hash.bytes).1 = .failure state →
        GetBlockHeader ser db hash
          = .error (.DatabaseException ("DB::Get Failed with error: " ++ state)))
    ∧ (∀ state, (db.Read .INPUT_BITMAP hash.bytes).1 = .failure state →
        GetBlockInputBitmap ser db hash
          = .error (.DatabaseException ("DB::Get Failed with error: " ++ state)))
    ∧ (∀ state, (db.Read .BLOCK hash.bytes).1 = .failure state →
        GetBlock ser db hash = .ok none)
    ∧ (∀ state, (db.Read .BLOCK_SUMS hash.bytes).1 = .failure state →
        GetBlockSums ser db hash = .ok none)
    ∧ (∀ state, (db.Read .OUTPUT_POS (outputCommitment.bytes.take 32)).1 = .failure state →
        GetOutputPosition ser db outputCommitment = .ok none) := by
  refine ⟨?_, ?_, ?_, ?_, ?_, ?_, ?_, ?_, ?_, ?_⟩
  · intro hc h; simp [GetBlockHeader, hc, h, Status.isOk, Status.IsNotFound]
  · intro h; simp [GetBlock, h, Status.isOk]
  · intro h; simp [GetBlockSums, h, Status.isOk]
  · intro h; simp [GetOutputPosition, h, Status.isOk]
  · intro h; simp [GetBlockInputBitmap, h, Status.isOk, Status.IsNotFound]
  · intro state hc h
    simp [GetBlockHeader, hc, h, Status.isOk, Status.IsNotFound, Status.getState]
  · intro state h
    simp [GetBlockInputBitmap, h, Status.isOk, Status.IsNotFound, Status.getState]
  · intro state h; simp [GetBlock, h, Status.isOk]
  · intro state h; simp [GetBlockSums, h, Status.isOk]
  · intro state h; simp [GetOutputPosition, h, Status.isOk]

/-- C9 at the failing input: on a database whose engine answers IOError, `GetBlock`,
`GetBlockSums` and `GetOutputPosition` return null, while `GetBlockHeader` and
`GetBlockInputBitmap` raise `DatabaseException` on the same database. -/
theorem read_operations_on_failing_get_witness :
    (Sample.brokenDB.Read .BLOCK [7]).1 = .failure "IO error"
    ∧ GetBlock Sample.serialization Sample.brokenDB ⟨[7]⟩ = .ok none
    ∧ GetBlockSums Sample.serialization Sample.brokenDB ⟨[7]⟩ = .ok none
    ∧ GetOutputPosition Sample.serialization Sample.brokenDB ⟨[7]⟩ = .ok none
    ∧ GetBlockHeader Sample.serialization Sample.brokenDB ⟨[7]⟩
        = .error (.DatabaseException "DB::Get Failed with error: IO error")
    ∧ GetBlockInputBitmap Sample.serialization Sample.brokenDB ⟨[7]⟩
        = .error (.DatabaseException "DB::Get Failed with error: IO error") := by
  have h := read_operations_on_failing_get Sample.serialization Sample.brokenDB ⟨[7]⟩ ⟨[7]⟩
  obtain ⟨_, _, _, _, _, h6, h7, h8, h9, h10⟩ := h
  exact ⟨rfl, h8 "IO error" rfl, h9 "IO error" rfl, h10 "IO error" rfl,
    h6 "IO error" rfl rfl, h7 "IO error" rfl⟩

/-- C10: what the six write operations do when the underlying put answers a status that is not
ok. `AddBlockHeader`, `AddBlockHeaders` (at its first header, inside a batch), `AddBlock`,
`AddBlockSums` and `AddOutputPosition` raise `DatabaseException`; `AddBlockInputBitmap`, once
the bitmap has been serialised to the expected number of bytes, returns normally. -/
theorem write_operations_on_failing_put (ser : Serialization) (db : BlockDB)
    (pBlockHeader : BlockHeader) (rest : List BlockHeader) (block : FullBlock) (hash : Hash)
    (blockSums : BlockSums) (outputCommitment : Commitment) (location : OutputLocation)
    (bitmap : Roaring) :
    ((db.Write .HEADER pBlockHeader.GetHash.bytes (ser.SerializeHeader pBlockHeader)).1.isOk = false →
      (AddBlockHeader ser db pBlockHeader).1
        = .error (.DatabaseException ("DB::Put Failed with error: "
            ++ (db.Write .HEADER pBlockHeader.GetHash.bytes
                (ser.SerializeHeader pBlockHeader)).1.getState)))
    ∧ (∀ pTransaction, db.m_pTransaction = some pTransaction →
        (pTransaction.Put .HEADER pBlockHeader.GetHash.bytes
          (ser.SerializeHeader pBlockHeader)).1.isOk = false →
        (AddBlockHeaders ser db (pBlockHeader :: rest)).1
          = .error (.DatabaseException ("WriteBatch::put failed with error: "
              ++ (pTransaction.Put .HEADER pBlockHeader.GetHash.bytes
                  (ser.SerializeHeader pBlockHeader)).1.getState)))
    ∧ ((db.Write .BLOCK block.GetHash.bytes (ser.SerializeBlock block)).1.isOk = false →
        (AddBlock ser db block).1 = .error (.DatabaseException "Failed to save Block."))
    ∧ ((db.Write .BLOCK_SUMS hash.bytes (ser.SerializeBlockSums blockSums)).1.isOk = false →
        (AddBlockSums ser db hash blockSums).1
          = .error (.DatabaseException "Failed to save BlockSums."))
    ∧ ((db.Write .OUTPUT_POS (outputCommitment.bytes.take 32)
          (ser.SerializeOutputLocation location)).1.isOk = false →
        (AddOutputPosition ser db outputCommitment location).1
          = .error (.DatabaseException "Failed to save output location."))
    ∧ ((ser.RoaringWrite bitmap).length = ser.RoaringSizeInBytes bitmap →
        (db.Write .INPUT_BITMAP hash.bytes (ser.RoaringWrite bitmap)).1.isOk = false →
        (AddBlockInputBitmap ser db hash bitmap).1 = .ok ()) := by
  refine ⟨?_, ?_, ?_, ?_, ?_, ?_⟩
  · intro h
    simp [AddBlockHeader, h]
  · intro pTransaction ht h
    simp [AddBlockHeaders, AddBlockHeaders.loop, ht, h]
  · intro h; simp [AddBlock, h]
  · intro h; simp [AddBlockSums, h]
  · intro h; simp [AddOutputPosition, h]
  · intro hlen _; simp [AddBlockInputBitmap, hlen]

/-- C10 at the failing input: on a database whose engine answers IOError to the put,
`AddBlockInputBitmap` returns normally, while `AddBlockSums` raises `DatabaseException` on the
same database. -/
theorem write_operations_on_failing_put_witness :
    (Sample.brokenDB.Write .INPUT_BITMAP [7] [1, 2, 3]).1 = .failure "IO error"
    ∧ (AddBlockInputBitmap Sample.serialization Sample.brokenDB ⟨[7]⟩ ⟨[1, 2, 3]⟩).1 = .ok ()
    ∧ (AddBlockSums Sample.serialization Sample.brokenDB ⟨[7]⟩
        ⟨Commitment.zero, Commitment.zero⟩).1
        = .error (.DatabaseException "Failed to save BlockSums.")
    ∧ (AddBlockHeaders Sample.serialization Sample.brokenBatchDB [Sample.blockHeader]).1
        = .error (.DatabaseException "WriteBatch::put failed with error: IO error") := by
  have h := write_operations_on_failing_put Sample.serialization Sample.brokenDB
    Sample.blockHeader [] ⟨Sample.blockHeader, []⟩ ⟨[7]⟩ ⟨Commitment.zero, Commitment.zero⟩
    Commitment.zero ⟨0, 0⟩ ⟨[1, 2, 3]⟩
  have h' := write_operations_on_failing_put Sample.serialization Sample.brokenBatchDB
    Sample.blockHeader [] ⟨Sample.blockHeader, []⟩ ⟨[7]⟩ ⟨Commitment.zero, Commitment.zero⟩
    Commitment.zero ⟨0, 0⟩ ⟨[1, 2, 3]⟩
  exact ⟨rfl, h.2.2.2.2.2 rfl rfl, h.2.2.2.1 rfl, h'.2.1 _ rfl rfl⟩

end BlockDB

namespace BlockDB

/-- C11: `Read` and `Write` are routed by the presence of an open transaction. `OnInitWrite`
opens one and `OnEndWrite` closes it. While one is open, `Write` puts into the transaction
and leaves the base DB unchanged, `Read` gets from the transaction, and a value written with
an ok status is what the matching read returns before any commit (for instance
`GetBlockSums` after `AddBlockSums`, when the sums are serialised faithfully). When none is
open, `Read` and `Write` go to the base DB. -/
theorem read_write_routed_by_transaction (ser : Serialization) (db : BlockDB)
    (family : ColumnFamily) (key value : Bytes) (blockHash : Hash) (blockSums : BlockSums) :
    db.OnInitWrite.m_pTransaction = some db.m_pDatabase.BeginTransaction
    ∧ db.OnEndWrite.m_pTransaction = none
    ∧ (∀ pTransaction, db.m_pTransaction = some pTransaction →
        db.Read family key = pTransaction.Get family key
        ∧ (db.Write family key value).1 = (pTransaction.Put family key value).1
        ∧ (db.Write family key value).2.m_pTransaction
            = some (pTransaction.Put family key value).2
        ∧ (db.Write family key value).2.m_pDatabase = db.m_pDatabase
        ∧ ((db.Write family key value).1 = .ok →
            (db.Write family key value).2.Read family key = (.ok, value))
        ∧ ((AddBlockSums ser db blockHash blockSums).1 = .ok () →
            ser.DeserializeBlockSums (ser.SerializeBlockSums blockSums) = .ok blockSums →
            GetBlockSums ser (AddBlockSums ser db blockHash blockSums).2 blockHash
              = .ok (some blockSums)))
    ∧ (db.m_pTransaction = none →
        db.Read family key = db.m_pDatabase.Get family key
        ∧ (db.Write family key value).1 = (db.m_pDatabase.Put family key value).1
        ∧ (db.Write family key value).2.m_pDatabase = (db.m_pDatabase.Put family key value).2
        ∧ (db.Write family key value).2.m_pTransaction = none)
    ∧ (db.m_pDatabase.broken = none →
        (db.OnInitWrite.Write family key value).1 = .ok
        ∧ (db.OnInitWrite.Write family key value).2.Read family key = (.ok, value)
        ∧ (db.OnInitWrite.Write family key value).2.m_pDatabase = db.m_pDatabase
        ∧ (db.OnInitWrite.Write family key value).2.OnEndWrite.Read family key
            = db.m_pDatabase.Get family key) := by
  refine ⟨rfl, rfl, ?_, ?_, ?_⟩
  · intro pTransaction ht
    have hput : ∀ (f : ColumnFamily) (k v : Bytes), (pTransaction.Put f k v).1 = .ok →
        (pTransaction.Put f k v).2.Get f k = (.ok, v) := by
      intro f k v h
      cases hb : pTransaction.broken with
      | some state => simp [KVHandle.Put, hb] at h
      | none => simp [KVHandle.Put, KVHandle.Get, hb]
    refine ⟨by simp [Read, ht], by simp [Write, ht], by simp [Write, ht], by simp [Write, ht],
      ?_, ?_⟩
    · intro h
      have h' : (pTransaction.Put family key value).1 = .ok := by simpa [Write, ht] using h
      simpa [Write, Read, ht] using hput family key value h'
    · intro hadd hround
      have hw : (pTransaction.Put .BLOCK_SUMS blockHash.bytes
          (ser.SerializeBlockSums blockSums)).1 = .ok := by
        cases hs : (pTransaction.Put .BLOCK_SUMS blockHash.bytes
            (ser.SerializeBlockSums blockSums)).1 with
        | ok => rfl
        | notFound => simp [AddBlockSums, Write, ht, hs, Status.isOk] at hadd
        | failure state => simp [AddBlockSums, Write, ht, hs, Status.isOk] at hadd
      have hg := hput .BLOCK_SUMS blockHash.bytes (ser.SerializeBlockSums blockSums) hw
      simp [GetBlockSums, AddBlockSums, Write, Read, ht, hw, hg, Status.isOk, hround]
  · intro hn
    simp [Read, Write, hn]
  · intro hb
    simp [OnInitWrite, OnEndWrite, Write, Read, KVHandle.BeginTransaction, KVHandle.Put,
      KVHandle.Get, hb]

end BlockDB

namespace BlockDB

/-- While a transaction is open, the header loop of `AddBlockHeaders` leaves the base DB, the
cache and the uncommitted headers as they are, and the transaction open. -/
theorem addBlockHeaders_loop_frame (ser : Serialization) :
    ∀ (blockHeaders : List BlockHeader) (db : BlockDB),
      (AddBlockHeaders.loop ser blockHeaders db).2.m_pDatabase = db.m_pDatabase
      ∧ (AddBlockHeaders.loop ser blockHeaders db).2.BLOCK_HEADERS_CACHE
          = db.BLOCK_HEADERS_CACHE
      ∧ (AddBlockHeaders.loop ser blockHeaders db).2.m_uncommitted = db.m_uncommitted
      ∧ (AddBlockHeaders.loop ser blockHeaders db).2.m_pTransaction.isSome
          = db.m_pTransaction.isSome := by
  intro blockHeaders
  induction blockHeaders with
  | nil => intro db; simp [AddBlockHeaders.loop]
  | cons pBlockHeader rest ih =>
    intro db
    cases ht : db.m_pTransaction with
    | none => simp [AddBlockHeaders.loop, ht]
    | some pTransaction =>
      simp only [AddBlockHeaders.loop, ht]
      by_cases hs : (pTransaction.Put .HEADER pBlockHeader.GetHash.bytes
          (ser.SerializeHeader pBlockHeader)).1.isOk = true
      · simp only [hs, Bool.not_true, Bool.false_eq_true, if_false]
        have h := ih { db with m_pTransaction := some (pTransaction.Put .HEADER
          pBlockHeader.GetHash.bytes (ser.SerializeHeader pBlockHeader)).2 }
        simpa using h
      · simp [hs]

/-- While a transaction is open, an `Add*` write leaves the base DB and the cache as they are,
and the transaction open. -/
theorem applyAdd_frame (ser : Serialization) (db : BlockDB) (op : AddOp)
    (hopen : db.m_pTransaction.isSome = true) :
    (applyAdd ser db op).m_pDatabase = db.m_pDatabase
    ∧ (applyAdd ser db op).BLOCK_HEADERS_CACHE = db.BLOCK_HEADERS_CACHE
    ∧ (applyAdd ser db op).m_pTransaction.isSome = true := by
  obtain ⟨pTransaction, ht⟩ := Option.isSome_iff_exists.mp hopen
  cases op with
  | AddBlockHeader pBlockHeader =>
    simp only [applyAdd, AddBlockHeader, Write, ht, Option.isSome_some, if_true]
    split_ifs <;> simp
  | AddBlockHeaders blockHeaders =>
    have h := addBlockHeaders_loop_frame ser blockHeaders db
    simp only [applyAdd, AddBlockHeaders]
    exact ⟨h.1, h.2.1, by rw [h.2.2.2, hopen]⟩
  | AddBlock block =>
    simp only [applyAdd, AddBlock, Write, ht]
    split_ifs <;> simp
  | AddBlockSums blockHash blockSums =>
    simp only [applyAdd, AddBlockSums, Write, ht]
    split_ifs <;> simp
  | AddOutputPosition outputCommitment location =>
    simp only [applyAdd, AddOutputPosition, Write, ht]
    split_ifs <;> simp
  | AddBlockInputBitmap blockHash bitmap =>
    simp only [applyAdd, AddBlockInputBitmap, Write, ht]
    split_ifs <;> simp [hopen, ht]

/-- While a transaction is open, a sequence of `Add*` writes leaves the base DB and the cache
as they are, and the transaction open. -/
theorem applyAdds_frame (ser : Serialization) :
    ∀ (ops : List AddOp) (db : BlockDB), db.m_pTransaction.isSome = true →
      (applyAdds ser db ops).m_pDatabase = db.m_pDatabase
      ∧ (applyAdds ser db ops).BLOCK_HEADERS_CACHE = db.BLOCK_HEADERS_CACHE
      ∧ (applyAdds ser db ops).m_pTransaction.isSome = true := by
  intro ops
  induction ops with
  | nil => intro db h; exact ⟨rfl, rfl, h⟩
  | cons op rest ih =>
    intro db h
    obtain ⟨h1, h2, h3⟩ := applyAdd_frame ser db op h
    obtain ⟨g1, g2, g3⟩ := ih (applyAdd ser db op) h3
    simp only [applyAdds, List.foldl_cons] at g1 g2 g3 ⊢
    exact ⟨g1.trans h1, g2.trans h2, g3⟩

/-- `Rollback` leaves the base DB and the cache as they are and empties the uncommitted
headers. -/
theorem rollback_frame (db : BlockDB) :
    db.Rollback.2.m_pDatabase = db.m_pDatabase
    ∧ db.Rollback.2.BLOCK_HEADERS_CACHE = db.BLOCK_HEADERS_CACHE
    ∧ db.Rollback.2.m_uncommitted = [] := by
  cases ht : db.m_pTransaction with
  | none => simp [Rollback, ht]
  | some pTransaction =>
    simp only [Rollback, ht]
    split_ifs <;> simp

/-- The read operations look at the base DB, the transaction and the cache only. -/
theorem reads_congr (ser : Serialization) (db db' : BlockDB)
    (h1 : db.m_pDatabase = db'.m_pDatabase) (h2 : db.m_pTransaction = db'.m_pTransaction)
    (h3 : db.BLOCK_HEADERS_CACHE = db'.BLOCK_HEADERS_CACHE) (hash : Hash)
    (outputCommitment : Commitment) :
    GetBlockHeader ser db hash = GetBlockHeader ser db' hash
    ∧ GetBlock ser db hash = GetBlock ser db' hash
    ∧ GetBlockSums ser db hash = GetBlockSums ser db' hash
    ∧ GetOutputPosition ser db outputCommitment = GetOutputPosition ser db' outputCommitment
    ∧ GetBlockInputBitmap ser db hash = GetBlockInputBitmap ser db' hash := by
  simp [GetBlockHeader, GetBlock, GetBlockSums, GetOutputPosition, GetBlockInputBitmap, Read,
    h1, h2, h3]

end BlockDB

namespace BlockDB

/-- C12: a batch that is rolled back leaves the committed store and the header cache exactly
as they were. From a state with an open batch, any sequence of `Add*` writes followed by
`Rollback` leaves the base DB and the cache unchanged and the uncommitted headers empty. From
a state before `OnInitWrite`, after the whole batch (`OnInitWrite`, the writes, `Rollback`,
`OnEndWrite`) every `Get*` returns what it returned before, and a header is cached only if
it was cached before. -/
theorem rolled_back_batch_restores_store_and_cache (ser : Serialization) (db : BlockDB)
    (ops : List AddOp) (hash : Hash) (outputCommitment : Commitment)
    (hclosed : db.m_pTransaction = none) :
    (∀ batch : BlockDB, batch.m_pTransaction.isSome = true →
        (applyAdds ser batch ops).Rollback.2.m_pDatabase = batch.m_pDatabase
        ∧ (applyAdds ser batch ops).Rollback.2.BLOCK_HEADERS_CACHE = batch.BLOCK_HEADERS_CACHE
        ∧ (applyAdds ser batch ops).Rollback.2.m_uncommitted = [])
    ∧ (rolledBackBatch ser db ops).m_pDatabase = db.m_pDatabase
    ∧ (rolledBackBatch ser db ops).BLOCK_HEADERS_CACHE = db.BLOCK_HEADERS_CACHE
    ∧ (rolledBackBatch ser db ops).m_pTransaction = none
    ∧ (rolledBackBatch ser db ops).m_uncommitted = []
    ∧ GetBlockHeader ser (rolledBackBatch ser db ops) hash = GetBlockHeader ser db hash
    ∧ GetBlock ser (rolledBackBatch ser db ops) hash = GetBlock ser db hash
    ∧ GetBlockSums ser (rolledBackBatch ser db ops) hash = GetBlockSums ser db hash
    ∧ GetOutputPosition ser (rolledBackBatch ser db ops) outputCommitment
        = GetOutputPosition ser db outputCommitment
    ∧ GetBlockInputBitmap ser (rolledBackBatch ser db ops) hash
        = GetBlockInputBitmap ser db hash
    ∧ (∀ pBlockHeader : BlockHeader,
        (rolledBackBatch ser db ops).BLOCK_HEADERS_CACHE.Cached pBlockHeader.GetHash = true →
        db.BLOCK_HEADERS_CACHE.Cached pBlockHeader.GetHash = true) := by
  have hopen : ∀ batch : BlockDB, batch.m_pTransaction.isSome = true →
      (applyAdds ser batch ops).Rollback.2.m_pDatabase = batch.m_pDatabase
      ∧ (applyAdds ser batch ops).Rollback.2.BLOCK_HEADERS_CACHE = batch.BLOCK_HEADERS_CACHE
      ∧ (applyAdds ser batch ops).Rollback.2.m_uncommitted = [] := by
    intro batch ho
    obtain ⟨h1, h2, _⟩ := applyAdds_frame ser ops batch ho
    obtain ⟨g1, g2, g3⟩ := rollback_frame (applyAdds ser batch ops)
    exact ⟨g1.trans h1, g2.trans h2, g3⟩
  obtain ⟨h1, h2, h3⟩ := hopen db.OnInitWrite rfl
  have e1 : (rolledBackBatch ser db ops).m_pDatabase = db.m_pDatabase := h1
  have e2 : (rolledBackBatch ser db ops).BLOCK_HEADERS_CACHE = db.BLOCK_HEADERS_CACHE := h2
  have e3 : (rolledBackBatch ser db ops).m_pTransaction = db.m_pTransaction := by
    rw [hclosed]; rfl
  have hreads := reads_congr ser (rolledBackBatch ser db ops) db e1 e3 e2 hash outputCommitment
  refine ⟨hopen, e1, e2, rfl, h3, hreads.1, hreads.2.1, hreads.2.2.1, hreads.2.2.2.1,
    hreads.2.2.2.2, ?_⟩
  intro pBlockHeader hc
  rwa [e2] at hc

/-- C12, instantiated: on the empty sample database a batch that adds a header and block sums
and is rolled back leaves no trace; the header is neither cached nor stored. -/
theorem rolled_back_batch_restores_store_and_cache_witness :
    Sample.emptyDB.m_pTransaction = none
    ∧ (rolledBackBatch Sample.faithful Sample.emptyDB
        [.AddBlockHeader Sample.blockHeader,
          .AddBlockSums ⟨[7]⟩ ⟨Commitment.zero, Commitment.zero⟩]).BLOCK_HEADERS_CACHE
        = Sample.emptyDB.BLOCK_HEADERS_CACHE
    ∧ GetBlockHeader Sample.faithful (rolledBackBatch Sample.faithful Sample.emptyDB
        [.AddBlockHeader Sample.blockHeader,
          .AddBlockSums ⟨[7]⟩ ⟨Commitment.zero, Commitment.zero⟩]) Sample.blockHeader.GetHash
        = .ok none := by
  have h := rolled_back_batch_restores_store_and_cache Sample.faithful Sample.emptyDB
    [.AddBlockHeader Sample.blockHeader,
      .AddBlockSums ⟨[7]⟩ ⟨Commitment.zero, Commitment.zero⟩]
    Sample.blockHeader.GetHash Commitment.zero rfl
  refine ⟨rfl, h.2.2.1, ?_⟩
  rw [h.2.2.2.2.2.1]
  rfl

end BlockDB

namespace BlockDB

/-- After `Put`, the key is cached and `Get` returns the value put. -/
theorem cached_and_get_of_put (cache : FIFOCache) (key : Hash) (value : BlockHeader) :
    (cache.Put key value).Cached key = true ∧ (cache.Put key value).Get key = some value := by
  have hfind : ∀ l : List (Hash × BlockHeader), (l.any (fun e => e.1 = key)) = false →
      (l ++ [(key, value)]).find? (fun e => decide (e.1 = key)) = some (key, value) := by
    intro l hl
    induction l with
    | nil => simp
    | cons e rest ih =>
      simp only [List.any_cons, Bool.or_eq_false_iff, decide_eq_false_iff_not] at hl
      simp [List.find?_cons, hl.1, ih hl.2]
  have hmap : ∀ l : List (Hash × BlockHeader), (l.any (fun e => e.1 = key)) = true →
      (l.map (fun e => if e.1 = key then (key, value) else e)).find?
        (fun e => decide (e.1 = key)) = some (key, value) := by
    intro l hl
    induction l with
    | nil => simp at hl
    | cons e rest ih =>
      by_cases he : e.1 = key
      · simp [List.find?_cons, he]
      · have hrest : (rest.any (fun e => e.1 = key)) = true := by
          simpa [List.any_cons, he] using hl
        simp [List.find?_cons, he, ih hrest]
  by_cases hc : cache.Cached key = true
  · have hc' : (cache.entries.any (fun e => e.1 = key)) = true := hc
    have hput : (cache.Put key value).entries
        = cache.entries.map (fun e => if e.1 = key then (key, value) else e) := by
      unfold FIFOCache.Put
      rw [if_pos hc]
    have h := hmap cache.entries hc'
    refine ⟨?_, ?_⟩
    · unfold FIFOCache.Cached
      rw [hput, List.any_eq_true]
      exact ⟨(key, value), List.mem_of_find?_eq_some h, by simp⟩
    · unfold FIFOCache.Get
      rw [hput, h]
      rfl
  · have hc' : (cache.entries.any (fun e => e.1 = key)) = false := by
      cases hx : cache.entries.any (fun e => e.1 = key) with
      | false => rfl
      | true => exact absurd hx hc
    have hdrop : ((cache.entries.drop 1).any (fun e => e.1 = key)) = false := by
      rw [Bool.eq_false_iff]
      intro h
      rw [List.any_eq_true] at h
      obtain ⟨e, he, hk⟩ := h
      have : (cache.entries.any (fun e => e.1 = key)) = true :=
        List.any_eq_true.mpr ⟨e, List.mem_of_mem_drop he, hk⟩
      rw [hc'] at this
      cases this
    have hput : ∃ l : List (Hash × BlockHeader), (l.any (fun e => e.1 = key)) = false
        ∧ (cache.Put key value).entries = l ++ [(key, value)] := by
      unfold FIFOCache.Put
      rw [if_neg hc]
      by_cases hfull : cache.entries.length + 1 > cache.capacity
      · rw [if_pos hfull]; exact ⟨_, hdrop, rfl⟩
      · rw [if_neg hfull]; exact ⟨_, hc', rfl⟩
    obtain ⟨l, hl, hput⟩ := hput
    refine ⟨?_, ?_⟩
    · unfold FIFOCache.Cached
      rw [hput]
      simp
    · unfold FIFOCache.Get
      rw [hput, hfind l hl]
      rfl

/-- In an open transaction whose engine works, adding headers one by one with `AddBlockHeader`
appends them to the uncommitted headers, leaves the cache as it is and keeps the transaction
open and working. -/
theorem applyAdds_addBlockHeader (ser : Serialization) :
    ∀ (headers : List BlockHeader) (db : BlockDB) (pTransaction : KVHandle),
      db.m_pTransaction = some pTransaction → pTransaction.broken = none →
      (applyAdds ser db (headers.map .AddBlockHeader)).m_uncommitted
          = db.m_uncommitted ++ headers
      ∧ (applyAdds ser db (headers.map .AddBlockHeader)).BLOCK_HEADERS_CACHE
          = db.BLOCK_HEADERS_CACHE
      ∧ (∃ t, (applyAdds ser db (headers.map .AddBlockHeader)).m_pTransaction = some t
          ∧ t.broken = none) := by
  intro headers
  induction headers with
  | nil => intro db t ht hb; exact ⟨by simp [applyAdds], rfl, t, ht, hb⟩
  | cons pBlockHeader rest ih =>
    intro db t ht hb
    have hstep : (applyAdd ser db (.AddBlockHeader pBlockHeader)).m_uncommitted
          = db.m_uncommitted ++ [pBlockHeader]
        ∧ (applyAdd ser db (.AddBlockHeader pBlockHeader)).BLOCK_HEADERS_CACHE
          = db.BLOCK_HEADERS_CACHE
        ∧ (∃ t', (applyAdd ser db (.AddBlockHeader pBlockHeader)).m_pTransaction = some t'
          ∧ t'.broken = none) := by
      simp [applyAdd, AddBlockHeader, Write, KVHandle.Put, ht, hb, Status.isOk]
    obtain ⟨h1, h2, t', h3, h4⟩ := hstep
    obtain ⟨g1, g2, g3⟩ := ih (applyAdd ser db (.AddBlockHeader pBlockHeader)) t' h3 h4
    simp only [applyAdds, List.map_cons, List.foldl_cons] at g1 g2 g3 ⊢
    refine ⟨?_, g2.trans h2, g3⟩
    rw [g1, h1]
    simp

/-- C14: the outcome of `Commit` with a transaction open. When the transaction's commit is not
answered ok, `Commit` raises `DatabaseException` and the state, the cache in particular, is
what it was. When it is answered ok, `Commit` returns normally, the uncommitted headers have
been put into the cache one after the other, the last of them is cached, and the list of
uncommitted headers is empty. In a batch on a working engine the uncommitted headers are
those it had, followed by the headers added with `AddBlockHeader`. -/
theorem commit_outcome (ser : Serialization) (db : BlockDB) (pTransaction : KVHandle)
    (hopen : db.m_pTransaction = some pTransaction) :
    ((pTransaction.Commit db.m_pDatabase).1.isOk = false →
        db.Commit.1 = .error (.DatabaseException ("Transaction::Commit Failed with error: "
          ++ (pTransaction.Commit db.m_pDatabase).1.getState))
        ∧ db.Commit.2 = db)
    ∧ ((pTransaction.Commit db.m_pDatabase).1 = .ok →
        db.Commit.1 = .ok ()
        ∧ db.Commit.2.m_uncommitted = []
        ∧ db.Commit.2.BLOCK_HEADERS_CACHE
            = db.m_uncommitted.foldl (fun cache pHeader => cache.Put pHeader.GetHash pHeader)
                db.BLOCK_HEADERS_CACHE
        ∧ db.Commit.2.m_pDatabase.data = pTransaction.data
        ∧ (∀ earlier last, db.m_uncommitted = earlier ++ [last] →
            db.Commit.2.BLOCK_HEADERS_CACHE.Cached last.GetHash = true
            ∧ db.Commit.2.BLOCK_HEADERS_CACHE.Get last.GetHash = some last))
    ∧ (∀ headers : List BlockHeader, pTransaction.broken = none →
        (applyAdds ser db (headers.map .AddBlockHeader)).m_uncommitted
            = db.m_uncommitted ++ headers
        ∧ (applyAdds ser db (headers.map .AddBlockHeader)).Commit.1 = .ok ()
        ∧ (applyAdds ser db (headers.map .AddBlockHeader)).Commit.2.m_uncommitted = []
        ∧ (applyAdds ser db (headers.map .AddBlockHeader)).Commit.2.BLOCK_HEADERS_CACHE
            = (db.m_uncommitted ++ headers).foldl
                (fun cache pHeader => cache.Put pHeader.GetHash pHeader)
                db.BLOCK_HEADERS_CACHE) := by
  have hok : ∀ (d : BlockDB) (t : KVHandle), d.m_pTransaction = some t →
      (t.Commit d.m_pDatabase).1 = .ok →
      d.Commit.1 = .ok ()
      ∧ d.Commit.2.m_uncommitted = []
      ∧ d.Commit.2.BLOCK_HEADERS_CACHE
          = d.m_uncommitted.foldl (fun cache pHeader => cache.Put pHeader.GetHash pHeader)
              d.BLOCK_HEADERS_CACHE
      ∧ d.Commit.2.m_pDatabase.data = t.data := by
    intro d t ht h
    have hb : t.broken = none := by
      cases hb : t.broken with
      | none => rfl
      | some state => simp [KVHandle.Commit, hb] at h
    simp [Commit, KVHandle.Commit, ht, hb, Status.isOk]
  refine ⟨?_, ?_, ?_⟩
  · intro h
    simp [Commit, hopen, h]
  · intro h
    obtain ⟨h1, h2, h3, h4⟩ := hok db pTransaction hopen h
    refine ⟨h1, h2, h3, h4, ?_⟩
    intro earlier last hu
    rw [h3, hu, List.foldl_append]
    exact cached_and_get_of_put _ _ _
  · intro headers hb
    obtain ⟨g1, g2, t, g3, g4⟩ := applyAdds_addBlockHeader ser headers db pTransaction hopen hb
    have hc : (t.Commit (applyAdds ser db (headers.map .AddBlockHeader)).m_pDatabase).1
        = .ok := by simp [KVHandle.Commit, g4]
    obtain ⟨h1, h2, h3, _⟩ := hok _ t g3 hc
    refine ⟨g1, h1, h2, ?_⟩
    rw [h3, g1, g2]

/-- C14, instantiated: a batch on the empty sample database adds a header and commits; the
header is cached afterwards and no header is left uncommitted. -/
theorem commit_outcome_witness :
    Sample.emptyDB.OnInitWrite.m_pTransaction = some Sample.emptyDB.m_pDatabase.BeginTransaction
    ∧ (applyAdds Sample.faithful Sample.emptyDB.OnInitWrite
        ([Sample.blockHeader].map .AddBlockHeader)).Commit.1 = .ok ()
    ∧ (applyAdds Sample.faithful Sample.emptyDB.OnInitWrite
        ([Sample.blockHeader].map .AddBlockHeader)).Commit.2.m_uncommitted = []
    ∧ (applyAdds Sample.faithful Sample.emptyDB.OnInitWrite
        ([Sample.blockHeader].map .AddBlockHeader)).Commit.2.BLOCK_HEADERS_CACHE
        = ⟨128, [(Sample.blockHeader.GetHash, Sample.blockHeader)]⟩ := by
  have h := (commit_outcome Sample.faithful Sample.emptyDB.OnInitWrite
    Sample.emptyDB.m_pDatabase.BeginTransaction rfl).2.2 [Sample.blockHeader] rfl
  refine ⟨rfl, h.2.1, h.2.2.1, ?_⟩
  rw [h.2.2.2]
  decide

end BlockDB

namespace TxHashSetValidator

/-- The first `m` chunks of a list that has at least `m` full chunks are full and concatenate
to its first `2000 * m` elements. -/
theorem take_chunks_full :
    ∀ (m : Nat) (ps : List (Commitment × RangeProof)), m ≤ ps.length / 2000 →
      ((chunks 2000 ps).take m).flatten = ps.take (2000 * m)
      ∧ ∀ c ∈ (chunks 2000 ps).take m, c.length = 2000 := by
  intro m
  induction m with
  | zero => intro ps _; simp
  | succ m ih =>
    intro ps hm
    have hlen : 2000 * (m + 1) ≤ ps.length := by
      have := Nat.div_mul_le_self ps.length 2000
      have := Nat.mul_le_mul_right 2000 hm
      omega
    have hne : ps ≠ [] := by
      intro h; rw [h] at hlen; simp at hlen
    have hdrop : m ≤ (ps.drop 2000).length / 2000 := by
      rw [List.length_drop, Nat.le_div_iff_mul_le (by decide)]
      omega
    obtain ⟨h1, h2⟩ := ih (ps.drop 2000) hdrop
    rw [chunks_of_ne_nil 2000 (by decide) ps hne, List.take_succ_cons]
    refine ⟨?_, ?_⟩
    · rw [List.flatten_cons, h1, Nat.mul_succ, Nat.add_comm (2000 * m) 2000, List.take_add]
    · intro c hc
      rcases List.mem_cons.mp hc with h | h
      · rw [h, List.length_take]; omega
      · exact h2 c h

/-- What `submit` has submitted is what was submitted before followed by some first batches of
its input. -/
theorem submit_snd_eq_take (sv : Services) :
    ∀ (bs calls : List Batch), ∃ k, k ≤ bs.length ∧ (submit sv bs calls).2 = calls ++ bs.take k := by
  intro bs
  induction bs with
  | nil => intro calls; exact ⟨0, Nat.le_refl _, by simp [submit]⟩
  | cons b rest ih =>
    intro calls
    cases hb : sv.VerifyRangeProofs b.1 b.2 with
    | false => exact ⟨1, by simp, by simp [submit, hb]⟩
    | true =>
      obtain ⟨k, hk, h⟩ := ih (calls ++ [b])
      exact ⟨k + 1, by simpa using hk, by simp [submit, hb, h]⟩

/-- The range-proof loop on positions that reach an unspent output without a range proof,
after positions whose unspent outputs all have one: the answer is false, and what has been
submitted is the full chunks of 2000 of the pairs accumulated and met before that position,
up to the first chunk that does not verify. -/
theorem rangeProofs_loop_missing_proof (sv : Services) (txHashSet : TxHashSet) (i0 : Nat)
    (post : List Nat) (output : OutputIdentifier)
    (hout : txHashSet.GetOutputPMMR.GetOutputAt i0 = some output)
    (hmissing : txHashSet.GetRangeProofPMMR.GetRangeProofAt i0 = none) :
    ∀ (pre : List Nat) (acc : List (Commitment × RangeProof)) (calls : List Batch),
      acc.length < 2000 →
      (∀ j ∈ pre, ∀ o, txHashSet.GetOutputPMMR.GetOutputAt j = some o →
        ∃ r, txHashSet.GetRangeProofPMMR.GetRangeProofAt j = some r) →
      ValidateRangeProofs.loop sv txHashSet (pre ++ i0 :: post)
          (acc.map Prod.fst) (acc.map Prod.snd) calls
        = (false, (submit sv
            ((fullChunks (acc ++ unspentPairsOver txHashSet pre)).map toBatch) calls).2) := by
  intro pre
  induction pre with
  | nil =>
    intro acc calls hacc _
    have h0 : acc.length / 2000 = 0 := Nat.div_eq_of_lt hacc
    simp [ValidateRangeProofs.loop, hout, hmissing, unspentPairsOver, fullChunks, h0, submit]
  | cons j rest ih =>
    intro acc calls hacc hproof
    have hrest : ∀ k ∈ rest, ∀ o, txHashSet.GetOutputPMMR.GetOutputAt k = some o →
        ∃ r, txHashSet.GetRangeProofPMMR.GetRangeProofAt k = some r :=
      fun k hk => hproof k (List.mem_cons_of_mem _ hk)
    cases hj : txHashSet.GetOutputPMMR.GetOutputAt j with
    | none =>
      have hp : unspentPairsOver txHashSet (j :: rest) = unspentPairsOver txHashSet rest := by
        simp [unspentPairsOver, List.filterMap_cons, hj]
      simp only [List.cons_append, ValidateRangeProofs.loop, hj, hp]
      exact ih acc calls hacc hrest
    | some o =>
      obtain ⟨rp, hrp⟩ := hproof j (List.mem_cons_self _ _) o hj
      have hp : unspentPairsOver txHashSet (j :: rest)
          = (o.GetCommitment, rp) :: unspentPairsOver txHashSet rest := by
        simp [unspentPairsOver, List.filterMap_cons, hj, hrp]
      have hfst : acc.map Prod.fst ++ [o.GetCommitment]
          = (acc ++ [(o.GetCommitment, rp)]).map Prod.fst := by simp
      have hsnd : acc.map Prod.snd ++ [rp]
          = (acc ++ [(o.GetCommitment, rp)]).map Prod.snd := by simp
      have happ : acc ++ (o.GetCommitment, rp) :: unspentPairsOver txHashSet rest
          = (acc ++ [(o.GetCommitment, rp)]) ++ unspentPairsOver txHashSet rest := by simp
      simp only [List.cons_append, ValidateRangeProofs.loop, hj, hrp, hp]
      rw [happ, hfst, hsnd]
      by_cases hfull : (acc ++ [(o.GetCommitment, rp)]).length ≥ 2000
      · have hlen : (acc ++ [(o.GetCommitment, rp)]).length = 2000 := by
          simp only [List.length_append, List.length_cons, List.length_nil] at hfull ⊢
          omega
        have hfull2 : ((acc ++ [(o.GetCommitment, rp)]).map Prod.fst).length ≥ 2000 := by
          rw [List.length_map]; exact hfull
        have hchunks : fullChunks ((acc ++ [(o.GetCommitment, rp)])
              ++ unspentPairsOver txHashSet rest)
            = (acc ++ [(o.GetCommitment, rp)])
                :: fullChunks (unspentPairsOver txHashSet rest) := by
          unfold fullChunks
          rw [chunks_append_full 2000 (by decide) _ _ hlen, List.length_append, hlen,
            Nat.add_div_left _ (by decide), List.take_succ_cons]
        rw [hchunks]
        simp only [hfull2, if_true, List.map_cons, submit, toBatch]
        cases hv : sv.VerifyRangeProofs ((acc ++ [(o.GetCommitment, rp)]).map Prod.fst)
            ((acc ++ [(o.GetCommitment, rp)]).map Prod.snd) with
        | false => simp
        | true =>
          simp only [Bool.not_true, if_true]
          have := ih [] (calls ++ [((acc ++ [(o.GetCommitment, rp)]).map Prod.fst,
            (acc ++ [(o.GetCommitment, rp)]).map Prod.snd)]) (by decide) hrest
          simpa [toBatch] using this
      · have hlt : (acc ++ [(o.GetCommitment, rp)]).length < 2000 := Nat.lt_of_not_ge hfull
        have hfull2 : ¬ ((acc ++ [(o.GetCommitment, rp)]).map Prod.fst).length ≥ 2000 := by
          rw [List.length_map]; exact hfull
        simp only [hfull2, if_false]
        exact ih _ calls hlt hrest

end TxHashSetValidator

namespace TxHashSetValidator

/-- The positions below `n` split at a position `i0 < n`. -/
theorem range_split (n i0 : Nat) (h : i0 < n) :
    List.range n = List.range i0 ++ i0 :: List.range' (i0 + 1) (n - i0 - 1) := by
  have hn : (n - i0 - 1 + 1) + i0 = n := by omega
  have happ := List.range'_append_1 0 i0 (n - i0 - 1 + 1)
  rw [hn, Nat.zero_add, List.range'_succ] at happ
  rw [List.range_eq_range', List.range_eq_range', ← happ]

/-- C20: when some position below the output MMR size holds an unspent output without a range
proof, `ValidateRangeProofs` answers false whatever `Crypto::VerifyRangeProofs` answers. Every
batch it has submitted holds exactly 2000 pairs, and together the batches are the first
`2000 * k` pairs met before the first such position `i0`: the pairs accumulated since the last
full batch are never submitted. -/
theorem validateRangeProofs_false_on_missing_range_proof (sv : Services)
    (txHashSet : TxHashSet) (blockHeader : BlockHeader) (i : Nat) (output : OutputIdentifier)
    (hi : i < txHashSet.GetOutputPMMR.GetSize)
    (hout : txHashSet.GetOutputPMMR.GetOutputAt i = some output)
    (hmissing : txHashSet.GetRangeProofPMMR.GetRangeProofAt i = none) :
    (ValidateRangeProofs sv txHashSet blockHeader).1 = false
    ∧ (∀ b ∈ (ValidateRangeProofs sv txHashSet blockHeader).2,
        b.1.length = 2000 ∧ b.2.length = 2000)
    ∧ (∃ i0, i0 ≤ i
        ∧ (txHashSet.GetOutputPMMR.GetOutputAt i0).isSome = true
        ∧ txHashSet.GetRangeProofPMMR.GetRangeProofAt i0 = none
        ∧ (∀ j, j < i0 → ∀ o, txHashSet.GetOutputPMMR.GetOutputAt j = some o →
            ∃ r, txHashSet.GetRangeProofPMMR.GetRangeProofAt j = some r)
        ∧ (ValidateRangeProofs sv txHashSet blockHeader).2
            = (submit sv ((fullChunks (unspentPairsOver txHashSet (List.range i0))).map toBatch)
                []).2
        ∧ 2000 * (ValidateRangeProofs sv txHashSet blockHeader).2.length
            ≤ (unspentPairsOver txHashSet (List.range i0)).length
        ∧ ((ValidateRangeProofs sv txHashSet blockHeader).2.map (fun b => b.1.zip b.2)).flatten
            = (unspentPairsOver txHashSet (List.range i0)).take
                (2000 * (ValidateRangeProofs sv txHashSet blockHeader).2.length)) := by
  have hex : ∃ j, (txHashSet.GetOutputPMMR.GetOutputAt j).isSome = true
      ∧ txHashSet.GetRangeProofPMMR.GetRangeProofAt j = none :=
    ⟨i, by rw [hout]; rfl, hmissing⟩
  have hspec := Nat.find_spec hex
  have hle : Nat.find hex ≤ i := Nat.find_min' hex ⟨by rw [hout]; rfl, hmissing⟩
  have hmin : ∀ j, j < Nat.find hex → ∀ o, txHashSet.GetOutputPMMR.GetOutputAt j = some o →
      ∃ r, txHashSet.GetRangeProofPMMR.GetRangeProofAt j = some r := by
    intro j hj o ho
    cases hr : txHashSet.GetRangeProofPMMR.GetRangeProofAt j with
    | some r => exact ⟨r, rfl⟩
    | none => exact absurd ⟨by rw [ho]; rfl, hr⟩ (Nat.find_min hex hj)
  obtain ⟨out0, hout0⟩ := Option.isSome_iff_exists.mp hspec.1
  have hrun : ValidateRangeProofs sv txHashSet blockHeader
      = (false, (submit sv
          ((fullChunks (unspentPairsOver txHashSet (List.range (Nat.find hex)))).map toBatch)
          []).2) := by
    have h := rangeProofs_loop_missing_proof sv txHashSet (Nat.find hex)
      (List.range' (Nat.find hex + 1) (txHashSet.GetOutputPMMR.GetSize - Nat.find hex - 1))
      out0 hout0 hspec.2 (List.range (Nat.find hex)) [] [] (by decide)
      (fun j hj => hmin j (List.mem_range.mp hj))
    unfold ValidateRangeProofs
    rw [range_split _ _ (Nat.lt_of_le_of_lt hle hi)]
    simpa using h
  obtain ⟨k, hk, hcalls⟩ := submit_snd_eq_take sv
    ((fullChunks (unspentPairsOver txHashSet (List.range (Nat.find hex)))).map toBatch) []
  have hk' : k ≤ (unspentPairsOver txHashSet (List.range (Nat.find hex))).length / 2000 := by
    have : k ≤ (fullChunks (unspentPairsOver txHashSet (List.range (Nat.find hex)))).length := by
      simpa using hk
    unfold fullChunks at this
    rw [List.length_take] at this
    omega
  have htake : (fullChunks (unspentPairsOver txHashSet (List.range (Nat.find hex)))).take k
      = (chunks 2000 (unspentPairsOver txHashSet (List.range (Nat.find hex)))).take k := by
    unfold fullChunks
    rw [List.take_take, Nat.min_eq_left hk']
  obtain ⟨hflat, hfull⟩ := take_chunks_full k _ hk'
  have hcalls' : (ValidateRangeProofs sv txHashSet blockHeader).2
      = ((chunks 2000 (unspentPairsOver txHashSet (List.range (Nat.find hex)))).take k).map
          toBatch := by
    rw [hrun]
    show (submit sv _ []).2 = _
    rw [hcalls, List.nil_append, ← List.map_take, htake]
  have hklen : ((chunks 2000
      (unspentPairsOver txHashSet (List.range (Nat.find hex)))).take k).length = k := by
    have h1 : k ≤ (fullChunks (unspentPairsOver txHashSet (List.range (Nat.find hex)))).length := by
      simpa using hk
    have h2 := congrArg List.length htake
    rw [List.length_take, Nat.min_eq_left h1] at h2
    exact h2.symm
  have hlen : (ValidateRangeProofs sv txHashSet blockHeader).2.length = k := by
    rw [hcalls', List.length_map, hklen]
  refine ⟨by rw [hrun], ?_, Nat.find hex, hle, hspec.1, hspec.2, hmin, by rw [hrun], ?_, ?_⟩
  · intro b hb
    rw [hcalls'] at hb
    obtain ⟨c, hc, rfl⟩ := List.mem_map.mp hb
    simp [toBatch, hfull c hc]
  · rw [hlen]
    have := Nat.div_mul_le_self
      (unspentPairsOver txHashSet (List.range (Nat.find hex))).length 2000
    have := Nat.mul_le_mul_right 2000 hk'
    omega
  · rw [hlen, ← hflat, hcalls', List.map_map]
    congr 1
    conv_rhs => rw [← List.map_id ((chunks 2000
      (unspentPairsOver txHashSet (List.range (Nat.find hex)))).take k)]
    apply List.map_congr_left
    intro ps _
    exact zip_toBatch ps

end TxHashSetValidator

namespace TxHashSetValidator

/-- C20, instantiated: on a sample TxHashSet whose outputs at positions 1 and 3 have no range
proof, validation answers false and submits nothing, although the verifier accepts
everything and the output at position 0 had been accumulated. -/
theorem validateRangeProofs_false_on_missing_range_proof_witness :
    3 < Sample.missingProofSet.GetOutputPMMR.GetSize
    ∧ Sample.missingProofSet.GetOutputPMMR.GetOutputAt 3 = some ⟨0, ⟨[23]⟩⟩
    ∧ Sample.missingProofSet.GetRangeProofPMMR.GetRangeProofAt 3 = none
    ∧ ValidateRangeProofs Sample.services Sample.missingProofSet Sample.blockHeader
        = (false, []) := by
  have h := validateRangeProofs_false_on_missing_range_proof Sample.services
    Sample.missingProofSet Sample.blockHeader 3 ⟨0, ⟨[23]⟩⟩ (by decide) rfl rfl
  refine ⟨by decide, rfl, rfl, ?_⟩
  apply Prod.ext
  · exact h.1
  · decide

end TxHashSetValidator

namespace BlockDB

/-- A read of another family or key is not affected by a write. -/
theorem read_write_of_ne (db : BlockDB) (family family' : ColumnFamily)
    (key key' value : Bytes) (hne : ¬ (family' = family ∧ key' = key)) :
    (db.Write family key value).2.Read family' key' = db.Read family' key' := by
  cases ht : db.m_pTransaction with
  | none =>
    cases hb : db.m_pDatabase.broken with
    | some state => simp [Write, Read, ht, KVHandle.Put, KVHandle.Get, hb]
    | none => simp [Write, Read, ht, KVHandle.Put, KVHandle.Get, hb, hne]
  | some pTransaction =>
    cases hb : pTransaction.broken with
    | some state => simp [Write, Read, ht, KVHandle.Put, KVHandle.Get, hb]
    | none => simp [Write, Read, ht, KVHandle.Put, KVHandle.Get, hb, hne]

/-- A write that is answered ok is what a read of the same family and key returns. -/
theorem read_write_same (db : BlockDB) (family : ColumnFamily) (key value : Bytes)
    (hok : (db.Write family key value).1.isOk = true) :
    (db.Write family key value).2.Read family key = (.ok, value) := by
  cases ht : db.m_pTransaction with
  | none =>
    cases hb : db.m_pDatabase.broken with
    | some state => simp [Write, ht, KVHandle.Put, hb, Status.isOk] at hok
    | none => simp [Write, Read, ht, KVHandle.Put, KVHandle.Get, hb]
  | some pTransaction =>
    cases hb : pTransaction.broken with
    | some state => simp [Write, ht, KVHandle.Put, hb, Status.isOk] at hok
    | none => simp [Write, Read, ht, KVHandle.Put, KVHandle.Get, hb]

/-- C18: what `AddOutputPosition` does to `GetOutputPosition`. The index is keyed by the first
32 bytes of the commitment. A commitment reads back the location just added for it, and
commitments that differ within their first 32 bytes do not affect each other; but two
commitments that share their first 32 bytes, 33-byte commitments that differ in the last byte
only among them, share one entry: adding a location for one makes the other read it. -/
theorem output_position_keyed_by_first_32_bytes (ser : Serialization) (db : BlockDB)
    (c1 c2 : Commitment) (loc2 : OutputLocation) :
    ((AddOutputPosition ser db c2 loc2).1 = .ok () →
        ser.DeserializeOutputLocation (ser.SerializeOutputLocation loc2) = .ok loc2 →
        GetOutputPosition ser (AddOutputPosition ser db c2 loc2).2 c2 = .ok (some loc2))
    ∧ (c1.bytes.take 32 ≠ c2.bytes.take 32 →
        GetOutputPosition ser (AddOutputPosition ser db c2 loc2).2 c1
          = GetOutputPosition ser db c1)
    ∧ (c1.bytes.take 32 = c2.bytes.take 32 →
        (AddOutputPosition ser db c2 loc2).1 = .ok () →
        ser.DeserializeOutputLocation (ser.SerializeOutputLocation loc2) = .ok loc2 →
        GetOutputPosition ser (AddOutputPosition ser db c2 loc2).2 c1 = .ok (some loc2)) := by
  have hstate : (AddOutputPosition ser db c2 loc2).2
      = (db.Write .OUTPUT_POS (c2.bytes.take 32) (ser.SerializeOutputLocation loc2)).2 := by
    simp only [AddOutputPosition]
    split_ifs <;> rfl
  have hok : (AddOutputPosition ser db c2 loc2).1 = .ok () →
      (db.Write .OUTPUT_POS (c2.bytes.take 32) (ser.SerializeOutputLocation loc2)).1.isOk
        = true := by
    intro h
    cases hs : (db.Write .OUTPUT_POS (c2.bytes.take 32)
        (ser.SerializeOutputLocation loc2)).1.isOk with
    | true => rfl
    | false => simp [AddOutputPosition, hs] at h
  have hsame : (AddOutputPosition ser db c2 loc2).1 = .ok () →
      ser.DeserializeOutputLocation (ser.SerializeOutputLocation loc2) = .ok loc2 →
      GetOutputPosition ser (AddOutputPosition ser db c2 loc2).2 c2 = .ok (some loc2) := by
    intro h hround
    have hr := read_write_same db .OUTPUT_POS (c2.bytes.take 32)
      (ser.SerializeOutputLocation loc2) (hok h)
    simp [GetOutputPosition, hstate, hr, Status.isOk, hround]
  refine ⟨hsame, ?_, ?_⟩
  · intro hne
    have hr := read_write_of_ne db .OUTPUT_POS .OUTPUT_POS (c2.bytes.take 32)
      (c1.bytes.take 32) (ser.SerializeOutputLocation loc2) (fun h => hne h.2)
    simp [GetOutputPosition, hstate, hr]
  · intro heq h hround
    have h2 := hsame h hround
    simp only [GetOutputPosition] at h2 ⊢
    rw [heq]
    exact h2

/-- C18 at the failing input: the sample commitments are distinct 33-byte commitments; once a
location has been added for each, the first reads the location of the second. -/
theorem output_position_keyed_by_first_32_bytes_witness :
    Sample.commitmentA ≠ Sample.commitmentB
    ∧ Sample.commitmentA.bytes.length = 33 ∧ Sample.commitmentB.bytes.length = 33
    ∧ GetOutputPosition Sample.faithful
        (AddOutputPosition Sample.faithful Sample.emptyDB Sample.commitmentA ⟨5, 1⟩).2
        Sample.commitmentA = .ok (some ⟨5, 1⟩)
    ∧ GetOutputPosition Sample.faithful
        (AddOutputPosition Sample.faithful
          (AddOutputPosition Sample.faithful Sample.emptyDB Sample.commitmentA ⟨5, 1⟩).2
          Sample.commitmentB ⟨9, 2⟩).2
        Sample.commitmentA = .ok (some ⟨9, 2⟩) := by
  have h := output_position_keyed_by_first_32_bytes Sample.faithful
    (AddOutputPosition Sample.faithful Sample.emptyDB Sample.commitmentA ⟨5, 1⟩).2
    Sample.commitmentA Sample.commitmentB ⟨9, 2⟩
  have h0 := output_position_keyed_by_first_32_bytes Sample.faithful Sample.emptyDB
    Sample.commitmentA Sample.commitmentA ⟨5, 1⟩
  exact ⟨by decide, by decide, by decide, h0.1 rfl rfl, h.2.2 (by decide) rfl rfl⟩

end BlockDB

namespace BlockDB

/-- An entry of the cache after `Put` is the entry put, or an entry that was there under
another key. -/
theorem mem_put (cache : FIFOCache) (key : Hash) (value : BlockHeader) (e : Hash × BlockHeader)
    (he : e ∈ (cache.Put key value).entries) :
    e = (key, value) ∨ (e ∈ cache.entries ∧ e.1 ≠ key) := by
  by_cases hc : cache.Cached key = true
  · have hput : (cache.Put key value).entries
        = cache.entries.map (fun e => if e.1 = key then (key, value) else e) := by
      unfold FIFOCache.Put
      rw [if_pos hc]
    rw [hput] at he
    obtain ⟨e0, he0, rfl⟩ := List.mem_map.mp he
    by_cases hk : e0.1 = key
    · left; simp [hk]
    · right; simp [hk, he0]
  · have hnot : ∀ x ∈ cache.entries, x.1 ≠ key := by
      intro x hx hk
      apply hc
      unfold FIFOCache.Cached
      rw [List.any_eq_true]
      exact ⟨x, hx, by simp [hk]⟩
    have hput : (cache.Put key value).entries = cache.entries.drop 1 ++ [(key, value)]
        ∨ (cache.Put key value).entries = cache.entries ++ [(key, value)] := by
      unfold FIFOCache.Put
      rw [if_neg hc]
      by_cases hfull : cache.entries.length + 1 > cache.capacity
      · rw [if_pos hfull]; left; rfl
      · rw [if_neg hfull]; right; rfl
    rcases hput with hput | hput
    · rw [hput] at he
      rcases List.mem_append.mp he with h | h
      · right; exact ⟨List.mem_of_mem_drop h, hnot e (List.mem_of_mem_drop h)⟩
      · left; simpa using h
    · rw [hput] at he
      rcases List.mem_append.mp he with h | h
      · right; exact ⟨h, hnot e h⟩
      · left; simpa using h

/-- `Put` keeps the capacity, and keeps the number of entries within a capacity of at least
one. -/
theorem put_bounded (cache : FIFOCache) (key : Hash) (value : BlockHeader)
    (hcap : 1 ≤ cache.capacity) (hlen : cache.entries.length ≤ cache.capacity) :
    (cache.Put key value).capacity = cache.capacity
    ∧ (cache.Put key value).entries.length ≤ cache.capacity := by
  unfold FIFOCache.Put
  split_ifs with h1 h2
  · simp [hlen]
  · simp only [List.length_append, List.length_drop, List.length_cons, List.length_nil]
    refine ⟨trivial, ?_⟩
    omega
  · simp only [List.length_append, List.length_cons, List.length_nil]
    refine ⟨trivial, ?_⟩
    omega

/-- Putting a list of headers keeps the capacity and the bound on the number of entries. -/
theorem foldl_put_bounded :
    ∀ (headers : List BlockHeader) (cache : FIFOCache), 1 ≤ cache.capacity →
      cache.entries.length ≤ cache.capacity →
      (headers.foldl (fun c pHeader => c.Put pHeader.GetHash pHeader) cache).capacity
          = cache.capacity
      ∧ (headers.foldl (fun c pHeader => c.Put pHeader.GetHash pHeader) cache).entries.length
          ≤ cache.capacity := by
  intro headers
  induction headers with
  | nil => intro cache _ hlen; exact ⟨rfl, hlen⟩
  | cons h rest ih =>
    intro cache hcap hlen
    obtain ⟨h1, h2⟩ := put_bounded cache h.GetHash h hcap hlen
    have := ih (cache.Put h.GetHash h) (by rw [h1]; exact hcap) (by rw [h1]; exact h2)
    simpa [h1] using this

/-- A write leaves the cache and the uncommitted headers as they are, and the transaction open
or closed as it was. -/
theorem write_frame (db : BlockDB) (family : ColumnFamily) (key value : Bytes) :
    (db.Write family key value).2.BLOCK_HEADERS_CACHE = db.BLOCK_HEADERS_CACHE
    ∧ (db.Write family key value).2.m_uncommitted = db.m_uncommitted
    ∧ (db.Write family key value).2.m_pTransaction.isSome = db.m_pTransaction.isSome := by
  unfold Write
  cases db.m_pTransaction <;> simp

/-- The cache after a step is the cache before, or that cache after one `Put`, or after the
`Put` of each uncommitted header. -/
theorem step_cache (ser : Serialization) (db : BlockDB) (op : Op) :
    (step ser db op).BLOCK_HEADERS_CACHE = db.BLOCK_HEADERS_CACHE
    ∨ (∃ h : BlockHeader,
        (step ser db op).BLOCK_HEADERS_CACHE = db.BLOCK_HEADERS_CACHE.Put h.GetHash h)
    ∨ (step ser db op).BLOCK_HEADERS_CACHE
        = db.m_uncommitted.foldl (fun c pHeader => c.Put pHeader.GetHash pHeader)
            db.BLOCK_HEADERS_CACHE := by
  cases op with
  | OnInitWrite => left; rfl
  | OnEndWrite => left; rfl
  | Commit =>
    simp only [step, Commit]
    cases db.m_pTransaction with
    | none => left; rfl
    | some t =>
      simp only
      split_ifs
      · left; rfl
      · right; right; rfl
  | Rollback => left; exact (rollback_frame db).2.1
  | Engine state => left; rfl
  | Add a =>
    cases a with
    | AddBlockHeader pBlockHeader =>
      have hw := (write_frame db .HEADER pBlockHeader.GetHash.bytes
        (ser.SerializeHeader pBlockHeader)).1
      simp only [step, applyAdd, AddBlockHeader]
      split_ifs
      · left; exact hw
      · left; exact hw
      · right; left; exact ⟨pBlockHeader, by simp [hw]⟩
    | AddBlockHeaders blockHeaders =>
      left; exact (addBlockHeaders_loop_frame ser blockHeaders db).2.1
    | AddBlock block =>
      left
      have hw := (write_frame db .BLOCK block.GetHash.bytes (ser.SerializeBlock block)).1
      simp only [step, applyAdd, AddBlock]
      split_ifs <;> exact hw
    | AddBlockSums blockHash blockSums =>
      left
      have hw := (write_frame db .BLOCK_SUMS blockHash.bytes
        (ser.SerializeBlockSums blockSums)).1
      simp only [step, applyAdd, AddBlockSums]
      split_ifs <;> exact hw
    | AddOutputPosition outputCommitment location =>
      left
      have hw := (write_frame db .OUTPUT_POS (outputCommitment.bytes.take 32)
        (ser.SerializeOutputLocation location)).1
      simp only [step, applyAdd, AddOutputPosition]
      split_ifs <;> exact hw
    | AddBlockInputBitmap blockHash bitmap =>
      left
      have hw := (write_frame db .INPUT_BITMAP blockHash.bytes (ser.RoaringWrite bitmap)).1
      simp only [step, applyAdd, AddBlockInputBitmap]
      split_ifs
      · rfl
      · exact hw

/-- Every sequence of steps keeps a cache of capacity 128 within 128 entries. -/
theorem run_cache_bounded (ser : Serialization) :
    ∀ (ops : List Op) (db : BlockDB), db.BLOCK_HEADERS_CACHE.capacity = 128 →
      db.BLOCK_HEADERS_CACHE.entries.length ≤ 128 →
      (run ser db ops).BLOCK_HEADERS_CACHE.capacity = 128
      ∧ (run ser db ops).BLOCK_HEADERS_CACHE.entries.length ≤ 128 := by
  intro ops
  induction ops with
  | nil => intro db h1 h2; exact ⟨h1, h2⟩
  | cons op rest ih =>
    intro db h1 h2
    have hstep : (step ser db op).BLOCK_HEADERS_CACHE.capacity = 128
        ∧ (step ser db op).BLOCK_HEADERS_CACHE.entries.length ≤ 128 := by
      rcases step_cache ser db op with h | ⟨x, h⟩ | h
      · rw [h]; exact ⟨h1, h2⟩
      · rw [h]
        have := put_bounded db.BLOCK_HEADERS_CACHE x.GetHash x (by omega) (by omega)
        rw [h1] at this
        exact this
      · rw [h]
        have := foldl_put_bounded db.m_uncommitted db.BLOCK_HEADERS_CACHE (by omega) (by omega)
        rw [h1] at this
        exact this
    exact ih (step ser db op) hstep.1 hstep.2

end BlockDB

namespace BlockDB

/-- C15: the header cache fronts the HEADER column family. A cached hash is answered from the
cache, whatever the KV store holds; a hash that is not cached is answered from the read of
HEADER. With no transaction open, `AddBlockHeader` whose put is answered ok returns and has
put the header into the cache at once; inside a batch it leaves the cache alone and, when the
put is answered ok, returns and queues the header; a `Commit` whose KV commit is answered ok
returns and has put the queued headers into the cache, so a header added inside a batch on a
working engine is cached by the commit. When the put or the KV commit is not answered ok the
call raises and the cache is as before. From the opening of the database on, the cache has
capacity 128 and never holds more than 128 headers; a new key put into a full cache drops
the oldest entry and becomes the newest. -/
theorem header_cache_fronts_header_family (ser : Serialization) (db : BlockDB) (hash : Hash)
    (pBlockHeader : BlockHeader) (pDatabase : KVHandle) (ops : List Op) (cache : FIFOCache)
    (key : Hash) (value : BlockHeader) :
    (db.BLOCK_HEADERS_CACHE.Cached hash = true →
        GetBlockHeader ser db hash = .ok (db.BLOCK_HEADERS_CACHE.Get hash)
        ∧ (∃ header, db.BLOCK_HEADERS_CACHE.Get hash = some header)
        ∧ (∀ other : BlockDB, other.BLOCK_HEADERS_CACHE = db.BLOCK_HEADERS_CACHE →
            GetBlockHeader ser other hash = GetBlockHeader ser db hash))
    ∧ (db.BLOCK_HEADERS_CACHE.Cached hash = false →
        GetBlockHeader ser db hash
          = (if (db.Read .HEADER hash.bytes).1.isOk then
              match ser.DeserializeHeader (db.Read .HEADER hash.bytes).2 with
              | .ok header => .ok (some header)
              | .error what => .error (.DatabaseException what)
            else if (db.Read .HEADER hash.bytes).1.IsNotFound then
              .ok none
            else
              .error (.DatabaseException ("DB::Get Failed with error: "
                ++ (db.Read .HEADER hash.bytes).1.getState))))
    ∧ (db.m_pTransaction = none →
        ((db.m_pDatabase.Put .HEADER pBlockHeader.GetHash.bytes
            (ser.SerializeHeader pBlockHeader)).1.isOk = true →
          (AddBlockHeader ser db pBlockHeader).1 = .ok ()
          ∧ (AddBlockHeader ser db pBlockHeader).2.BLOCK_HEADERS_CACHE
              = db.BLOCK_HEADERS_CACHE.Put pBlockHeader.GetHash pBlockHeader
          ∧ (AddBlockHeader ser db pBlockHeader).2.m_uncommitted = db.m_uncommitted)
        ∧ ((db.m_pDatabase.Put .HEADER pBlockHeader.GetHash.bytes
            (ser.SerializeHeader pBlockHeader)).1.isOk = false →
          (AddBlockHeader ser db pBlockHeader).1
              = .error (.DatabaseException ("DB::Put Failed with error: "
                  ++ (db.m_pDatabase.Put .HEADER pBlockHeader.GetHash.bytes
                      (ser.SerializeHeader pBlockHeader)).1.getState))
          ∧ (AddBlockHeader ser db pBlockHeader).2.BLOCK_HEADERS_CACHE
              = db.BLOCK_HEADERS_CACHE
          ∧ (AddBlockHeader ser db pBlockHeader).2.m_uncommitted = db.m_uncommitted))
    ∧ (∀ pTransaction, db.m_pTransaction = some pTransaction →
        (AddBlockHeader ser db pBlockHeader).2.BLOCK_HEADERS_CACHE = db.BLOCK_HEADERS_CACHE
        ∧ ((pTransaction.Put .HEADER pBlockHeader.GetHash.bytes
            (ser.SerializeHeader pBlockHeader)).1.isOk = true →
          (AddBlockHeader ser db pBlockHeader).1 = .ok ()
          ∧ (AddBlockHeader ser db pBlockHeader).2.m_uncommitted
              = db.m_uncommitted ++ [pBlockHeader])
        ∧ ((pTransaction.Put .HEADER pBlockHeader.GetHash.bytes
            (ser.SerializeHeader pBlockHeader)).1.isOk = false →
          (AddBlockHeader ser db pBlockHeader).1
              = .error (.DatabaseException ("DB::Put Failed with error: "
                  ++ (pTransaction.Put .HEADER pBlockHeader.GetHash.bytes
                      (ser.SerializeHeader pBlockHeader)).1.getState))
          ∧ (AddBlockHeader ser db pBlockHeader).2.m_uncommitted = db.m_uncommitted))
    ∧ (∀ pTransaction, db.m_pTransaction = some pTransaction →
        ((pTransaction.Commit db.m_pDatabase).1.isOk = true →
          db.Commit.1 = .ok ()
          ∧ db.Commit.2.BLOCK_HEADERS_CACHE
              = db.m_uncommitted.foldl (fun c pHeader => c.Put pHeader.GetHash pHeader)
                  db.BLOCK_HEADERS_CACHE
          ∧ db.Commit.2.m_uncommitted = [])
        ∧ ((pTransaction.Commit db.m_pDatabase).1.isOk = false →
          db.Commit.1 = .error (.DatabaseException ("Transaction::Commit Failed with error: "
              ++ (pTransaction.Commit db.m_pDatabase).1.getState))
          ∧ db.Commit.2.BLOCK_HEADERS_CACHE = db.BLOCK_HEADERS_CACHE
          ∧ db.Commit.2.m_uncommitted = db.m_uncommitted))
    ∧ (∀ pTransaction, db.m_pTransaction = some pTransaction → pTransaction.broken = none →
        (AddBlockHeader ser db pBlockHeader).1 = .ok ()
        ∧ (AddBlockHeader ser db pBlockHeader).2.BLOCK_HEADERS_CACHE = db.BLOCK_HEADERS_CACHE
        ∧ (AddBlockHeader ser db pBlockHeader).2.Commit.1 = .ok ()
        ∧ (AddBlockHeader ser db pBlockHeader).2.Commit.2.BLOCK_HEADERS_CACHE
            = (db.m_uncommitted.foldl (fun c pHeader => c.Put pHeader.GetHash pHeader)
                db.BLOCK_HEADERS_CACHE).Put pBlockHeader.GetHash pBlockHeader)
    ∧ ((opened pDatabase).BLOCK_HEADERS_CACHE = ⟨128, []⟩
        ∧ (run ser (opened pDatabase) ops).BLOCK_HEADERS_CACHE.capacity = 128
        ∧ (run ser (opened pDatabase) ops).BLOCK_HEADERS_CACHE.entries.length ≤ 128)
    ∧ (cache.Cached key = false → cache.capacity ≤ cache.entries.length →
        (cache.Put key value).entries = cache.entries.drop 1 ++ [(key, value)])
    ∧ (cache.Cached key = false → cache.entries.length < cache.capacity →
        (cache.Put key value).entries = cache.entries ++ [(key, value)])
    ∧ (cache.Cached key = true →
        (cache.Put key value).entries.map Prod.fst = cache.entries.map Prod.fst) := by
  refine ⟨?_, ?_, ?_, ?_, ?_, ?_, ?_, ?_, ?_, ?_⟩
  · intro hc
    refine ⟨by simp [GetBlockHeader, hc], ?_, ?_⟩
    · have hany : (db.BLOCK_HEADERS_CACHE.entries.any (fun e => e.1 = hash)) = true := hc
      rw [List.any_eq_true] at hany
      obtain ⟨e, he, hk⟩ := hany
      cases hf : db.BLOCK_HEADERS_CACHE.entries.find? (fun e => decide (e.1 = hash)) with
      | some x => exact ⟨x.2, by simp [FIFOCache.Get, hf]⟩
      | none =>
        have := List.find?_eq_none.mp hf e he
        exact absurd hk this
    · intro other ho
      simp [GetBlockHeader, ho, hc]
  · intro hc
    simp [GetBlockHeader, hc]
  · intro hn
    refine ⟨?_, ?_⟩
    · intro hs
      simp [AddBlockHeader, Write, hn, hs]
    · intro hs
      simp [AddBlockHeader, Write, hn, hs]
  · intro pTransaction ht
    refine ⟨?_, ?_, ?_⟩
    · cases hs : (pTransaction.Put .HEADER pBlockHeader.GetHash.bytes
          (ser.SerializeHeader pBlockHeader)).1.isOk <;>
        simp [AddBlockHeader, Write, ht, hs]
    · intro hs
      simp [AddBlockHeader, Write, ht, hs]
    · intro hs
      simp [AddBlockHeader, Write, ht, hs]
  · intro pTransaction ht
    refine ⟨?_, ?_⟩
    · intro hs
      simp [Commit, ht, hs]
    · intro hs
      simp [Commit, ht, hs]
  · intro pTransaction ht hb
    simp [AddBlockHeader, Write, Commit, KVHandle.Put, KVHandle.Commit, ht, hb, Status.isOk,
      List.foldl_append]
  · exact ⟨rfl, run_cache_bounded ser ops (opened pDatabase) rfl (by simp [opened])⟩
  · intro hc hfull
    have hfull' : cache.entries.length + 1 > cache.capacity := by omega
    simp [FIFOCache.Put, hc, hfull']
  · intro hc hroom
    have hroom' : ¬ cache.entries.length + 1 > cache.capacity := by omega
    simp [FIFOCache.Put, hc, hroom']
  · intro hc
    simp only [FIFOCache.Put, hc, if_true, List.map_map]
    apply List.map_congr_left
    intro e _
    by_cases hk : e.1 = key
    · simp [hk]
    · simp [hk]

end BlockDB

namespace BlockDB

/-- The content visible through a handle after a put: the value written under the key when the
put was answered ok, and what it was everywhere else. -/
theorem put_data (t : KVHandle) (family family' : ColumnFamily) (key key' value : Bytes) :
    (t.Put family key value).2.data family' key'
      = if (t.Put family key value).1.isOk = true ∧ family' = family ∧ key' = key then
          some value
        else t.data family' key' := by
  cases hb : t.broken with
  | some state => simp [KVHandle.Put, hb, Status.isOk]
  | none => simp [KVHandle.Put, hb, Status.isOk]

/-- A fold of `Put`: an entry of the result is an entry put, or an entry that was there. -/
theorem mem_foldl_put :
    ∀ (headers : List BlockHeader) (cache : FIFOCache) (e : Hash × BlockHeader),
      e ∈ (headers.foldl (fun c pHeader => c.Put pHeader.GetHash pHeader) cache).entries →
      (∃ h ∈ headers, e = (h.GetHash, h)) ∨ e ∈ cache.entries := by
  intro headers
  induction headers with
  | nil => intro cache e he; right; exact he
  | cons h rest ih =>
    intro cache e he
    rcases ih (cache.Put h.GetHash h) e he with ⟨x, hx, rfl⟩ | hmem
    · left; exact ⟨x, List.mem_cons_of_mem _ hx, rfl⟩
    · rcases mem_put cache h.GetHash h e hmem with rfl | ⟨h1, _⟩
      · left; exact ⟨h, List.mem_cons_self _ _, rfl⟩
      · right; exact h1

/-- Hashes with the same bytes are the same hash. -/
theorem hash_eq_of_bytes_eq (a b : Hash) (h : a.bytes = b.bytes) : a = b := by
  cases a; cases b; simp_all

/-- `Backed` is kept by the steps that begin, end, commit or roll back a batch, and by a
change of the engine, when a batch is begun or ended with no header queued. -/
theorem backed_step_control (ser : Serialization) (known : BlockHeader → Prop) (db : BlockDB)
    (hinv : Backed ser known db) :
    (db.m_uncommitted = [] → Backed ser known db.OnInitWrite)
    ∧ (db.m_uncommitted = [] → Backed ser known db.OnEndWrite)
    ∧ Backed ser known db.Commit.2
    ∧ Backed ser known db.Rollback.2
    ∧ (∀ state, Backed ser known (step ser db (.Engine state))) := by
  obtain ⟨i0, i1, i2, i3⟩ := hinv
  refine ⟨?_, ?_, ?_, ?_, ?_⟩
  · intro hu
    refine ⟨by simp [OnInitWrite], i1, ?_, ?_⟩
    · intro t _ h hh
      simp [OnInitWrite, hu] at hh
    · intro t ht e he
      have : t = db.m_pDatabase.BeginTransaction := by
        simpa [OnInitWrite] using ht.symm
      subst this
      exact (i1 e he).2.2
  · intro hu
    refine ⟨fun _ => hu, i1, ?_, ?_⟩
    · intro t ht; simp [OnEndWrite] at ht
    · intro t ht; simp [OnEndWrite] at ht
  · cases ht : db.m_pTransaction with
    | none =>
      have : db.Commit.2 = db := by simp [Commit, ht]
      rw [this]; exact ⟨i0, i1, i2, i3⟩
    | some t =>
      cases hs : (t.Commit db.m_pDatabase).1.isOk with
      | false =>
        have : db.Commit.2 = db := by simp [Commit, ht, hs]
        rw [this]; exact ⟨i0, i1, i2, i3⟩
      | true =>
        have hb : t.broken = none := by
          cases hb : t.broken with
          | none => rfl
          | some state => simp [KVHandle.Commit, hb, Status.isOk] at hs
        have hstate : db.Commit.2 = { db with
            m_pDatabase := { db.m_pDatabase with data := t.data }
            BLOCK_HEADERS_CACHE :=
              db.m_uncommitted.foldl (fun cache pHeader => cache.Put pHeader.GetHash pHeader)
                db.BLOCK_HEADERS_CACHE
            m_uncommitted := [] } := by
          simp [Commit, KVHandle.Commit, ht, hb, Status.isOk]
        rw [hstate]
        have hcache : ∀ e ∈ (db.m_uncommitted.foldl
            (fun cache pHeader => cache.Put pHeader.GetHash pHeader)
            db.BLOCK_HEADERS_CACHE).entries,
            e.1 = e.2.GetHash ∧ known e.2
            ∧ t.data .HEADER e.1.bytes = some (ser.SerializeHeader e.2) := by
          intro e he
          rcases mem_foldl_put _ _ e he with ⟨h, hh, rfl⟩ | hmem
          · exact ⟨rfl, (i2 t ht h hh).1, (i2 t ht h hh).2⟩
          · exact ⟨(i1 e hmem).1, (i1 e hmem).2.1, i3 t ht e hmem⟩
        refine ⟨fun _ => rfl, hcache, ?_, ?_⟩
        · intro t' _ h hh; simp at hh
        · intro t' ht' e he
          have : t' = t := by simpa [ht] using ht'.symm
          subst this
          exact (hcache e he).2.2
  · cases ht : db.m_pTransaction with
    | none =>
      have hstate : db.Rollback.2 = { db with m_uncommitted := [] } := by
        simp [Rollback, ht]
      rw [hstate]
      refine ⟨fun _ => rfl, i1, ?_, ?_⟩
      · intro t' ht'; simp [ht] at ht'
      · intro t' ht'; simp [ht] at ht'
    | some t =>
      cases hb : t.broken with
      | some state =>
        have hstate : db.Rollback.2 = { db with m_uncommitted := [] } := by
          simp only [Rollback, KVHandle.Rollback, ht, hb, Status.isOk]
          cases db
          simp_all
        rw [hstate]
        refine ⟨fun _ => rfl, i1, ?_, ?_⟩
        · intro t' _ h hh; simp at hh
        · intro t' ht' e he
          exact i3 t' ht' e he
      | none =>
        have hstate : db.Rollback.2 = { db with
            m_uncommitted := []
            m_pTransaction := some { t with data := db.m_pDatabase.data } } := by
          simp [Rollback, KVHandle.Rollback, ht, hb, Status.isOk]
        rw [hstate]
        refine ⟨fun _ => rfl, i1, ?_, ?_⟩
        · intro t' _ h hh; simp at hh
        · intro t' ht' e he
          have : t' = { t with data := db.m_pDatabase.data } := by simpa using ht'.symm
          subst this
          exact (i1 e he).2.2
  · intro state
    refine ⟨?_, i1, ?_, ?_⟩
    · intro hn
      apply i0
      cases ht : db.m_pTransaction with
      | none => rfl
      | some t => simp [step, ht] at hn
    · intro t' ht' h hh
      cases ht : db.m_pTransaction with
      | none => simp [step, ht] at ht'
      | some t =>
        have : t' = { t with broken := state } := by simpa [step, ht] using ht'.symm
        subst this
        exact i2 t ht h hh
    · intro t' ht' e he
      cases ht : db.m_pTransaction with
      | none => simp [step, ht] at ht'
      | some t =>
        have : t' = { t with broken := state } := by simpa [step, ht] using ht'.symm
        subst this
        exact i3 t ht e he

end BlockDB

namespace BlockDB

/-- The state after a write, field by field: the handle written is the open transaction if
there is one and the base DB otherwise. -/
theorem write_effect (db : BlockDB) (family : ColumnFamily) (key value : Bytes) :
    (∀ t, db.m_pTransaction = some t →
        (db.Write family key value).1 = (t.Put family key value).1
        ∧ (db.Write family key value).2.m_pTransaction = some (t.Put family key value).2
        ∧ (db.Write family key value).2.m_pDatabase = db.m_pDatabase)
    ∧ (db.m_pTransaction = none →
        (db.Write family key value).1 = (db.m_pDatabase.Put family key value).1
        ∧ (db.Write family key value).2.m_pTransaction = none
        ∧ (db.Write family key value).2.m_pDatabase = (db.m_pDatabase.Put family key value).2) := by
  refine ⟨?_, ?_⟩
  · intro t ht; simp [Write, ht]
  · intro hn; simp [Write, hn]

/-- `Backed` is kept by a write into a column family other than HEADER. -/
theorem backed_write_other (ser : Serialization) (known : BlockHeader → Prop) (db : BlockDB)
    (hinv : Backed ser known db) (family : ColumnFamily) (key value : Bytes)
    (hf : family ≠ .HEADER) : Backed ser known (db.Write family key value).2 := by
  obtain ⟨i0, i1, i2, i3⟩ := hinv
  obtain ⟨hc, hu, _⟩ := write_frame db family key value
  have hdata : ∀ (t : KVHandle) (k : Bytes),
      (t.Put family key value).2.data .HEADER k = t.data .HEADER k := by
    intro t k
    rw [put_data, if_neg]
    intro h
    exact hf h.2.1.symm
  obtain ⟨wsome, wnone⟩ := write_effect db family key value
  cases ht : db.m_pTransaction with
  | none =>
    obtain ⟨_, w2, w3⟩ := wnone ht
    refine ⟨fun _ => (by rw [hu]; exact i0 ht), ?_, ?_, ?_⟩
    · intro e he
      rw [hc] at he
      rw [w3, hdata]
      exact i1 e he
    · intro t' ht'; rw [w2] at ht'; cases ht'
    · intro t' ht'; rw [w2] at ht'; cases ht'
  | some t =>
    obtain ⟨_, w2, w3⟩ := wsome t ht
    refine ⟨fun hn => (by rw [w2] at hn; cases hn), ?_, ?_, ?_⟩
    · intro e he
      rw [hc] at he
      rw [w3]
      exact i1 e he
    · intro t' ht' h hh
      rw [w2] at ht'
      have : t' = (t.Put family key value).2 := (Option.some.inj ht').symm
      subst this
      rw [hu] at hh
      rw [hdata]
      exact i2 t ht h hh
    · intro t' ht' e he
      rw [w2] at ht'
      have : t' = (t.Put family key value).2 := (Option.some.inj ht').symm
      subst this
      rw [hc] at he
      rw [hdata]
      exact i3 t ht e he

/-- `Backed` is kept by the write of a known header under its hash into HEADER, when known
headers with the same hash are the same header. -/
theorem backed_write_header (ser : Serialization) (known : BlockHeader → Prop)
    (hinj : ∀ a b, known a → known b → a.GetHash = b.GetHash → a = b) (db : BlockDB)
    (hinv : Backed ser known db) (h : BlockHeader) (hk : known h) :
    Backed ser known (db.Write .HEADER h.GetHash.bytes (ser.SerializeHeader h)).2 := by
  obtain ⟨i0, i1, i2, i3⟩ := hinv
  obtain ⟨hc, hu, _⟩ := write_frame db .HEADER h.GetHash.bytes (ser.SerializeHeader h)
  have hdata : ∀ (t : KVHandle) (x : BlockHeader), known x →
      t.data .HEADER x.GetHash.bytes = some (ser.SerializeHeader x) →
      (t.Put .HEADER h.GetHash.bytes (ser.SerializeHeader h)).2.data .HEADER x.GetHash.bytes
        = some (ser.SerializeHeader x) := by
    intro t x hx hold
    rw [put_data]
    split_ifs with hcond
    · have : x = h := hinj x h hx hk (hash_eq_of_bytes_eq _ _ hcond.2.2)
      rw [this]
    · exact hold
  obtain ⟨wsome, wnone⟩ := write_effect db .HEADER h.GetHash.bytes (ser.SerializeHeader h)
  cases ht : db.m_pTransaction with
  | none =>
    obtain ⟨_, w2, w3⟩ := wnone ht
    refine ⟨fun _ => (by rw [hu]; exact i0 ht), ?_, ?_, ?_⟩
    · intro e he
      rw [hc] at he
      obtain ⟨e1, e2, e3⟩ := i1 e he
      refine ⟨e1, e2, ?_⟩
      rw [w3, e1]
      rw [e1] at e3
      exact hdata _ e.2 e2 e3
    · intro t' ht'; rw [w2] at ht'; cases ht'
    · intro t' ht'; rw [w2] at ht'; cases ht'
  | some t =>
    obtain ⟨_, w2, w3⟩ := wsome t ht
    refine ⟨fun hn => (by rw [w2] at hn; cases hn), ?_, ?_, ?_⟩
    · intro e he
      rw [hc] at he
      rw [w3]
      exact i1 e he
    · intro t' ht' x hx
      rw [w2] at ht'
      have : t' = (t.Put .HEADER h.GetHash.bytes (ser.SerializeHeader h)).2 :=
        (Option.some.inj ht').symm
      subst this
      rw [hu] at hx
      exact ⟨(i2 t ht x hx).1, hdata t x (i2 t ht x hx).1 (i2 t ht x hx).2⟩
    · intro t' ht' e he
      rw [w2] at ht'
      have : t' = (t.Put .HEADER h.GetHash.bytes (ser.SerializeHeader h)).2 :=
        (Option.some.inj ht').symm
      subst this
      rw [hc] at he
      obtain ⟨e1, e2, _⟩ := i1 e he
      have e3 := i3 t ht e he
      rw [e1] at e3 ⊢
      exact hdata t e.2 e2 e3

/-- After a write of a header under its hash that is answered ok, the handle written shows
the header under its hash. -/
theorem written_header_visible (ser : Serialization) (db : BlockDB) (h : BlockHeader)
    (hok : (db.Write .HEADER h.GetHash.bytes (ser.SerializeHeader h)).1.isOk = true) :
    (∀ t', (db.Write .HEADER h.GetHash.bytes (ser.SerializeHeader h)).2.m_pTransaction = some t' →
        t'.data .HEADER h.GetHash.bytes = some (ser.SerializeHeader h))
    ∧ ((db.Write .HEADER h.GetHash.bytes (ser.SerializeHeader h)).2.m_pTransaction = none →
        (db.Write .HEADER h.GetHash.bytes (ser.SerializeHeader h)).2.m_pDatabase.data .HEADER
          h.GetHash.bytes = some (ser.SerializeHeader h)) := by
  obtain ⟨wsome, wnone⟩ := write_effect db .HEADER h.GetHash.bytes (ser.SerializeHeader h)
  cases ht : db.m_pTransaction with
  | none =>
    obtain ⟨w1, w2, w3⟩ := wnone ht
    refine ⟨fun t' ht' => (by rw [w2] at ht'; cases ht'), fun _ => ?_⟩
    rw [w3, put_data]
    rw [w1] at hok
    simp [hok]
  | some t =>
    obtain ⟨w1, w2, w3⟩ := wsome t ht
    refine ⟨fun t' ht' => ?_, fun hn => (by rw [w2] at hn; cases hn)⟩
    rw [w2] at ht'
    have : t' = (t.Put .HEADER h.GetHash.bytes (ser.SerializeHeader h)).2 :=
      (Option.some.inj ht').symm
    subst this
    rw [put_data]
    rw [w1] at hok
    simp [hok]

end BlockDB

namespace BlockDB

/-- `Backed` is kept by the header loop of `AddBlockHeaders` on known headers. -/
theorem backed_addBlockHeaders_loop (ser : Serialization) (known : BlockHeader → Prop)
    (hinj : ∀ a b, known a → known b → a.GetHash = b.GetHash → a = b) :
    ∀ (blockHeaders : List BlockHeader) (db : BlockDB), Backed ser known db →
      (∀ h ∈ blockHeaders, known h) →
      Backed ser known (AddBlockHeaders.loop ser blockHeaders db).2 := by
  intro blockHeaders
  induction blockHeaders with
  | nil => intro db hinv _; simpa [AddBlockHeaders.loop] using hinv
  | cons h rest ih =>
    intro db hinv hk
    cases ht : db.m_pTransaction with
    | none => simpa [AddBlockHeaders.loop, ht] using hinv
    | some t =>
      have hw := backed_write_header ser known hinj db hinv h (hk h (List.mem_cons_self _ _))
      have hstate : (db.Write .HEADER h.GetHash.bytes (ser.SerializeHeader h)).2
          = { db with m_pTransaction := some (t.Put .HEADER h.GetHash.bytes
              (ser.SerializeHeader h)).2 } := by
        simp [Write, ht]
      rw [hstate] at hw
      simp only [AddBlockHeaders.loop, ht]
      split_ifs
      · exact hw
      · exact ih _ hw (fun x hx => hk x (List.mem_cons_of_mem _ hx))

/-- `Backed` is kept by every `Add*` write of known headers. -/
theorem backed_applyAdd (ser : Serialization) (known : BlockHeader → Prop)
    (hinj : ∀ a b, known a → known b → a.GetHash = b.GetHash → a = b) (db : BlockDB)
    (hinv : Backed ser known db) (op : AddOp) (hk : ∀ h ∈ (Op.Add op).headers, known h) :
    Backed ser known (applyAdd ser db op) := by
  cases op with
  | AddBlockHeader h =>
    have hkh : known h := hk h (by simp [Op.headers])
    have hw := backed_write_header ser known hinj db hinv h hkh
    obtain ⟨j0, j1, j2, j3⟩ := hw
    simp only [applyAdd, AddBlockHeader]
    split_ifs with h1 h2
    · exact ⟨j0, j1, j2, j3⟩
    · have hok : (db.Write .HEADER h.GetHash.bytes (ser.SerializeHeader h)).1.isOk = true := by
        simpa using h1
      obtain ⟨t', ht'⟩ := Option.isSome_iff_exists.mp h2
      have hvis := (written_header_visible ser db h hok).1
      refine ⟨fun hn => ?_, j1, ?_, j3⟩
      · rw [ht'] at hn; cases hn
      · intro t ht x hx
        rcases List.mem_append.mp hx with hx | hx
        · exact j2 t ht x hx
        · have : x = h := by simpa using hx
          subst this
          exact ⟨hkh, hvis t ht⟩
    · have hok : (db.Write .HEADER h.GetHash.bytes (ser.SerializeHeader h)).1.isOk = true := by
        simpa using h1
      have hn : (db.Write .HEADER h.GetHash.bytes (ser.SerializeHeader h)).2.m_pTransaction
          = none := by
        cases hx : (db.Write .HEADER h.GetHash.bytes (ser.SerializeHeader h)).2.m_pTransaction with
        | none => rfl
        | some t => rw [hx] at h2; exact absurd rfl h2
      have hvis := (written_header_visible ser db h hok).2 hn
      refine ⟨j0, ?_, ?_, ?_⟩
      · intro e he
        rcases mem_put _ _ _ e he with rfl | ⟨hmem, _⟩
        · exact ⟨rfl, hkh, hvis⟩
        · exact j1 e hmem
      · intro t ht; rw [hn] at ht; cases ht
      · intro t ht; rw [hn] at ht; cases ht
  | AddBlockHeaders blockHeaders =>
    exact backed_addBlockHeaders_loop ser known hinj blockHeaders db hinv
      (fun h hh => hk h (by simpa [Op.headers] using hh))
  | AddBlock block =>
    have hw := backed_write_other ser known db hinv .BLOCK block.GetHash.bytes
      (ser.SerializeBlock block) (by decide)
    simp only [applyAdd, AddBlock]
    split_ifs <;> exact hw
  | AddBlockSums blockHash blockSums =>
    have hw := backed_write_other ser known db hinv .BLOCK_SUMS blockHash.bytes
      (ser.SerializeBlockSums blockSums) (by decide)
    simp only [applyAdd, AddBlockSums]
    split_ifs <;> exact hw
  | AddOutputPosition outputCommitment location =>
    have hw := backed_write_other ser known db hinv .OUTPUT_POS
      (outputCommitment.bytes.take 32) (ser.SerializeOutputLocation location) (by decide)
    simp only [applyAdd, AddOutputPosition]
    split_ifs <;> exact hw
  | AddBlockInputBitmap blockHash bitmap =>
    have hw := backed_write_other ser known db hinv .INPUT_BITMAP blockHash.bytes
      (ser.RoaringWrite bitmap) (by decide)
    simp only [applyAdd, AddBlockInputBitmap]
    split_ifs
    · exact hinv
    · exact hw

/-- `Backed` is kept along every sequence of steps that follows the protocol and adds known
headers only. -/
theorem backed_run (ser : Serialization) (known : BlockHeader → Prop)
    (hinj : ∀ a b, known a → known b → a.GetHash = b.GetHash → a = b) :
    ∀ (ops : List Op) (db : BlockDB), Backed ser known db →
      followsProtocol ser db ops = true → (∀ h ∈ headersOf ops, known h) →
      Backed ser known (run ser db ops) := by
  intro ops
  induction ops with
  | nil => intro db hinv _ _; exact hinv
  | cons op rest ih =>
    intro db hinv hp hk
    have hkrest : ∀ h ∈ headersOf rest, known h :=
      fun h hh => hk h (by simp [headersOf, hh])
    have hkop : ∀ h ∈ op.headers, known h :=
      fun h hh => hk h (by simp [headersOf, hh])
    obtain ⟨c1, c2, c3, c4, c5⟩ := backed_step_control ser known db hinv
    show Backed ser known (run ser (step ser db op) rest)
    cases op with
    | OnInitWrite =>
      simp only [followsProtocol, Bool.and_eq_true, List.isEmpty_iff] at hp
      exact ih _ (c1 hp.1) hp.2 hkrest
    | OnEndWrite =>
      simp only [followsProtocol, Bool.and_eq_true, List.isEmpty_iff] at hp
      exact ih _ (c2 hp.1) hp.2 hkrest
    | Commit => exact ih _ c3 (by simpa [followsProtocol] using hp) hkrest
    | Rollback => exact ih _ c4 (by simpa [followsProtocol] using hp) hkrest
    | Engine state => exact ih _ (c5 state) (by simpa [followsProtocol] using hp) hkrest
    | Add a =>
      exact ih _ (backed_applyAdd ser known hinj db hinv a hkop)
        (by simpa [followsProtocol] using hp) hkrest

end BlockDB

namespace BlockDB

/-- C19, as stated, fails: on the empty sample database, a batch adds a header, its commit fails
and the batch is ended without a rollback; the successful commit of the next, empty batch
puts the header into the cache. The header is then served from the cache by
`GetBlockHeader` although the committed HEADER column family holds nothing under its hash. -/
theorem uncommitted_header_served_from_cache :
    (run Sample.faithful Sample.emptyDB (Sample.abandonedBatch.take 3)).Commit.1
        = .error (.DatabaseException "Transaction::Commit Failed with error: Busy")
    ∧ (run Sample.faithful Sample.emptyDB (Sample.abandonedBatch.take 7)).Commit.1 = .ok ()
    ∧ (run Sample.faithful Sample.emptyDB Sample.abandonedBatch).BLOCK_HEADERS_CACHE.entries
        = [(Sample.blockHeader.GetHash, Sample.blockHeader)]
    ∧ (run Sample.faithful Sample.emptyDB Sample.abandonedBatch).m_pDatabase.data .HEADER
        Sample.blockHeader.GetHash.bytes = none
    ∧ GetBlockHeader Sample.faithful (run Sample.faithful Sample.emptyDB Sample.abandonedBatch)
        Sample.blockHeader.GetHash = .ok (some Sample.blockHeader)
    ∧ ¬ CacheBacked Sample.faithful (run Sample.faithful Sample.emptyDB Sample.abandonedBatch) := by
  have hentries : (run Sample.faithful Sample.emptyDB
      Sample.abandonedBatch).BLOCK_HEADERS_CACHE.entries
      = [(Sample.blockHeader.GetHash, Sample.blockHeader)] := by decide
  have hdata : (run Sample.faithful Sample.emptyDB Sample.abandonedBatch).m_pDatabase.data
      .HEADER Sample.blockHeader.GetHash.bytes = none := by decide
  refine ⟨rfl, rfl, hentries, hdata, rfl, ?_⟩
  intro hbacked
  have h := (hbacked (Sample.blockHeader.GetHash, Sample.blockHeader)
    (by rw [hentries]; exact List.mem_singleton.mpr rfl)).2
  rw [hdata] at h
  cases h

/-- C19, amended: from the opening of the database on, along every sequence of operations
(`OnInitWrite`, the `Add*` writes, `Commit` and `Rollback` whether the engine answers ok or
not, `OnEndWrite`) in which a batch is begun or ended only while no header is queued as
uncommitted, and in which headers with the same hash are the same header, every header held
in the cache is stored in the committed HEADER column family under its hash; so a header
that `GetBlockHeader` serves from the cache has been committed. -/
theorem cache_backed_when_protocol_followed (ser : Serialization) (pDatabase : KVHandle)
    (ops : List Op)
    (hprotocol : followsProtocol ser (opened pDatabase) ops = true)
    (hhash : ∀ a ∈ headersOf ops, ∀ b ∈ headersOf ops, a.GetHash = b.GetHash → a = b) :
    CacheBacked ser (run ser (opened pDatabase) ops)
    ∧ (∀ hash header,
        (run ser (opened pDatabase) ops).BLOCK_HEADERS_CACHE.Cached hash = true →
        GetBlockHeader ser (run ser (opened pDatabase) ops) hash = .ok (some header) →
        header.GetHash = hash
        ∧ (run ser (opened pDatabase) ops).m_pDatabase.data .HEADER hash.bytes
            = some (ser.SerializeHeader header)) := by
  have hstart : Backed ser (fun h => h ∈ headersOf ops) (opened pDatabase) := by
    refine ⟨fun _ => rfl, ?_, ?_, ?_⟩
    · intro e he; simp [opened] at he
    · intro t ht; simp [opened] at ht
    · intro t ht; simp [opened] at ht
  have hinv := backed_run ser (fun h => h ∈ headersOf ops)
    (fun a b ha hb hab => hhash a ha b hb hab) ops (opened pDatabase) hstart hprotocol
    (fun h hh => hh)
  have hbacked : CacheBacked ser (run ser (opened pDatabase) ops) :=
    fun e he => ⟨(hinv.2.1 e he).1, (hinv.2.1 e he).2.2⟩
  refine ⟨hbacked, ?_⟩
  intro hash header hc hget
  have hg : (run ser (opened pDatabase) ops).BLOCK_HEADERS_CACHE.Get hash = some header := by
    simpa [GetBlockHeader, hc] using hget
  unfold FIFOCache.Get at hg
  cases hf : (run ser (opened pDatabase) ops).BLOCK_HEADERS_CACHE.entries.find?
      (fun e => decide (e.1 = hash)) with
  | none => rw [hf] at hg; cases hg
  | some e =>
    rw [hf] at hg
    have he2 : e.2 = header := by simpa using hg
    have hmem := List.mem_of_find?_eq_some hf
    have hkey : e.1 = hash := by simpa using List.find?_some hf
    obtain ⟨b1, b2⟩ := hbacked e hmem
    rw [← he2, ← hkey]
    exact ⟨b1.symm, b2⟩

/-- C19, amended, instantiated: on the empty sample database a batch that adds the sample
header and commits follows the protocol; the header is cached and stored in HEADER. -/
theorem cache_backed_when_protocol_followed_witness :
    followsProtocol Sample.faithful (opened Sample.emptyDB.m_pDatabase) Sample.committedBatch
        = true
    ∧ (run Sample.faithful (opened Sample.emptyDB.m_pDatabase)
        Sample.committedBatch).BLOCK_HEADERS_CACHE.entries
        = [(Sample.blockHeader.GetHash, Sample.blockHeader)]
    ∧ CacheBacked Sample.faithful
        (run Sample.faithful (opened Sample.emptyDB.m_pDatabase) Sample.committedBatch) := by
  have hp : followsProtocol Sample.faithful (opened Sample.emptyDB.m_pDatabase)
      Sample.committedBatch = true := by decide
  have hh : ∀ a ∈ headersOf Sample.committedBatch, ∀ b ∈ headersOf Sample.committedBatch,
      a.GetHash = b.GetHash → a = b := by
    intro a ha b hb _
    have ha' : a = Sample.blockHeader := by simpa [headersOf, Op.headers, Sample.committedBatch] using ha
    have hb' : b = Sample.blockHeader := by simpa [headersOf, Op.headers, Sample.committedBatch] using hb
    rw [ha', hb']
  exact ⟨hp, by decide,
    (cache_backed_when_protocol_followed Sample.faithful Sample.emptyDB.m_pDatabase
      Sample.committedBatch hp hh).1⟩

end BlockDB

/-! ## Claims about HeaderAPI -/

namespace HeaderAPI

/-- C17: `GetHeader` selects the lookup by the shape of the request string. A string of 64
bytes that is valid hex is looked up by hash only, a string of 66 bytes that is valid hex by
output commitment only, and every other string is converted to a height and looked up by
height on the candidate chain. At most one lookup is called, so nothing else is tried when the
selected lookup finds nothing: the result is then null, and the handler answers a null result
with the bad request `HEADER NOT FOUND` and a header with the success response of its JSON. -/
theorem getHeader_selects_lookup_by_shape (env : Helpers) (requestedHeader : String)
    (pBlockChainServer : IBlockChainServer) (conn : mg_connection)
    (pNodeContext : NodeContext) :
    ((requestedHeader.utf8ByteSize = 64 ∧ env.IsValidHex requestedHeader = true) →
        (∀ hash, env.HashFromHex requestedHeader = .ok hash →
          (GetHeader env requestedHeader pBlockChainServer).lookups
              = [.GetBlockHeaderByHash hash]
          ∧ (GetHeader env requestedHeader pBlockChainServer).result
              = .ok (pBlockChainServer.GetBlockHeaderByHash hash))
        ∧ (∀ thrown, env.HashFromHex requestedHeader = .error thrown →
          (GetHeader env requestedHeader pBlockChainServer).lookups = []
          ∧ (GetHeader env requestedHeader pBlockChainServer).result = .ok none))
    ∧ ((requestedHeader.utf8ByteSize = 66 ∧ env.IsValidHex requestedHeader = true) →
        (∀ bytes, env.CBigIntegerFromHex requestedHeader = .ok bytes →
          (GetHeader env requestedHeader pBlockChainServer).lookups
              = [.GetBlockHeaderByCommitment ⟨bytes⟩]
          ∧ (GetHeader env requestedHeader pBlockChainServer).result
              = .ok (pBlockChainServer.GetBlockHeaderByCommitment ⟨bytes⟩))
        ∧ (∀ thrown, env.CBigIntegerFromHex requestedHeader = .error thrown →
          (GetHeader env requestedHeader pBlockChainServer).lookups = []
          ∧ (GetHeader env requestedHeader pBlockChainServer).result = .ok none))
    ∧ (¬ (requestedHeader.utf8ByteSize = 64 ∧ env.IsValidHex requestedHeader = true) →
        ¬ (requestedHeader.utf8ByteSize = 66 ∧ env.IsValidHex requestedHeader = true) →
        (∀ height, env.stoull requestedHeader = .ok height →
          (GetHeader env requestedHeader pBlockChainServer).lookups
              = [.GetBlockHeaderByHeight height .CANDIDATE]
          ∧ (GetHeader env requestedHeader pBlockChainServer).result
              = .ok (pBlockChainServer.GetBlockHeaderByHeight height .CANDIDATE))
        ∧ (∀ thrown, env.stoull requestedHeader = .error thrown →
          (GetHeader env requestedHeader pBlockChainServer).lookups = []))
    ∧ (GetHeader env requestedHeader pBlockChainServer).lookups.length ≤ 1
    ∧ ((GetHeader env (env.GetURIParam conn "/v1/headers/")
          pNodeContext.m_pBlockChainServer).result = .ok none →
        GetHeader_Handler env conn pNodeContext
          = .ok (.BuildBadRequestResponse "HEADER NOT FOUND"))
    ∧ (∀ pBlockHeader, (GetHeader env (env.GetURIParam conn "/v1/headers/")
          pNodeContext.m_pBlockChainServer).result = .ok (some pBlockHeader) →
        GetHeader_Handler env conn pNodeContext
          = .ok (.BuildSuccessResponse (env.BuildHeaderJSON pBlockHeader))) := by
  refine ⟨?_, ?_, ?_, ?_, ?_, ?_⟩
  · rintro ⟨h64, hhex⟩
    refine ⟨?_, ?_⟩
    · intro hash hconv
      cases hl : pBlockChainServer.GetBlockHeaderByHash hash <;>
        simp [GetHeader, h64, hhex, hconv, hl]
    · intro thrown hconv
      simp [GetHeader, h64, hhex, hconv]
  · rintro ⟨h66, hhex⟩
    refine ⟨?_, ?_⟩
    · intro bytes hconv
      cases hl : pBlockChainServer.GetBlockHeaderByCommitment ⟨bytes⟩ <;>
        simp [GetHeader, h66, hhex, hconv, hl]
    · intro thrown hconv
      simp [GetHeader, h66, hhex, hconv]
  · intro hn64 hn66
    have c64 : (requestedHeader.utf8ByteSize == 64 && env.IsValidHex requestedHeader) = false := by
      cases hc : (requestedHeader.utf8ByteSize == 64 && env.IsValidHex requestedHeader) with
      | false => rfl
      | true =>
        rw [Bool.and_eq_true, beq_iff_eq] at hc
        exact absurd hc hn64
    have c66 : (requestedHeader.utf8ByteSize == 66 && env.IsValidHex requestedHeader) = false := by
      cases hc : (requestedHeader.utf8ByteSize == 66 && env.IsValidHex requestedHeader) with
      | false => rfl
      | true =>
        rw [Bool.and_eq_true, beq_iff_eq] at hc
        exact absurd hc hn66
    refine ⟨?_, ?_⟩
    · intro height hconv
      unfold GetHeader
      rw [c64, c66]
      cases hl : pBlockChainServer.GetBlockHeaderByHeight height .CANDIDATE <;>
        simp [hconv, hl]
    · intro thrown hconv
      unfold GetHeader
      rw [c64, c66]
      cases thrown <;> simp [hconv]
  · unfold GetHeader
    split
    · split
      · split <;> simp
      · simp
    · split
      · split
        · dsimp only
          split <;> simp
        · simp
      · split
        · split <;> simp
        · simp
        · simp
  · intro h
    simp [GetHeader_Handler, h]
  · intro pBlockHeader h
    simp [GetHeader_Handler, h]

end HeaderAPI

/-! ## Claims about RangeProofPMMR -/

namespace RangeProofPMMR

/-- The reads and creations of `Load` are those of its promotion block. -/
theorem load_ghost {FS HashFile LeafSet PruneList DataFile : Type}
    (io : FileLayer FS HashFile LeafSet PruneList DataFile) (disk : FS)
    (txHashSetPath : String) (pHashFile : HashFile) (disk1 : FS)
    (hhash : io.HashFileLoad disk (txHashSetPath ++ "rangeproof/pmmr_hash.bin")
      = (.ok pHashFile, disk1)) :
    (Load io disk txHashSetPath).reads = (Load.promote io disk1 txHashSetPath).2.1
    ∧ (Load io disk txHashSetPath).created = (Load.promote io disk1 txHashSetPath).2.2 := by
  unfold Load
  rw [hhash]
  simp only []
  generalize Load.promote io disk1 txHashSetPath = promoted
  obtain ⟨⟨r, d⟩, reads, created⟩ := promoted
  cases r with
  | error what => exact ⟨rfl, rfl⟩
  | ok u =>
    simp only []
    constructor
    · repeat' split
      all_goals rfl
    · repeat' split
      all_goals rfl

/-- When the promotion block throws, `Load` throws the same exception. -/
theorem load_throws {FS HashFile LeafSet PruneList DataFile : Type}
    (io : FileLayer FS HashFile LeafSet PruneList DataFile) (disk : FS)
    (txHashSetPath : String) (pHashFile : HashFile) (disk1 : FS)
    (hhash : io.HashFileLoad disk (txHashSetPath ++ "rangeproof/pmmr_hash.bin")
      = (.ok pHashFile, disk1))
    (what : String) (disk2 : FS) (reads : List String) (created : List (String × Roaring))
    (hpromote : Load.promote io disk1 txHashSetPath = ((.error what, disk2), reads, created)) :
    (Load io disk txHashSetPath).result = .error what
    ∧ (Load io disk txHashSetPath).disk = disk2 := by
  unfold Load
  rw [hhash]
  simp only [hpromote]
  exact ⟨trivial, trivial⟩

/-- When the promotion block and the three loads after it succeed, `Load` returns the loaded
files. -/
theorem load_returns {FS HashFile LeafSet PruneList DataFile : Type}
    (io : FileLayer FS HashFile LeafSet PruneList DataFile) (disk : FS)
    (txHashSetPath : String) (pHashFile : HashFile) (disk1 : FS)
    (hhash : io.HashFileLoad disk (txHashSetPath ++ "rangeproof/pmmr_hash.bin")
      = (.ok pHashFile, disk1))
    (disk2 : FS) (reads : List String) (created : List (String × Roaring))
    (hpromote : Load.promote io disk1 txHashSetPath = ((.ok (), disk2), reads, created))
    (pLeafSet : LeafSet) (disk3 : FS) (pPruneList : PruneList) (disk4 : FS)
    (pDataFile : DataFile) (disk5 : FS)
    (hl : io.LeafSetLoad disk2 (txHashSetPath ++ "rangeproof/pmmr_leafset.bin")
      = (.ok pLeafSet, disk3))
    (hp : io.PruneListLoad disk3 (txHashSetPath ++ "rangeproof/pmmr_prun.bin")
      = (.ok pPruneList, disk4))
    (hd : io.DataFileLoad disk4 (txHashSetPath ++ "rangeproof/pmmr_data.bin")
      = (.ok pDataFile, disk5)) :
    (Load io disk txHashSetPath).result = .ok ⟨pHashFile, pLeafSet, pPruneList, pDataFile⟩
    ∧ (Load io disk txHashSetPath).disk = disk5 := by
  unfold Load
  rw [hhash]
  simp only [hpromote, hl, hp, hd]
  exact ⟨trivial, trivial⟩

/-- C16, amended: `Load` promotes the legacy leaf file exactly when, on the disk as
`HashFile::Load` leaves it, `rangeproof/pmmr_leafset.bin` does not exist and
`rangeproof/pmmr_leaf.bin` exists. It then reads the legacy file. When the file is read and
`Roaring::readSafe` parses it, `BitmapFile::Create` is called on `pmmr_leafset.bin` with the
bitmap read and the leaf set returned is the one `LeafSet::Load` reads from the file just
created, so it holds the legacy bitmap whenever a created bitmap file is read back as its
bitmap. When the file cannot be read, `pmmr_leafset.bin` is created with the empty bitmap;
when `Roaring::readSafe` throws, `Load` throws and creates nothing. Otherwise nothing is
read or created and the leaf set is loaded from the disk as it was. -/
theorem load_promotes_legacy_leaf_file {FS HashFile LeafSet PruneList DataFile : Type}
    (io : FileLayer FS HashFile LeafSet PruneList DataFile) (disk : FS)
    (txHashSetPath : String) (pHashFile : HashFile) (disk1 : FS)
    (hhash : io.HashFileLoad disk (txHashSetPath ++ "rangeproof/pmmr_hash.bin")
      = (.ok pHashFile, disk1)) :
    ((Load io disk txHashSetPath).reads = [txHashSetPath ++ "rangeproof/pmmr_leaf.bin"]
        ↔ (io.Exists disk1 (txHashSetPath ++ "rangeproof/pmmr_leafset.bin") = false
            ∧ io.Exists disk1 (txHashSetPath ++ "rangeproof/pmmr_leaf.bin") = true))
    ∧ ((Load io disk txHashSetPath).created ≠ [] →
        io.Exists disk1 (txHashSetPath ++ "rangeproof/pmmr_leafset.bin") = false
          ∧ io.Exists disk1 (txHashSetPath ++ "rangeproof/pmmr_leaf.bin") = true)
    ∧ (io.Exists disk1 (txHashSetPath ++ "rangeproof/pmmr_leafset.bin") = false →
        io.Exists disk1 (txHashSetPath ++ "rangeproof/pmmr_leaf.bin") = true →
        (∀ outputBytes outputBitmap,
          io.ReadFile disk1 (txHashSetPath ++ "rangeproof/pmmr_leaf.bin") = some outputBytes →
          io.readSafe outputBytes = .ok outputBitmap →
          (Load io disk txHashSetPath).created
              = [(txHashSetPath ++ "rangeproof/pmmr_leafset.bin", outputBitmap)]
          ∧ (∀ disk2 pLeafSet disk3 pPruneList disk4 pDataFile disk5,
              io.BitmapFileCreate disk1 (txHashSetPath ++ "rangeproof/pmmr_leafset.bin")
                  outputBitmap = (.ok (), disk2) →
              io.LeafSetLoad disk2 (txHashSetPath ++ "rangeproof/pmmr_leafset.bin")
                  = (.ok pLeafSet, disk3) →
              io.PruneListLoad disk3 (txHashSetPath ++ "rangeproof/pmmr_prun.bin")
                  = (.ok pPruneList, disk4) →
              io.DataFileLoad disk4 (txHashSetPath ++ "rangeproof/pmmr_data.bin")
                  = (.ok pDataFile, disk5) →
              (Load io disk txHashSetPath).result
                  = .ok ⟨pHashFile, pLeafSet, pPruneList, pDataFile⟩
              ∧ (Load io disk txHashSetPath).disk = disk5
              ∧ (∀ bitmapOf : LeafSet → Roaring,
                  (∀ d path bitmap d2 leafSet d3,
                    io.BitmapFileCreate d path bitmap = (.ok (), d2) →
                    io.LeafSetLoad d2 path = (.ok leafSet, d3) → bitmapOf leafSet = bitmap) →
                  bitmapOf pLeafSet = outputBitmap)))
        ∧ (io.ReadFile disk1 (txHashSetPath ++ "rangeproof/pmmr_leaf.bin") = none →
            (Load io disk txHashSetPath).created
              = [(txHashSetPath ++ "rangeproof/pmmr_leafset.bin", ⟨[]⟩)]
            ∧ (∀ disk2 pLeafSet disk3 pPruneList disk4 pDataFile disk5,
                io.BitmapFileCreate disk1 (txHashSetPath ++ "rangeproof/pmmr_leafset.bin")
                    ⟨[]⟩ = (.ok (), disk2) →
                io.LeafSetLoad disk2 (txHashSetPath ++ "rangeproof/pmmr_leafset.bin")
                    = (.ok pLeafSet, disk3) →
                io.PruneListLoad disk3 (txHashSetPath ++ "rangeproof/pmmr_prun.bin")
                    = (.ok pPruneList, disk4) →
                io.DataFileLoad disk4 (txHashSetPath ++ "rangeproof/pmmr_data.bin")
                    = (.ok pDataFile, disk5) →
                (Load io disk txHashSetPath).result
                    = .ok ⟨pHashFile, pLeafSet, pPruneList, pDataFile⟩
                ∧ (Load io disk txHashSetPath).disk = disk5
                ∧ (∀ bitmapOf : LeafSet → Roaring,
                    (∀ d path bitmap d2 leafSet d3,
                      io.BitmapFileCreate d path bitmap = (.ok (), d2) →
                      io.LeafSetLoad d2 path = (.ok leafSet, d3) →
                      bitmapOf leafSet = bitmap) →
                    bitmapOf pLeafSet = ⟨[]⟩)))
        ∧ (∀ outputBytes what,
            io.ReadFile disk1 (txHashSetPath ++ "rangeproof/pmmr_leaf.bin")
              = some outputBytes →
            io.readSafe outputBytes = .error what →
            (Load io disk txHashSetPath).created = []
            ∧ (Load io disk txHashSetPath).result = .error what
            ∧ (Load io disk txHashSetPath).disk = disk1))
    ∧ ((io.Exists disk1 (txHashSetPath ++ "rangeproof/pmmr_leafset.bin") = true
          ∨ io.Exists disk1 (txHashSetPath ++ "rangeproof/pmmr_leaf.bin") = false) →
        (Load io disk txHashSetPath).reads = []
        ∧ (Load io disk txHashSetPath).created = []
        ∧ (∀ pLeafSet disk3 pPruneList disk4 pDataFile disk5,
            io.LeafSetLoad disk1 (txHashSetPath ++ "rangeproof/pmmr_leafset.bin")
                = (.ok pLeafSet, disk3) →
            io.PruneListLoad disk3 (txHashSetPath ++ "rangeproof/pmmr_prun.bin")
                = (.ok pPruneList, disk4) →
            io.DataFileLoad disk4 (txHashSetPath ++ "rangeproof/pmmr_data.bin")
                = (.ok pDataFile, disk5) →
            (Load io disk txHashSetPath).result
                = .ok ⟨pHashFile, pLeafSet, pPruneList, pDataFile⟩
            ∧ (Load io disk txHashSetPath).disk = disk5)) := by
  have hg := load_ghost io disk txHashSetPath pHashFile disk1 hhash
  have hno : (io.Exists disk1 (txHashSetPath ++ "rangeproof/pmmr_leafset.bin") = true
        ∨ io.Exists disk1 (txHashSetPath ++ "rangeproof/pmmr_leaf.bin") = false) →
      Load.promote io disk1 txHashSetPath = ((.ok (), disk1), [], []) := by
    intro h
    unfold Load.promote
    rcases h with h | h <;> simp [h]
  have hyes : io.Exists disk1 (txHashSetPath ++ "rangeproof/pmmr_leafset.bin") = false →
      io.Exists disk1 (txHashSetPath ++ "rangeproof/pmmr_leaf.bin") = true →
      Load.promote io disk1 txHashSetPath
        = (match io.ReadFile disk1 (txHashSetPath ++ "rangeproof/pmmr_leaf.bin") with
          | some outputBytes =>
            match io.readSafe outputBytes with
            | .ok outputBitmap =>
              (io.BitmapFileCreate disk1 (txHashSetPath ++ "rangeproof/pmmr_leafset.bin")
                  outputBitmap,
                [txHashSetPath ++ "rangeproof/pmmr_leaf.bin"],
                [(txHashSetPath ++ "rangeproof/pmmr_leafset.bin", outputBitmap)])
            | .error what =>
              ((.error what, disk1), [txHashSetPath ++ "rangeproof/pmmr_leaf.bin"], [])
          | none =>
            (io.BitmapFileCreate disk1 (txHashSetPath ++ "rangeproof/pmmr_leafset.bin") ⟨[]⟩,
              [txHashSetPath ++ "rangeproof/pmmr_leaf.bin"],
              [(txHashSetPath ++ "rangeproof/pmmr_leafset.bin", ⟨[]⟩)])) := by
    intro h1 h2
    unfold Load.promote
    simp [h1, h2]
  have hreads : io.Exists disk1 (txHashSetPath ++ "rangeproof/pmmr_leafset.bin") = false →
      io.Exists disk1 (txHashSetPath ++ "rangeproof/pmmr_leaf.bin") = true →
      (Load io disk txHashSetPath).reads = [txHashSetPath ++ "rangeproof/pmmr_leaf.bin"] := by
    intro h1 h2
    rw [hg.1, hyes h1 h2]
    repeat' split
    all_goals rfl
  have hB : (io.Exists disk1 (txHashSetPath ++ "rangeproof/pmmr_leafset.bin") = true
        ∨ io.Exists disk1 (txHashSetPath ++ "rangeproof/pmmr_leaf.bin") = false) →
      (Load io disk txHashSetPath).reads = []
      ∧ (Load io disk txHashSetPath).created = []
      ∧ (∀ pLeafSet disk3 pPruneList disk4 pDataFile disk5,
          io.LeafSetLoad disk1 (txHashSetPath ++ "rangeproof/pmmr_leafset.bin")
              = (.ok pLeafSet, disk3) →
          io.PruneListLoad disk3 (txHashSetPath ++ "rangeproof/pmmr_prun.bin")
              = (.ok pPruneList, disk4) →
          io.DataFileLoad disk4 (txHashSetPath ++ "rangeproof/pmmr_data.bin")
              = (.ok pDataFile, disk5) →
          (Load io disk txHashSetPath).result
              = .ok ⟨pHashFile, pLeafSet, pPruneList, pDataFile⟩
          ∧ (Load io disk txHashSetPath).disk = disk5) := by
    intro h
    refine ⟨by rw [hg.1, hno h], by rw [hg.2, hno h], ?_⟩
    intro pLeafSet disk3 pPruneList disk4 pDataFile disk5 hl hp hd
    exact load_returns io disk txHashSetPath pHashFile disk1 hhash disk1 [] [] (hno h)
      pLeafSet disk3 pPruneList disk4 pDataFile disk5 hl hp hd
  have hcases : (io.Exists disk1 (txHashSetPath ++ "rangeproof/pmmr_leafset.bin") = false
        ∧ io.Exists disk1 (txHashSetPath ++ "rangeproof/pmmr_leaf.bin") = true)
      ∨ (io.Exists disk1 (txHashSetPath ++ "rangeproof/pmmr_leafset.bin") = true
        ∨ io.Exists disk1 (txHashSetPath ++ "rangeproof/pmmr_leaf.bin") = false) := by
    cases io.Exists disk1 (txHashSetPath ++ "rangeproof/pmmr_leafset.bin") <;>
      cases io.Exists disk1 (txHashSetPath ++ "rangeproof/pmmr_leaf.bin") <;> simp
  refine ⟨?_, ?_, ?_, hB⟩
  · constructor
    · intro hr
      rcases hcases with h | h
      · exact h
      · rw [(hB h).1] at hr
        cases hr
    · intro h
      exact hreads h.1 h.2
  · intro hc
    rcases hcases with h | h
    · exact h
    · exact absurd (hB h).2.1 hc
  · intro h1 h2
    refine ⟨?_, ?_, ?_⟩
    · intro outputBytes outputBitmap hread hparse
      have hpr : Load.promote io disk1 txHashSetPath
          = (io.BitmapFileCreate disk1 (txHashSetPath ++ "rangeproof/pmmr_leafset.bin")
                outputBitmap,
              [txHashSetPath ++ "rangeproof/pmmr_leaf.bin"],
              [(txHashSetPath ++ "rangeproof/pmmr_leafset.bin", outputBitmap)]) := by
        rw [hyes h1 h2, hread]
        simp only [hparse]
      refine ⟨by rw [hg.2, hpr], ?_⟩
      intro disk2 pLeafSet disk3 pPruneList disk4 pDataFile disk5 hc hl hp hd
      rw [hc] at hpr
      have hret := load_returns io disk txHashSetPath pHashFile disk1 hhash disk2 _ _ hpr
        pLeafSet disk3 pPruneList disk4 pDataFile disk5 hl hp hd
      exact ⟨hret.1, hret.2, fun bitmapOf hround =>
        hround disk1 _ outputBitmap disk2 pLeafSet disk3 hc hl⟩
    · intro hread
      have hpr : Load.promote io disk1 txHashSetPath
          = (io.BitmapFileCreate disk1 (txHashSetPath ++ "rangeproof/pmmr_leafset.bin") ⟨[]⟩,
              [txHashSetPath ++ "rangeproof/pmmr_leaf.bin"],
              [(txHashSetPath ++ "rangeproof/pmmr_leafset.bin", ⟨[]⟩)]) := by
        rw [hyes h1 h2, hread]
      refine ⟨by rw [hg.2, hpr], ?_⟩
      intro disk2 pLeafSet disk3 pPruneList disk4 pDataFile disk5 hc hl hp hd
      rw [hc] at hpr
      have hret := load_returns io disk txHashSetPath pHashFile disk1 hhash disk2 _ _ hpr
        pLeafSet disk3 pPruneList disk4 pDataFile disk5 hl hp hd
      exact ⟨hret.1, hret.2, fun bitmapOf hround =>
        hround disk1 _ ⟨[]⟩ disk2 pLeafSet disk3 hc hl⟩
    · intro outputBytes what hread hparse
      have hpr : Load.promote io disk1 txHashSetPath
          = ((.error what, disk1), [txHashSetPath ++ "rangeproof/pmmr_leaf.bin"], []) := by
        rw [hyes h1 h2, hread]
        simp only [hparse]
      have hthrow := load_throws io disk txHashSetPath pHashFile disk1 hhash what disk1 _ _ hpr
      exact ⟨by rw [hg.2, hpr], hthrow.1, hthrow.2⟩

/-- C16, amended, instantiated: on the sample disk that holds the legacy leaf file only, `Load` creates
`pmmr_leafset.bin` from the legacy bitmap and returns it as the leaf set; on the sample disk
that holds both files it reads and creates nothing and returns the existing leaf set. -/
theorem load_promotes_legacy_leaf_file_witness :
    Sample.fileLayer.HashFileLoad Sample.legacyDisk ("" ++ "rangeproof/pmmr_hash.bin")
        = (.ok [], Sample.legacyDisk)
    ∧ (Load Sample.fileLayer Sample.legacyDisk "").reads = ["" ++ "rangeproof/pmmr_leaf.bin"]
    ∧ (Load Sample.fileLayer Sample.legacyDisk "").created
        = [("" ++ "rangeproof/pmmr_leafset.bin", ⟨[1, 2, 5]⟩)]
    ∧ (Load Sample.fileLayer Sample.legacyDisk "").result.toOption.map (fun files => files.pLeafSet)
        = some ⟨[1, 2, 5]⟩
    ∧ (Load Sample.fileLayer Sample.promotedDisk "").reads = []
    ∧ (Load Sample.fileLayer Sample.promotedDisk "").created = []
    ∧ (Load Sample.fileLayer Sample.promotedDisk "").result.toOption.map
        (fun files => files.pLeafSet) = some ⟨[4]⟩ := by
  have h := load_promotes_legacy_leaf_file Sample.fileLayer Sample.legacyDisk "" []
    Sample.legacyDisk rfl
  have h2 := load_promotes_legacy_leaf_file Sample.fileLayer Sample.promotedDisk "" []
    Sample.promotedDisk rfl
  refine ⟨rfl, h.1.mpr ⟨rfl, rfl⟩, (h.2.2.1 rfl rfl).1 [1, 2, 5] ⟨[1, 2, 5]⟩ rfl rfl |>.1, ?_,
    (h2.2.2.2 (Or.inl rfl)).1, (h2.2.2.2 (Or.inl rfl)).2.1, ?_⟩
  · have hr := ((h.2.2.1 rfl rfl).1 [1, 2, 5] ⟨[1, 2, 5]⟩ rfl rfl).2 _ _ _ _ _ _ _
      rfl rfl rfl rfl
    rw [hr.1]
    rfl
  · have hr := (h2.2.2.2 (Or.inl rfl)).2.2 _ _ _ _ _ _ rfl rfl rfl
    rw [hr.1]
    rfl

end RangeProofPMMR

namespace HeaderAPI

/-- C21, as the code behaves: an exception escapes `GetHeader` exactly when the request string
is neither a 64-byte nor a 66-byte valid hex string and `std::stoull` throws something other
than `std::invalid_argument`. In particular a height string that is out of range makes
`std::out_of_range` escape `GetHeader`, with no lookup called, and escape the handler too.
In every other case `GetHeader` returns a header or null; a string that is not numeric
(`std::invalid_argument`) yields null. -/
theorem getHeader_lets_out_of_range_escape (env : Helpers) (requestedHeader : String)
    (pBlockChainServer : IBlockChainServer) (conn : mg_connection)
    (pNodeContext : NodeContext) :
    (¬ (requestedHeader.utf8ByteSize = 64 ∧ env.IsValidHex requestedHeader = true) →
        ¬ (requestedHeader.utf8ByteSize = 66 ∧ env.IsValidHex requestedHeader = true) →
        env.stoull requestedHeader = .error .out_of_range →
        (GetHeader env requestedHeader pBlockChainServer).result = .error .out_of_range
        ∧ (GetHeader env requestedHeader pBlockChainServer).lookups = [])
    ∧ ((GetHeader env (env.GetURIParam conn "/v1/headers/")
          pNodeContext.m_pBlockChainServer).result = .error .out_of_range →
        GetHeader_Handler env conn pNodeContext = .error .out_of_range)
    ∧ (∀ thrown, (GetHeader env requestedHeader pBlockChainServer).result = .error thrown ↔
        (¬ (requestedHeader.utf8ByteSize = 64 ∧ env.IsValidHex requestedHeader = true)
          ∧ ¬ (requestedHeader.utf8ByteSize = 66 ∧ env.IsValidHex requestedHeader = true)
          ∧ env.stoull requestedHeader = .error thrown
          ∧ thrown ≠ .invalid_argument))
    ∧ (¬ (requestedHeader.utf8ByteSize = 64 ∧ env.IsValidHex requestedHeader = true) →
        ¬ (requestedHeader.utf8ByteSize = 66 ∧ env.IsValidHex requestedHeader = true) →
        env.stoull requestedHeader = .error .invalid_argument →
        (GetHeader env requestedHeader pBlockChainServer).result = .ok none) := by
  have cond : ∀ n : Nat,
      ¬ (requestedHeader.utf8ByteSize = n ∧ env.IsValidHex requestedHeader = true) →
      (requestedHeader.utf8ByteSize == n && env.IsValidHex requestedHeader) = false := by
    intro n hn
    cases hc : (requestedHeader.utf8ByteSize == n && env.IsValidHex requestedHeader) with
    | false => rfl
    | true =>
      rw [Bool.and_eq_true, beq_iff_eq] at hc
      exact absurd hc hn
  have cond' : ∀ n : Nat,
      (requestedHeader.utf8ByteSize = n ∧ env.IsValidHex requestedHeader = true) →
      (requestedHeader.utf8ByteSize == n && env.IsValidHex requestedHeader) = true := by
    intro n hn
    rw [Bool.and_eq_true, beq_iff_eq]
    exact hn
  refine ⟨?_, ?_, ?_, ?_⟩
  · intro hn64 hn66 hconv
    unfold GetHeader
    rw [cond 64 hn64, cond 66 hn66]
    simp [hconv]
  · intro h
    simp [GetHeader_Handler, h]
  · intro thrown
    by_cases h64 : requestedHeader.utf8ByteSize = 64 ∧ env.IsValidHex requestedHeader = true
    · have hres : ∃ r, (GetHeader env requestedHeader pBlockChainServer).result = .ok r := by
        unfold GetHeader
        rw [cond' 64 h64]
        simp only [if_true]
        split
        · split
          · exact ⟨_, rfl⟩
          · exact ⟨_, rfl⟩
        · exact ⟨_, rfl⟩
      obtain ⟨r, hr⟩ := hres
      rw [hr]
      constructor
      · intro h; cases h
      · intro h; exact absurd h64 h.1
    · by_cases h66 : requestedHeader.utf8ByteSize = 66 ∧ env.IsValidHex requestedHeader = true
      · have hres : ∃ r, (GetHeader env requestedHeader pBlockChainServer).result = .ok r := by
          unfold GetHeader
          rw [cond 64 h64, cond' 66 h66]
          simp only [Bool.false_eq_true, if_false, if_true]
          split
          · split
            · exact ⟨_, rfl⟩
            · exact ⟨_, rfl⟩
          · exact ⟨_, rfl⟩
        obtain ⟨r, hr⟩ := hres
        rw [hr]
        constructor
        · intro h; cases h
        · intro h; exact absurd h66 h.2.1
      · unfold GetHeader
        rw [cond 64 h64, cond 66 h66]
        simp only [Bool.false_eq_true, if_false]
        cases hconv : env.stoull requestedHeader with
        | ok height =>
          simp only []
          cases hl : pBlockChainServer.GetBlockHeaderByHeight height .CANDIDATE <;>
            simp
        | error e =>
          cases e with
          | invalid_argument =>
            simp only []
            constructor
            · intro h; cases h
            · rintro ⟨_, _, h, hne⟩
              injection h with h
              exact absurd h.symm hne
          | out_of_range =>
            simp only []
            constructor
            · intro h
              injection h with h
              subst h
              exact ⟨h64, h66, rfl, by intro hh; cases hh⟩
            · rintro ⟨_, _, h, _⟩
              injection h with h
              rw [h]
          | exception what =>
            simp only []
            constructor
            · intro h
              injection h with h
              subst h
              exact ⟨h64, h66, rfl, by intro hh; cases hh⟩
            · rintro ⟨_, _, h, _⟩
              injection h with h
              rw [h]
  · intro hn64 hn66 hconv
    unfold GetHeader
    rw [cond 64 hn64, cond 66 hn66]
    simp [hconv]

/-- C21, instantiated: on the sample helpers the request for a height of twenty nines makes
`std::out_of_range` escape `GetHeader` and the handler. -/
theorem getHeader_lets_out_of_range_escape_witness :
    Sample.headerHelpers.stoull "99999999999999999999" = .error .out_of_range
    ∧ (GetHeader Sample.headerHelpers "99999999999999999999" Sample.blockChainServer).result
        = .error .out_of_range
    ∧ GetHeader_Handler Sample.headerHelpers Sample.outOfRangeRequest ⟨Sample.blockChainServer⟩
        = .error .out_of_range :=
  ⟨rfl,
    ((getHeader_lets_out_of_range_escape Sample.headerHelpers "99999999999999999999"
      Sample.blockChainServer Sample.outOfRangeRequest ⟨Sample.blockChainServer⟩).1
      (by decide) (by decide) rfl).1,
    (getHeader_lets_out_of_range_escape Sample.headerHelpers "99999999999999999999"
      Sample.blockChainServer Sample.outOfRangeRequest ⟨Sample.blockChainServer⟩).2.1 rfl⟩

end HeaderAPI

/-! ## Claims about OwnerPostAPI -/

namespace OwnerPostAPI

variable {Json SessionToken Slate Transaction Uuid SelectionStrategy : Type}

/-- C22: for every action outside the ten supported ones, `HandlePOST` answers a bad request
(`Request body not found.` when the request has no body, otherwise that the action is not
supported) and calls no operation of the wallet manager or of the node client; and for each
of the five actions that require a body, a request without a body is answered with the bad
request `Request body not found.` with no operation called. -/
theorem handlePOST_rejects_unsupported_and_bodyless
    (env : Helpers Json SessionToken Slate Transaction Uuid SelectionStrategy)
    (pConnection : mg_connection) (action : String)
    (walletManager : IWalletManager SessionToken Slate Transaction Uuid SelectionStrategy)
    (nodeClient : INodeClient Transaction) :
    (action ∉ supportedActions →
        (HandlePOST env pConnection action walletManager nodeClient).calls = []
        ∧ (env.GetRequestBody pConnection = none →
            (HandlePOST env pConnection action walletManager nodeClient).response
              = .ok (.BuildBadRequestResponse "Request body not found."))
        ∧ (∀ requestBody, env.GetRequestBody pConnection = some requestBody →
            (HandlePOST env pConnection action walletManager nodeClient).response
              = .ok (.BuildBadRequestResponse
                  ("POST /v1/wallet/owner/" ++ action ++ " not Supported"))))
    ∧ (action ∈ bodyActions → env.GetRequestBody pConnection = none →
        (HandlePOST env pConnection action walletManager nodeClient).response
            = .ok (.BuildBadRequestResponse "Request body not found.")
        ∧ (HandlePOST env pConnection action walletManager nodeClient).calls = []) := by
  constructor
  · intro hnot
    simp only [supportedActions, List.mem_cons, List.mem_singleton, List.mem_nil_iff,
      not_or, or_false] at hnot
    obtain ⟨h1, h2, h3, h4, h5, h6, h7, h8, h9, h10⟩ := hnot
    unfold HandlePOST
    simp only [h1, h2, h3, h4, h5, h6, h7, h8, h9, h10, if_false]
    cases hbody : env.GetRequestBody pConnection with
    | none => simp
    | some requestBody => simp
  · intro hmem hbody
    have hne : action ≠ "create_wallet" ∧ action ≠ "login" ∧ action ≠ "logout"
        ∧ action ≠ "update_wallet" ∧ action ≠ "cancel_tx" := by
      simp only [bodyActions, List.mem_cons, List.mem_singleton, List.mem_nil_iff,
        or_false] at hmem
      rcases hmem with h | h | h | h | h <;> (subst h; decide)
    obtain ⟨h1, h2, h3, h4, h5⟩ := hne
    unfold HandlePOST
    simp only [h1, h2, h3, h4, h5, if_false, hbody]
    exact ⟨trivial, trivial⟩

/-- C22, instantiated: on the sample helpers the action `repost` is answered as not supported
when the request has a body and with `Request body not found.` when it has none, and the
action `post_tx` without a body is answered with `Request body not found.`; no operation is
called in either case. -/
theorem handlePOST_rejects_unsupported_and_bodyless_witness :
    "repost" ∉ supportedActions
    ∧ (HandlePOST (Sample.ownerHelpers (some "body")) Sample.ownerRequest "repost"
        Sample.walletManager Sample.nodeClient).response
        = .ok (.BuildBadRequestResponse ("POST /v1/wallet/owner/" ++ "repost" ++ " not Supported"))
    ∧ (HandlePOST (Sample.ownerHelpers (some "body")) Sample.ownerRequest "repost"
        Sample.walletManager Sample.nodeClient).calls = []
    ∧ (HandlePOST (Sample.ownerHelpers none) Sample.ownerRequest "repost"
        Sample.walletManager Sample.nodeClient).response
        = .ok (.BuildBadRequestResponse "Request body not found.")
    ∧ "post_tx" ∈ bodyActions
    ∧ (HandlePOST (Sample.ownerHelpers none) Sample.ownerRequest "post_tx"
        Sample.walletManager Sample.nodeClient).response
        = .ok (.BuildBadRequestResponse "Request body not found.")
    ∧ (HandlePOST (Sample.ownerHelpers none) Sample.ownerRequest "post_tx"
        Sample.walletManager Sample.nodeClient).calls = [] :=
  ⟨by decide,
    ((handlePOST_rejects_unsupported_and_bodyless (Sample.ownerHelpers (some "body"))
      Sample.ownerRequest "repost" Sample.walletManager Sample.nodeClient).1
      (by decide)).2.2 "body" rfl,
    ((handlePOST_rejects_unsupported_and_bodyless (Sample.ownerHelpers (some "body"))
      Sample.ownerRequest "repost" Sample.walletManager Sample.nodeClient).1
      (by decide)).1,
    ((handlePOST_rejects_unsupported_and_bodyless (Sample.ownerHelpers none)
      Sample.ownerRequest "repost" Sample.walletManager Sample.nodeClient).1
      (by decide)).2.1 rfl,
    by decide,
    ((handlePOST_rejects_unsupported_and_bodyless (Sample.ownerHelpers none)
      Sample.ownerRequest "post_tx" Sample.walletManager Sample.nodeClient).2
      (by decide) rfl).1,
    ((handlePOST_rejects_unsupported_and_bodyless (Sample.ownerHelpers none)
      Sample.ownerRequest "post_tx" Sample.walletManager Sample.nodeClient).2
      (by decide) rfl).2⟩

end OwnerPostAPI

namespace BlockDB

end BlockDB

namespace RangeProofPMMR

/-- C16, as stated, fails: on the sample disk that holds the legacy leaf file only, with a file
layer on which the legacy file exists but cannot be read, `Load` returns normally, creates
`pmmr_leafset.bin` with the empty bitmap and returns an empty leaf set, although the legacy
file holds the values 1, 2 and 5. -/
theorem load_promotes_empty_bitmap_on_unreadable_legacy_file :
    Sample.unreadableLayer.Exists Sample.legacyDisk ("" ++ "rangeproof/pmmr_leafset.bin")
        = false
    ∧ Sample.unreadableLayer.Exists Sample.legacyDisk ("" ++ "rangeproof/pmmr_leaf.bin") = true
    ∧ Sample.legacyDisk "rangeproof/pmmr_leaf.bin" = some [1, 2, 5]
    ∧ Sample.unreadableLayer.ReadFile Sample.legacyDisk ("" ++ "rangeproof/pmmr_leaf.bin")
        = none
    ∧ (Load Sample.unreadableLayer Sample.legacyDisk "").created
        = [("" ++ "rangeproof/pmmr_leafset.bin", ⟨[]⟩)]
    ∧ (Load Sample.unreadableLayer Sample.legacyDisk "").result.toOption.map
        (fun files => files.pLeafSet) = some ⟨[]⟩
    ∧ (Load Sample.unreadableLayer Sample.legacyDisk "").disk "rangeproof/pmmr_leafset.bin"
        = some []
    ∧ (⟨[]⟩ : Roaring) ≠ ⟨[1, 2, 5]⟩ :=
  ⟨rfl, rfl, rfl, rfl, rfl, rfl, rfl, by decide⟩

end RangeProofPMMR

end Grin
